import Mathlib

/-!
# The load-test harness of `loadtest.go`

`runLoadTest` is a concurrent Go function: one spawning loop, one goroutine per
simulated user, a buffered channel `users` used as a counting semaphore, a
`sync.WaitGroup` and a timeout context `tctx`.  It is embedded here as a
labelled transition system.  A `State` holds the program counter of the
spawning loop, the program counter of every per-user goroutine and the shared
objects; an `Event` is one atomic action of one goroutine or of the environment
(the clock, the caller cancelling `ctx`, the timer of `tctx`, a scenario call
returning).  `step` is the executable transition function and `exec` runs a
schedule, that is a list of events.  A property of "every run" is a property of
every schedule accepted by `exec`.

Durations and instants are integers counting nanoseconds.  `int64` arithmetic
wraps explicitly through `wrap64`.

The progress goroutine of lines 43-54 only reads `len(users)` and
`tctx.Done()`; it writes no shared object and is left out of the state.
-/

set_option linter.unusedTactic false
set_option linter.unreachableTactic false
set_option linter.unusedVariables false

namespace LoadTest

/-! ## Integers of the machine and of package `time` -/

/-- Wrap-around of a mathematical integer into the range of Go's `int64`. -/
def wrap64 (x : Int) : Int :=
  (x + 9223372036854775808) % 18446744073709551616 - 9223372036854775808

/-- Largest `int64`, also the largest `time.Duration`. -/
def maxInt64 : Int := 9223372036854775807

/-- Largest `int32`, the type of `config.Users` and `config.SpawnRate`. -/
def maxInt32 : Int := 2147483647

/-- Value of `time.Second.Nanoseconds()`. -/
def secondNanos : Int := 1000000000

/-! ## Data model -/

/-- The struct `config` (lines 13-17).  `Duration` is a `time.Duration`, hence a
number of nanoseconds. -/
structure config where
  Duration : Int
  Users : Int
  SpawnRate : Int
deriving DecidableEq, Repr

/-- The fields `Users` and `SpawnRate` are `int32` values and `Duration` is an
`int64` value. -/
def config.inRange (conf : config) : Prop :=
  (-maxInt32 - 1 ≤ conf.Users ∧ conf.Users ≤ maxInt32) ∧
  (-maxInt32 - 1 ≤ conf.SpawnRate ∧ conf.SpawnRate ≤ maxInt32) ∧
  (-maxInt64 - 1 ≤ conf.Duration ∧ conf.Duration ≤ maxInt64)

instance (conf : config) : Decidable conf.inRange := by
  unfold config.inRange; infer_instance

/-- A Go `error` value, reduced to what the harness inspects: an identity, and
whether `errors.Is(err, context.Canceled)` holds along its chain.  `stack`
records a wrapping by `errors.WithStack`. -/
structure GoError where
  id : Nat
  isCanceled : Bool
  stack : Bool
deriving DecidableEq, Repr

/-- The call `errors.WithStack(err)` on a non-nil error: the chain is kept. -/
def withStack (e : GoError) : GoError := { e with stack := true }

/-- The function `errorHandler` (lines 116-123).  The error sink is the list of
errors it has reported.  The only reporting statement of the function is
commented out in the source, so both branches leave the sink as it is. -/
def errorHandler (sink : List GoError) (err : GoError) : List GoError :=
  if err.isCanceled then sink else sink

/-- A buffered channel of `struct{}`: only the number of queued elements, the
capacity and the closed flag matter. -/
structure Chan where
  len : Nat
  cap : Nat
  closed : Bool
deriving DecidableEq, Repr

/-- Program counter of the goroutine that runs `runLoadTest`. -/
inductive MainPc where
  /-- Line 28: inside `initScenario.Run`. -/
  | init
  /-- Line 63: top of the spawning loop. -/
  | loopTop
  /-- Line 64: `int64(len(users))*interval` evaluated with `len(users) = k`,
  `time.Since(start)` not yet. -/
  | timing (k : Nat)
  /-- Line 64: inside `time.Sleep`, which may return once the clock reaches `wakeAt`. -/
  | sleeping (wakeAt : Int)
  /-- Line 66: at the outer `select`. -/
  | selecting
  /-- Line 70: a slot was sent on `users`, at the inner `select`. -/
  | acquired
  /-- Running the deferred `close(users)` of line 41. -/
  | closing
  /-- Running the deferred `cancel()` of line 39. -/
  | cancelling
  /-- Running the deferred `workers.Wait()` of line 35. -/
  | waiting
  /-- The function returned `err` to its caller (`none` is `nil`). -/
  | returned (err : Option GoError)
  /-- A run-time panic reached the top of a goroutine: the process is dead. -/
  | crashed
deriving DecidableEq, Repr

/-- Program counter of one per-user goroutine (lines 79-108). -/
inductive TaskPc where
  /-- Created by the `go` statement, `userSpawnScenario.Run` not yet called. -/
  | created
  /-- Line 86: inside `userSpawnScenario.Run`. -/
  | spawning
  /-- Line 93: the spawn step returned `userName`, at the `select`. -/
  | check (userName : Nat)
  /-- Line 102: inside `articleScenario.Run`. -/
  | scenario (userName : Nat)
  /-- Body left, deferred function about to run `<-users` (line 81). -/
  | release
  /-- Line 82: `<-users` done, `workers.Done()` not yet. -/
  | finishing
  /-- The goroutine has ended. -/
  | done
deriving DecidableEq, Repr

/-- One recorded call of `articleScenario.Run`: the goroutine that made it and
the two arguments it passed. -/
structure ScenarioCall where
  task : Nat
  userName : Nat
  articleIDs : Nat
deriving DecidableEq, Repr

/-- State of one run of `runLoadTest`.  The fields after `tasks` are history
variables: they record what happened and no transition reads them. -/
structure State where
  pc : MainPc
  /-- The spawning goroutine is unwinding because of a panic. -/
  panicking : Bool
  /-- The monotonic clock. -/
  now : Int
  /-- Line 36: `start`, meaningful once `started`. -/
  start : Int
  /-- Lines 36-41 have run: the run clock, `tctx` and `users` exist. -/
  started : Bool
  /-- The caller's `ctx` is cancelled. -/
  ctxDone : Bool
  /-- The channel `tctx.Done()` is closed. -/
  tctxDone : Bool
  users : Chan
  /-- Counter of the wait group `workers`. -/
  workers : Int
  /-- Result of the initialization scenario. -/
  articleIDs : Nat
  tasks : List TaskPc
  /-- Number of sends on `users` that succeeded. -/
  acquired : Nat
  /-- Number of receives `<-users` that completed. -/
  released : Nat
  /-- Number of `go` statements executed at line 79. -/
  launched : Nat
  /-- Number of calls of `userSpawnScenario.Run`. -/
  spawnCalls : Nat
  /-- Calls of `articleScenario.Run`, oldest first. -/
  scenarioLog : List ScenarioCall
  /-- Errors reported by `errorHandler`. -/
  sink : List GoError
  /-- The loop left through the re-check of line 71, right after a send. -/
  exitAfterAcquire : Bool
deriving DecidableEq, Repr

/-- Atomic actions.  The first three belong to the environment, the next ten to
the spawning goroutine, the last six to the per-user goroutine number `i`. -/
inductive Event where
  /-- The clock advances by `d` nanoseconds. -/
  | tick (d : Nat)
  /-- The caller cancels `ctx` (an interrupt signal in `main.go`). -/
  | interrupt
  /-- The timer armed by `context.WithTimeout` fires. -/
  | timeout
  /-- Line 28: `initScenario.Run` returns. -/
  | initReturn (r : Except GoError Nat)
  /-- Lines 63-64: `interval` and `int64(len(users))*interval`. -/
  | readLen
  /-- Line 64: `time.Since(start)` and the call of `time.Sleep`. -/
  | sleepStart
  /-- Line 64: `time.Sleep` returns. -/
  | sleepEnd
  /-- Line 67: the outer `select` takes `users <- struct{}{}`. -/
  | sendSlot
  /-- Line 109: the outer `select` takes `<-tctx.Done()`. -/
  | observeDone
  /-- Lines 70-79: the inner `select`, then `workers.Add(1)` and `go`. -/
  | recheck
  /-- Deferred `close(users)`. -/
  | closeUsers
  /-- Deferred `cancel()`. -/
  | cancelT
  /-- Deferred `workers.Wait()` returns, then the function does. -/
  | waited
  /-- Line 86: the goroutine calls `userSpawnScenario.Run`. -/
  | spawnCall (i : Nat)
  /-- Line 86: `userSpawnScenario.Run` returns. -/
  | spawnReturn (i : Nat) (r : Except GoError Nat)
  /-- Lines 93-102: the `select` of the goroutine. -/
  | check (i : Nat)
  /-- Line 102: `articleScenario.Run` returns (`none` is `nil`). -/
  | scenarioReturn (i : Nat) (r : Option GoError)
  /-- Line 81: `<-users`. -/
  | recv (i : Nat)
  /-- Line 82: `workers.Done()`. -/
  | done (i : Nat)

/-! ## The ramp scheduler (lines 63-64) -/

/-- Line 63: `time.Second.Nanoseconds() / int64(conf.SpawnRate)`.  Go's integer
division truncates toward zero.  The caller excludes `SpawnRate = 0`, where Go
panics. -/
def interval (conf : config) : Int := Int.tdiv secondNanos conf.SpawnRate

/-- Line 64, the argument of `time.Sleep`:
`time.Duration(int64(len)*interval) - elapsed`, where `len` is `len(users)` and
`elapsed` the value of `time.Since(start)`. -/
def sleepArg (conf : config) (len : Int) (elapsed : Int) : Int :=
  wrap64 (wrap64 (len * interval conf) - elapsed)

/-- Earliest instant at which `time.Sleep(d)`, called at `now`, may return: a
zero or negative `d` returns immediately. -/
def wakeTime (now d : Int) : Int := now + max d 0

/-- Value of `time.Since(start)`: a `time.Duration`, saturated at its maximum. -/
def since (s : State) : Int := min (s.now - s.start) maxInt64

/-! ## Transitions -/

/-- State in which `runLoadTest` is called at clock value `t0`, the caller's
context cancelled or not. -/
def initial (t0 : Int) (ctxDone : Bool) : State :=
  { pc := .init, panicking := false, now := t0, start := 0, started := false,
    ctxDone := ctxDone, tctxDone := false, users := ⟨0, 0, false⟩, workers := 0,
    articleIDs := 0, tasks := [], acquired := 0, released := 0, launched := 0,
    spawnCalls := 0, scenarioLog := [], sink := [], exitAfterAcquire := false }

/-- The per-user goroutine `i` moves to `t`. -/
def setTask (s : State) (i : Nat) (t : TaskPc) : State :=
  { s with tasks := s.tasks.set i t }

/-- Lines 28-41 once `initScenario.Run` has returned.  An error is returned
wrapped, before any `defer` is registered.  Otherwise the run clock starts,
`tctx` is created (already done when its parent is, or when the timeout is not
positive), and `make(chan struct{}, conf.Users)` panics on a negative size, with
the deferred `cancel()` and `workers.Wait()` registered. -/
def stepInit (conf : config) (s : State) (r : Except GoError Nat) : State :=
  match r with
  | .error e => { s with pc := .returned (some (withStack e)) }
  | .ok ids =>
    let s1 : State :=
      { s with articleIDs := ids, started := true, start := s.now,
               tctxDone := s.ctxDone || decide (conf.Duration ≤ 0) }
    if conf.Users < 0 then { s1 with panicking := true, pc := .cancelling }
    else { s1 with users := ⟨0, conf.Users.toNat, false⟩, pc := .loopTop }

/-- Actions of the spawning goroutine at program counter `s.pc`. -/
def stepMain (conf : config) (s : State) : Event → Option State
  | .initReturn r =>
    if s.pc = .init then some (stepInit conf s r) else none
  | .readLen =>
    if s.pc = .loopTop then
      if conf.SpawnRate = 0 then some { s with panicking := true, pc := .closing }
      else some { s with pc := .timing s.users.len }
    else none
  | .sleepStart =>
    match s.pc with
    | .timing k =>
      some { s with pc := .sleeping (wakeTime s.now (sleepArg conf k (since s))) }
    | _ => none
  | .sleepEnd =>
    match s.pc with
    | .sleeping w => if w ≤ s.now then some { s with pc := .selecting } else none
    | _ => none
  | .sendSlot =>
    if s.pc = .selecting ∧ s.users.len < s.users.cap then
      some { s with users := { s.users with len := s.users.len + 1 },
                    acquired := s.acquired + 1, pc := .acquired }
    else none
  | .observeDone =>
    if s.pc = .selecting ∧ s.tctxDone = true then some { s with pc := .closing }
    else none
  | .recheck =>
    if s.pc = .acquired then
      if s.tctxDone then some { s with exitAfterAcquire := true, pc := .closing }
      else some { s with workers := s.workers + 1, tasks := s.tasks ++ [.created],
                         launched := s.launched + 1, pc := .loopTop }
    else none
  | .closeUsers =>
    if s.pc = .closing then
      some { s with users := { s.users with closed := true }, pc := .cancelling }
    else none
  | .cancelT =>
    if s.pc = .cancelling then some { s with tctxDone := true, pc := .waiting }
    else none
  | .waited =>
    if s.pc = .waiting ∧ s.workers = 0 then
      some { s with pc := if s.panicking then .crashed else .returned none }
    else none
  | _ => none

/-- Actions of the per-user goroutine whose program counter is `t`. -/
def stepTask (s : State) (i : Nat) (t : TaskPc) : Event → Option State
  | .spawnCall _ =>
    match t with
    | .created => some { setTask s i .spawning with spawnCalls := s.spawnCalls + 1 }
    | _ => none
  | .spawnReturn _ r =>
    match t with
    | .spawning =>
      match r with
      | .ok u => some (setTask s i (.check u))
      | .error e => some { setTask s i .release with sink := errorHandler s.sink e }
    | _ => none
  | .check _ =>
    match t with
    | .check u =>
      if s.tctxDone then some (setTask s i .release)
      else some { setTask s i (.scenario u) with
                  scenarioLog := s.scenarioLog ++ [⟨i, u, s.articleIDs⟩] }
    | _ => none
  | .scenarioReturn _ r =>
    match t with
    | .scenario _ =>
      match r with
      | none => some (setTask s i .release)
      | some e => some { setTask s i .release with sink := errorHandler s.sink e }
    | _ => none
  | .recv _ =>
    match t with
    | .release =>
      if 0 < s.users.len then
        some { setTask s i .finishing with
               users := { s.users with len := s.users.len - 1 },
               released := s.released + 1 }
      else if s.users.closed then
        some { setTask s i .finishing with released := s.released + 1 }
      else none
    | _ => none
  | .done _ =>
    match t with
    | .finishing =>
      if s.workers ≤ 0 then some { s with pc := .crashed }
      else some { setTask s i .done with workers := s.workers - 1 }
    | _ => none
  | _ => none

/-- Goroutine addressed by an event of a per-user goroutine. -/
def Event.taskIndex : Event → Option Nat
  | .spawnCall i => some i
  | .spawnReturn i _ => some i
  | .check i => some i
  | .scenarioReturn i _ => some i
  | .recv i => some i
  | .done i => some i
  | _ => none

/-- One atomic action.  `none` means the action is not enabled in `s`: the
goroutine is elsewhere, or it is blocked (a full channel, a sleep that has not
elapsed, a wait group that is not at zero). -/
def step (conf : config) (s : State) (ev : Event) : Option State :=
  if s.pc = .crashed then none
  else
    match ev with
    | .tick d => some { s with now := s.now + d }
    | .interrupt =>
      some { s with ctxDone := true, tctxDone := s.tctxDone || s.started }
    | .timeout =>
      if s.started = true ∧ conf.Duration ≤ s.now - s.start then
        some { s with tctxDone := true }
      else none
    | ev =>
      match ev.taskIndex with
      | some i =>
        match s.tasks[i]? with
        | some t => stepTask s i t ev
        | none => none
      | none => stepMain conf s ev

/-- Run a schedule from `s`; `none` when some action of it is not enabled. -/
def exec (conf : config) (s : State) : List Event → Option State
  | [] => some s
  | ev :: evs => (step conf s ev).bind fun s1 => exec conf s1 evs

/-! ## Observations on a state -/

/-- A goroutine that has not yet run its `<-users` holds the slot sent for it. -/
def TaskPc.holdsSlot : TaskPc → Bool
  | .created | .spawning | .check _ | .scenario _ | .release => true
  | .finishing | .done => false

/-- A goroutine that was launched and has not called `workers.Done()`. -/
def TaskPc.unfinished : TaskPc → Bool
  | .done => false
  | _ => true

/-- Slots acquired and not released, counted from the history of the run. -/
def outstanding (s : State) : Int := (s.acquired : Int) - (s.released : Int)

/-- Number of launched goroutines that are still running. -/
def running (s : State) : Nat := s.tasks.countP TaskPc.unfinished

/-- Nanoseconds elapsed since the run clock started. -/
def elapsed (s : State) : Int := s.now - s.start

/-- The run has stopped: `runLoadTest` returned, or the process crashed. -/
def stopped (s : State) : Bool :=
  match s.pc with
  | .returned _ | .crashed => true
  | _ => false


/-- Slots held by the spawning goroutine itself: the one just sent at line 67,
until the inner `select` has decided what becomes of it. -/
def MainPc.holding : MainPc → Nat
  | .acquired => 1
  | _ => 0

/-- The spawning goroutine has left the loop. -/
def MainPc.unwinding : MainPc → Bool
  | .closing | .cancelling | .waiting | .returned _ | .crashed => true
  | _ => false

/-- Slots left in `users` by the exit of line 73. -/
def leaked (s : State) : Nat := if s.exitAfterAcquire then 1 else 0

/-- What every reachable state satisfies, whatever the configuration. -/
structure Inv (conf : config) (s : State) : Prop where
  tokens : s.users.len = s.tasks.countP TaskPc.holdsSlot + s.pc.holding + leaked s
  ledger : s.acquired = s.released + s.users.len
  wg : s.workers = ((s.tasks.countP TaskPc.unfinished : Nat) : Int)
  launchedEq : s.launched = s.tasks.length
  lenLe : s.users.len ≤ s.users.cap
  capLe : (s.users.cap : Int) ≤ max conf.Users 0
  fresh : s.started = false →
    s.tasks = [] ∧ s.acquired = 0 ∧ s.spawnCalls = 0 ∧ s.scenarioLog = [] ∧
      (s.pc = .init ∨ ∃ e, s.pc = .returned (some e))
  startedPc : s.started = true → s.pc ≠ .init ∧ ∀ e, s.pc ≠ .returned (some e)
  leakPc : s.exitAfterAcquire = true → s.pc.unwinding = true
  panicWhy : s.panicking = true → conf.Users < 0 ∨ conf.SpawnRate = 0
  crashWhy : s.pc = .crashed → s.panicking = true


/-- Timing facts of the spawning loop, stated at each of its program counters.
`ramp` is the one that holds everywhere: the number of queued slots never runs
more than one interval ahead of the clock. -/
structure TimeInv (conf : config) (s : State) : Prop where
  clock : s.started = true → s.start ≤ s.now
  read : ∀ k, s.pc = .timing k → s.users.len ≤ k ∧ k ≤ s.users.cap
  asleep : ∀ w, s.pc = .sleeping w → s.start + (s.users.len : Int) * interval conf ≤ w
  ready : s.pc = .selecting → (s.users.len : Int) * interval conf ≤ s.now - s.start
  ramp : s.started = true →
    (s.users.len : Int) * interval conf ≤ (s.now - s.start) + interval conf

/-- The goroutine has not yet called `userSpawnScenario.Run`. -/
def TaskPc.isCreated : TaskPc → Bool
  | .created => true
  | _ => false

/-- Facts about the history variables and about the end of the run. -/
structure HistInv (s : State) : Prop where
  releasedEq : s.released + s.tasks.countP TaskPc.holdsSlot = s.tasks.length
  quiet : stopped s = true → s.workers = 0
  panicPc : s.panicking = true → s.pc.unwinding = true
  logIds : ∀ c ∈ s.scenarioLog, c.articleIDs = s.articleIDs
  callsEq : s.spawnCalls + s.tasks.countP TaskPc.isCreated = s.tasks.length

/-! ## Concrete runs -/

/-- Two seconds, at most two users at a time, ten users per second. -/
def rampConf : config := ⟨2000000000, 2, 10⟩

/-- The first two users of `rampConf` are launched, the second one after the
100 ms that the scheduler asks for. -/
def rampRun : List Event :=
  [.initReturn (.ok 7), .readLen, .sleepStart, .sleepEnd, .sendSlot, .recheck,
   .readLen, .sleepStart, .tick 100000000, .sleepEnd, .sendSlot, .recheck]

/-- One second, one user at a time, a thousand users per second. -/
def raceConf : config := ⟨1000000000, 1, 1000⟩

/-- The only user of `raceConf` ends its scenario at the very moment the
deadline fires: the outer `select` has both cases ready, takes the send, and
the re-check of line 71 then ends the run. -/
def raceRun : List Event :=
  [.initReturn (.ok 7), .readLen, .sleepStart, .sleepEnd, .sendSlot, .recheck,
   .spawnCall 0, .spawnReturn 0 (.ok 3), .check 0,
   .readLen, .sleepStart, .tick 1000000000, .sleepEnd,
   .timeout, .scenarioReturn 0 none, .recv 0,
   .sendSlot, .recheck, .done 0, .closeUsers, .cancelT, .waited]

/-- Ten seconds, one user at a time, one user per second. -/
def burstConf : config := ⟨10000000000, 1, 1⟩

/-- The first user of `burstConf` is done at once, and a second user is launched
while the clock still shows the start of the run. -/
def burstRun : List Event :=
  [.initReturn (.ok 7), .readLen, .sleepStart, .sleepEnd, .sendSlot, .recheck,
   .spawnCall 0, .spawnReturn 0 (.ok 3), .check 0, .scenarioReturn 0 none,
   .recv 0, .done 0,
   .readLen, .sleepStart, .sleepEnd, .sendSlot, .recheck]

/-- State reached by `rampRun`. -/
def rampState : State :=
  { pc := .loopTop, panicking := false, now := 100000000, start := 0, started := true,
    ctxDone := false, tctxDone := false, users := ⟨2, 2, false⟩, workers := 2,
    articleIDs := 7, tasks := [.created, .created], acquired := 2, released := 0,
    launched := 2, spawnCalls := 0, scenarioLog := [], sink := [],
    exitAfterAcquire := false }

/-- State reached by `raceRun`. -/
def raceState : State :=
  { pc := .returned none, panicking := false, now := 1000000000, start := 0,
    started := true, ctxDone := false, tctxDone := true, users := ⟨1, 1, true⟩,
    workers := 0, articleIDs := 7, tasks := [.done], acquired := 2, released := 1,
    launched := 1, spawnCalls := 1, scenarioLog := [⟨0, 3, 7⟩], sink := [],
    exitAfterAcquire := true }

/-- State reached by `burstRun`. -/
def burstState : State :=
  { pc := .loopTop, panicking := false, now := 0, start := 0, started := true,
    ctxDone := false, tctxDone := false, users := ⟨1, 1, false⟩, workers := 1,
    articleIDs := 7, tasks := [.done, .created], acquired := 2, released := 1,
    launched := 2, spawnCalls := 1, scenarioLog := [⟨0, 3, 7⟩], sink := [],
    exitAfterAcquire := false }

/-! ## The wait of the specification -/

/-- The wait of section 4.1 of the specification, in nanoseconds and in exact
arithmetic: `targetInterval = 1 / spawnRatePerSecond` seconds is
`1000000000 / r` nanoseconds, `idealElapsedForCurrentCount` is `c` times that,
and `waitTime = idealElapsedForCurrentCount - actualElapsed`. -/
def specWaitTime (r c e : Int) : ℚ :=
  (c : ℚ) * ((1000000000 : ℚ) / (r : ℚ)) - (e : ℚ)

/-- The cumulative bound of section 8 of the specification: by `t` nanoseconds
of elapsed time at most `⌊t·r⌋ + 1` users, `t·r` taken in seconds times users
per second. -/
def specSpawnBound (r t : Int) : Int := t * r / 1000000000 + 1

/-! ## Distance to the end -/

/-- Number of actions a per-user goroutine still has to take, at most. -/
def TaskPc.rank : TaskPc → Nat
  | .created => 5
  | .spawning => 4
  | .check _ => 3
  | .scenario _ => 3
  | .release => 2
  | .finishing => 1
  | .done => 0

/-- Position of the spawning goroutine on its way to the return, once
`tctx.Done()` is closed. -/
def MainPc.rank : MainPc → Nat
  | .init => 9
  | .loopTop => 8
  | .timing _ => 7
  | .sleeping _ => 6
  | .selecting => 5
  | .acquired => 4
  | .closing => 3
  | .cancelling => 2
  | .waiting => 1
  | .returned _ => 0
  | .crashed => 0

/-! ## Effect of one action on the goroutines and on the log of scenario calls -/

/-- The moves of the program counter of a per-user goroutine (lines 86-107 and
the deferred function). -/
def TaskPc.next : TaskPc → TaskPc → Bool
  | .created, .spawning => true
  | .spawning, .check _ => true
  | .spawning, .release => true
  | .check _, .release => true
  | .check u, .scenario v => u == v
  | .scenario _, .release => true
  | .release, .finishing => true
  | .finishing, .done => true
  | _, _ => false

/-- The log of scenario calls after goroutine `i` has moved to `t1`: entering
`articleScenario.Run` is the only move that adds a call. -/
def logAfter (s : State) (i : Nat) : TaskPc → List ScenarioCall
  | .scenario u => s.scenarioLog ++ [⟨i, u, s.articleIDs⟩]
  | _ => s.scenarioLog

/-- The goroutine has gone through its `select` of line 93, or skipped it. -/
def TaskPc.pastCheck : TaskPc → Bool
  | .scenario _ | .release | .finishing | .done => true
  | _ => false

/-- The goroutine has left its body: only the deferred function remains. -/
def TaskPc.leaving : TaskPc → Bool
  | .release | .finishing | .done => true
  | _ => false

/-- Every recorded scenario call was made by a goroutine that is now past its
`select` of line 93. -/
def LogInv (s : State) : Prop :=
  ∀ c ∈ s.scenarioLog, ∃ t, s.tasks[c.task]? = some t ∧ t.pastCheck = true

/-- Goroutine `i` has left its body without any scenario call to its name. -/
def Skipped (i : Nat) (s : State) : Prop :=
  (∃ t, s.tasks[i]? = some t ∧ t.leaving = true) ∧ ∀ c ∈ s.scenarioLog, c.task ≠ i

/-- The spawning goroutine is inside an iteration of its loop, past line 63. -/
def MainPc.inLoop : MainPc → Bool
  | .timing _ | .sleeping _ | .selecting | .acquired => true
  | _ => false

/-- A configuration that makes the run panic never launches a goroutine: a zero
`SpawnRate` stops the first iteration at line 63, and a negative `Users` stops
the run at line 40. -/
def NoLaunch (conf : config) (s : State) : Prop :=
  (conf.SpawnRate = 0 → s.tasks = [] ∧ s.pc.inLoop = false) ∧
    (conf.Users < 0 → s.tasks = [] ∧ s.pc ≠ .acquired)

/-- The spawning goroutine is on its way to return `nil`, or has done so. -/
def MainPc.exitingNil : MainPc → Bool
  | .closing | .cancelling | .waiting | .returned none => true
  | _ => false

/-- A spawn step fails for the first user of `rampConf`. -/
def failRun : List Event :=
  [.initReturn (.ok 7), .readLen, .sleepStart, .sleepEnd, .sendSlot, .recheck,
   .spawnCall 0, .spawnReturn 0 (.error ⟨5, false, false⟩)]

/-- State reached by `failRun`. -/
def failState : State :=
  { pc := .loopTop, panicking := false, now := 0, start := 0, started := true,
    ctxDone := false, tctxDone := false, users := ⟨1, 2, false⟩, workers := 1,
    articleIDs := 7, tasks := [.release], acquired := 1, released := 0,
    launched := 1, spawnCalls := 1, scenarioLog := [], sink := [],
    exitAfterAcquire := false }

/-- The spawn step of the only user of `raceConf` succeeds, then the deadline
elapses before the goroutine reaches its `select` of line 93. -/
def lateRun : List Event :=
  [.initReturn (.ok 7), .readLen, .sleepStart, .sleepEnd, .sendSlot, .recheck,
   .spawnCall 0, .spawnReturn 0 (.ok 3), .tick 1000000000, .timeout, .check 0,
   .recv 0, .done 0, .readLen, .sleepStart, .sleepEnd, .observeDone,
   .closeUsers, .cancelT, .waited]

/-- State reached by `lateRun`. -/
def lateState : State :=
  { pc := .returned none, panicking := false, now := 1000000000, start := 0,
    started := true, ctxDone := false, tctxDone := true, users := ⟨0, 1, true⟩,
    workers := 0, articleIDs := 7, tasks := [.done], acquired := 1, released := 1,
    launched := 1, spawnCalls := 1, scenarioLog := [], sink := [],
    exitAfterAcquire := false }

/-- State of `lateRun` when the goroutine stands at its `select` of line 93,
the deadline not yet elapsed. -/
def checkState : State :=
  { pc := .loopTop, panicking := false, now := 0, start := 0, started := true,
    ctxDone := false, tctxDone := false, users := ⟨1, 1, false⟩, workers := 1,
    articleIDs := 7, tasks := [.check 3], acquired := 1, released := 0,
    launched := 1, spawnCalls := 1, scenarioLog := [], sink := [],
    exitAfterAcquire := false }

/-- State of `raceRun` right after the send of line 67 that raced with the
deadline. -/
def raceAcquired : State :=
  { pc := .acquired, panicking := false, now := 1000000000, start := 0,
    started := true, ctxDone := false, tctxDone := true, users := ⟨1, 1, false⟩,
    workers := 1, articleIDs := 7, tasks := [.finishing], acquired := 2, released := 1,
    launched := 1, spawnCalls := 1, scenarioLog := [⟨0, 3, 7⟩], sink := [],
    exitAfterAcquire := false }

/-! ## Errors and their causes -/

/-- An error as `errorHandler` receives it, with what its chain holds of the
second cancellation sentinel of package `context`: `deadline` is
`errors.Is(err, context.DeadlineExceeded)`.  The source never asks for it;
`errors.Is(err, context.Canceled)` is `err.isCanceled`. -/
structure RaisedError where
  err : GoError
  deadline : Bool
deriving DecidableEq, Repr

/-- The error is caused by a cancellation: its chain holds `context.Canceled`
(an interrupt, or a call of `cancel`) or `context.DeadlineExceeded` (a deadline
that expired). -/
def RaisedError.byCancellation (e : RaisedError) : Bool := e.err.isCanceled || e.deadline

/-! ## A zero spawn rate -/

/-- With `SpawnRate = 0` the loop is never left through a `select`: whoever runs
the deferred calls is unwinding a panic. -/
def ZeroRate (conf : config) (s : State) : Prop :=
  conf.SpawnRate = 0 →
    s.exitAfterAcquire = false ∧
      (s.pc.exitingNil = true → s.panicking = true ∧ s.pc ≠ .returned none)

/-- One second, one user at a time, a spawn rate of zero. -/
def zeroRateConf : config := ⟨1000000000, 1, 0⟩

/-- The initialization succeeds and the first iteration divides by zero. -/
def zeroRateRun : List Event :=
  [.initReturn (.ok 7), .readLen, .closeUsers, .cancelT, .waited]

/-- State reached by `zeroRateRun`. -/
def zeroRateState : State :=
  { pc := .crashed, panicking := true, now := 0, start := 0, started := true,
    ctxDone := false, tctxDone := true, users := ⟨0, 1, true⟩, workers := 0,
    articleIDs := 7, tasks := [], acquired := 0, released := 0, launched := 0,
    spawnCalls := 0, scenarioLog := [], sink := [], exitAfterAcquire := false }

/-! ## The caller of `runLoadTest` (`run` in `main.go`, lines 80-109) -/

/-- Program counter of `run`, in load-test mode, from the `go` statement of
line 81 on. -/
inductive RunPc where
  /-- Line 100: at the `select`. -/
  | selecting
  /-- The function `run` returned `err`; `main` then calls `os.Exit`. -/
  | returned (err : Option GoError)
deriving DecidableEq, Repr

/-- The process in load-test mode: the goroutine that runs `runLoadTest` with
all it has launched, and the goroutine of `main` inside `run`. -/
structure Proc where
  load : State
  runPc : RunPc
deriving DecidableEq, Repr

/-- Actions of the process. -/
inductive ProcEvent where
  /-- An action of `runLoadTest`, of one of its goroutines, or of the environment. -/
  | load (ev : Event)
  /-- Line 101: the `select` takes `err = <-loadErr`. -/
  | takeLoadErr
  /-- Line 104: the `select` takes `<-ctx.Done()`, then `stop()` and `return nil`. -/
  | takeCtxDone

/-- One action of the process.  The value of `runLoadTest` is on the buffered
channel `loadErr` as soon as the function has returned.  Once `run` has
returned `main` exits the process, which ends every goroutine. -/
def procStep (conf : config) (p : Proc) : ProcEvent → Option Proc
  | .load ev =>
    match p.runPc with
    | .selecting => (step conf p.load ev).map fun s => { p with load := s }
    | .returned _ => none
  | .takeLoadErr =>
    match p.runPc, p.load.pc with
    | .selecting, .returned r => some { p with runPc := .returned (r.map withStack) }
    | _, _ => none
  | .takeCtxDone =>
    if p.runPc = .selecting ∧ p.load.ctxDone = true then
      some { p with runPc := .returned none }
    else none

/-- Run a schedule of the process. -/
def procExec (conf : config) (p : Proc) : List ProcEvent → Option Proc
  | [] => some p
  | ev :: evs => (procStep conf p ev).bind fun p1 => procExec conf p1 evs

/-- The process when `run` reaches its `select`, `runLoadTest` just called. -/
def procInitial (t0 : Int) : Proc := { load := initial t0 false, runPc := .selecting }

/-- The only user of `burstConf` is inside its scenario step when an interrupt
arrives, and the `select` of `run` takes `<-ctx.Done()`. -/
def interruptRun : List ProcEvent :=
  [.load (.initReturn (.ok 7)), .load .readLen, .load .sleepStart, .load .sleepEnd,
   .load .sendSlot, .load .recheck, .load (.spawnCall 0), .load (.spawnReturn 0 (.ok 3)),
   .load (.check 0), .load .interrupt, .takeCtxDone]

/-- State reached by `interruptRun`. -/
def interruptState : Proc :=
  { load :=
      { pc := .loopTop, panicking := false, now := 0, start := 0, started := true,
        ctxDone := true, tctxDone := true, users := ⟨1, 1, false⟩, workers := 1,
        articleIDs := 7, tasks := [.scenario 3], acquired := 1, released := 0,
        launched := 1, spawnCalls := 1, scenarioLog := [⟨0, 3, 7⟩], sink := [],
        exitAfterAcquire := false },
    runPc := .returned none }

/-- State of `rampRun` one action later, the loop having read `len(users) = 2`
at 100 ms, and then 100 ms later. -/
def rampTiming : State :=
  { pc := .timing 2, panicking := false, now := 200000000, start := 0, started := true,
    ctxDone := false, tctxDone := false, users := ⟨2, 2, false⟩, workers := 2,
    articleIDs := 7, tasks := [.created, .created], acquired := 2, released := 0,
    launched := 2, spawnCalls := 0, scenarioLog := [], sink := [],
    exitAfterAcquire := false }

end LoadTest

/-! # The blog backend (`handler.go`, `db.go`)

The handlers are embedded as functions on the content of the database.  What
the database itself decides is an input: the table declarations of `ddl.sql`,
which is not part of the sources, and the calls that fail.  Instants are
integers, stored and read back as they are.
-/

namespace Blog

/-! ## Rows and errors -/

/-- The struct `Article` (`db.go`, lines 250-258), one row of table `articles`.
`TotalFavoriteCount` is a Go `int`. -/
structure Article where
  ID : String
  Title : String
  Body : String
  UserID : String
  TotalFavoriteCount : Int
  CreatedAt : Int
  UpdatedAt : Int
deriving DecidableEq, Repr

/-- The struct `UserArticle` (`db.go`, lines 260-265), one row of table
`users_articles`. -/
structure UserArticle where
  UserID : String
  ArticleID : String
  CreatedAt : Int
  UpdatedAt : Int
deriving DecidableEq, Repr

/-- Content of the database: the rows of the two tables in their physical order. -/
structure Db where
  articles : List Article
  usersArticles : List UserArticle
deriving DecidableEq, Repr

/-- What the table declarations decide and the handlers depend on: whether
`users_articles` refuses a second row for the same user and article, and the
largest value that column `total_favorite_count` holds, the smallest one being
`-countMax - 1`. -/
structure Schema where
  favoriteUnique : Bool
  countMax : Int
deriving DecidableEq, Repr

/-- Errors of the handlers: an `echo.NewHTTPError(code, ..)`, an error of
`database/sql` raised at a numbered call, and `errors.WithStack` around an
error. -/
inductive AppError where
  | http (code : Nat)
  | sql (site : Nat)
  | stack (e : AppError)
deriving DecidableEq, Repr

/-- One element of the lists that the handlers return. -/
structure ResponseItem where
  ArticleID : String
  Title : String
deriving DecidableEq, Repr

/-- What a handler writes when it returns `nil`, always with status 200. -/
inductive Reply where
  | noContent
  | article (a : Article)
  | list (items : List ResponseItem)
deriving DecidableEq, Repr

/-- What the environment decides during one attempt of a transaction: whether
`BeginTx` succeeds, which numbered call of the callback fails if any, whether
`Commit` succeeds, and what the successive calls of `h.timer.Now()` return. -/
structure Attempt where
  beginOk : Bool
  failAt : Option Nat
  commitOk : Bool
  now : Nat → Int

/-- An attempt in which the database serves every call. -/
def Attempt.healthy (a : Attempt) : Prop :=
  a.beginOk = true ∧ a.failAt = none ∧ a.commitOk = true

/-! ## Statements -/

/-- The call `tx.PrepareContext` number `site`: its error is wrapped by
`txExt.PrepareContext` and again by the callback. -/
def prepare (a : Attempt) (site : Nat) : Except AppError Unit :=
  if a.failAt = some site then .error (.stack (.stack (.sql site))) else .ok ()

/-- The call `stmt.ExecContext` number `site`: its error is wrapped by
`stmtExt.ExecContext` and again by the callback. -/
def execStmt (a : Attempt) (site : Nat) : Except AppError Unit :=
  if a.failAt = some site then .error (.stack (.stack (.sql site))) else .ok ()

/-- The query `SELECT .. FROM articles WHERE id = $1` followed by `row.Scan`, call
number `site`: the first row with that id, `sql.ErrNoRows` turned into a 404,
any other error wrapped. -/
def scanArticle (a : Attempt) (site : Nat) (db : Db) (id : String) : Except AppError Article :=
  if a.failAt = some site then .error (.stack (.sql site))
  else
    match db.articles.find? (fun x => x.ID == id) with
    | none => .error (.http 404)
    | some x => .ok x

/-- Insertion of a row before the first row that is not newer. -/
def insertByCreatedAt (a : Article) : List Article → List Article
  | [] => [a]
  | b :: l => if b.CreatedAt ≤ a.CreatedAt then a :: b :: l else b :: insertByCreatedAt a l

/-- The clause `ORDER BY created_at DESC`: newest first.  SQL leaves the order of
rows of equal `created_at` open; here they keep their physical order.  On rows
of pairwise distinct `created_at` the list is the only answer the clause
allows (`orderBy_unique`). -/
def orderByCreatedAtDesc : List Article → List Article
  | [] => []
  | a :: l => insertByCreatedAt a (orderByCreatedAtDesc l)

/-- The item that the list handlers build from a row. -/
def toItem (a : Article) : ResponseItem := ⟨a.ID, a.Title⟩

/-! ## The transaction helper (`db.go`, lines 66-137) -/

/-- One call of the operation given to `backoff.Retry` (lines 83-133): the error
it returns, and the content of the database afterwards.  An error of the
callback rolls back.  When `Commit` fails the deferred function only assigns
the named result `err` of `Transaction`: the operation has already returned
`nil` and nothing was written. -/
def attemptTx (f : Attempt → Db → Except AppError Db) (a : Attempt) (db : Db) :
    Option AppError × Db :=
  if a.beginOk = false then (some (.stack (.sql 100)), db)
  else
    match f a db with
    | .error e => (some (.stack e), db)
    | .ok db1 => if a.commitOk then (none, db1) else (none, db)

/-- The loop of `backoff.Retry`: the operation is called again after an error, as
long as the back-off allows; `rest` holds the attempts it allows after `a`.
The error returned is that of the last attempt. -/
def retryTx (f : Attempt → Db → Except AppError Db) :
    Attempt → List Attempt → Db → Option AppError × Db
  | a, [], db => attemptTx f a db
  | a, b :: rest, db =>
    match attemptTx f a db with
    | (none, db1) => (none, db1)
    | (some _, db1) => retryTx f b rest db1

/-- The method `dbExt.Transaction`: the error of `backoff.Retry` wrapped, or
`nil` (line 136). -/
def Transaction (f : Attempt → Db → Except AppError Db) (a : Attempt) (rest : List Attempt)
    (db : Db) : Option AppError × Db :=
  match retryTx f a rest db with
  | (none, db1) => (none, db1)
  | (some e, db1) => (some (.stack e), db1)

/-! ## Handlers -/

/-- The request of `handlePatchArticle` once bound. -/
structure PatchRequest where
  ArticleID : String
  Title : String
  Body : String
deriving DecidableEq, Repr

/-- The title, body and `updated_at` that `handlePatchArticle` writes for the
row `x` it has read (lines 226-232). -/
def patched (now : Int) (req : PatchRequest) (x : Article) : Article :=
  { x with
    Title := if req.Title != "" then req.Title else x.Title
    Body := if req.Body != "" then req.Body else x.Body
    UpdatedAt := now }

/-- The callback of `handlePatchArticle` (lines 208-242).  The statement
`UPDATE articles SET title, body, updated_at WHERE id = $4` writes the three
columns of every row with that id. -/
def patchArticleTx (userID : String) (req : PatchRequest) (a : Attempt) (db : Db) :
    Except AppError Db :=
  match prepare a 0 with
  | .error e => .error e
  | .ok _ =>
    match scanArticle a 1 db req.ArticleID with
    | .error e => .error e
    | .ok article =>
      if article.UserID != userID then .error (.http 403)
      else
        let article1 := patched (a.now 0) req article
        match prepare a 2 with
        | .error e => .error e
        | .ok _ =>
          match execStmt a 3 with
          | .error e => .error e
          | .ok _ =>
            .ok { db with
                  articles := db.articles.map fun x =>
                    if x.ID == article1.ID then
                      { x with Title := article1.Title, Body := article1.Body,
                               UpdatedAt := article1.UpdatedAt }
                    else x }

/-- The handler `handlePatchArticle` (lines 194-247), the request bound and the
user authenticated. -/
def handlePatchArticle (userID : String) (req : PatchRequest) (a : Attempt)
    (rest : List Attempt) (db : Db) : Except AppError Reply × Db :=
  match Transaction (patchArticleTx userID req) a rest db with
  | (some e, db1) => (.error (.stack e), db1)
  | (none, db1) => (.ok .noContent, db1)

/-- The callback of `handleDeleteArticle` (lines 261-282). -/
def deleteArticleTx (userID : String) (articleID : String) (a : Attempt) (db : Db) :
    Except AppError Db :=
  match scanArticle a 0 db articleID with
  | .error e => .error e
  | .ok article =>
    if article.UserID != userID then .error (.http 403)
    else
      match prepare a 1 with
      | .error e => .error e
      | .ok _ =>
        match execStmt a 2 with
        | .error e => .error e
        | .ok _ =>
          .ok { db with articles := db.articles.filter fun x => !(x.ID == article.ID) }

/-- The handler `handleDeleteArticle` (lines 249-287). -/
def handleDeleteArticle (userID : String) (articleID : String) (a : Attempt)
    (rest : List Attempt) (db : Db) : Except AppError Reply × Db :=
  match Transaction (deleteArticleTx userID articleID) a rest db with
  | (some e, db1) => (.error (.stack e), db1)
  | (none, db1) => (.ok .noContent, db1)

/-- The callback of `handlePostFavoriteArticle` (lines 338-366).  The new count is
`article.TotalFavoriteCount+1` in Go's `int`.  The `UPDATE` fails when the
column does not hold the new count, the `INSERT` when the table refuses the
pair. -/
def favoriteArticleTx (schema : Schema) (userID : String) (articleID : String)
    (a : Attempt) (db : Db) : Except AppError Db :=
  match scanArticle a 0 db articleID with
  | .error e => .error e
  | .ok article =>
    match prepare a 1 with
    | .error e => .error e
    | .ok _ =>
      let count1 := LoadTest.wrap64 (article.TotalFavoriteCount + 1)
      if a.failAt = some 2 ∨ ¬ (-schema.countMax - 1 ≤ count1 ∧ count1 ≤ schema.countMax)
      then .error (.stack (.stack (.sql 2)))
      else
        let articles1 := db.articles.map fun x =>
          if x.ID == article.ID then
            { x with TotalFavoriteCount := count1, UpdatedAt := a.now 0 }
          else x
        match prepare a 3 with
        | .error e => .error e
        | .ok _ =>
          if a.failAt = some 4 ∨
              (schema.favoriteUnique = true ∧
                db.usersArticles.any (fun p => p.UserID == userID && p.ArticleID == articleID))
          then .error (.stack (.stack (.sql 4)))
          else
            .ok { articles := articles1,
                  usersArticles := db.usersArticles ++ [⟨userID, articleID, a.now 1, a.now 2⟩] }

/-- The handler `handlePostFavoriteArticle` (lines 326-371). -/
def handlePostFavoriteArticle (schema : Schema) (userID : String) (articleID : String)
    (a : Attempt) (rest : List Attempt) (db : Db) : Except AppError Reply × Db :=
  match Transaction (favoriteArticleTx schema userID articleID) a rest db with
  | (some e, db1) => (.error (.stack e), db1)
  | (none, db1) => (.ok .noContent, db1)

/-- The handler `handleGetArticle` (lines 125-146); `scanOk` is false when the
query fails for another reason than the absence of the row. -/
def handleGetArticle (scanOk : Bool) (articleID : String) (db : Db) : Except AppError Reply :=
  if scanOk = false then .error (.stack (.sql 0))
  else
    match db.articles.find? (fun x => x.ID == articleID) with
    | none => .error (.http 404)
    | some x => .ok (.article x)

/-- The query of `handleGetArticleList` (line 95):
`SELECT .. FROM articles ORDER BY created_at DESC LIMIT 100`. -/
def selectArticleList (db : Db) : List Article :=
  (orderByCreatedAtDesc db.articles).take 100

/-- The handler `handleGetArticleList` (lines 92-123). -/
def handleGetArticleList (queryOk : Bool) (db : Db) : Except AppError Reply :=
  if queryOk = false then .error (.stack (.stack (.sql 0)))
  else .ok (.list ((selectArticleList db).map toItem))

/-- The query of `handleGetFavoriteArticleList` (line 293): the articles whose
id is among the `article_id` of the user's rows of `users_articles`, newest
first, without limit. -/
def selectFavoriteArticleList (userID : String) (db : Db) : List Article :=
  orderByCreatedAtDesc (db.articles.filter fun x =>
    db.usersArticles.any fun p => p.UserID == userID && p.ArticleID == x.ID)

/-- The handler `handleGetFavoriteArticleList` (lines 289-324). -/
def handleGetFavoriteArticleList (queryOk : Bool) (userID : String) (db : Db) :
    Except AppError Reply :=
  if queryOk = false then .error (.stack (.stack (.sql 0)))
  else .ok (.list ((selectFavoriteArticleList userID db).map toItem))

/-! ## Random decisions (`handler.go`, lines 29-31) -/

/-- The call `r.Intn(n)` of `math/rand`: a panic when `n ≤ 0`, otherwise the value
`raw` that the source delivers, reduced modulo `n`. -/
def Intn (raw : Int) (n : Int) : Option Int :=
  if n ≤ 0 then none else some (raw % n)

/-- The method `randUtilImpl.Hit`: `rate > r.Intn(denominator)`. -/
def Hit (raw : Int) (rate denominator : Int) : Option Bool :=
  (Intn raw denominator).map fun v => decide (rate > v)

/-! ## A small database -/

/-- The first article of `Test_E2E`. -/
def article1 : Article := ⟨"a1", "title1", "body1", "u1", 0, 21, 22⟩

/-- The second article of `Test_E2E`. -/
def article2 : Article := ⟨"a2", "title2", "body2", "u1", 0, 31, 32⟩

/-- The database of `Test_E2E` before the update. -/
def testDb : Db := ⟨[article1, article2], []⟩

/-- An attempt that the database serves, the timer returning 42. -/
def goodAttempt : Attempt := ⟨true, none, true, fun _ => 42⟩

/-- Table declarations with a unique pair in `users_articles` and a 32-bit
column `total_favorite_count`. -/
def plainSchema : Schema := ⟨true, 2147483647⟩

/-! ## The operation of a transaction, variable by variable -/

/-- Outcome of one call of the operation given to `backoff.Retry` (`db.go`, lines
83-133): the value the closure returns, the value it leaves in `err`, and the
content of the database.  The closure has an unnamed result; `err` is the
named result of `Transaction`, which the closure and its deferred function
assign. -/
structure Outcome where
  ret : Option AppError
  err : Option AppError
  db : Db
deriving DecidableEq, Repr

/-- One call of the operation.  `BeginTx` assigns `err` (line 88) and its error is
returned wrapped; the callback assigns `err` (line 127) and its error is
returned wrapped, the deferred function then rolling back; otherwise the closure
returns `nil` (line 131) and the deferred function commits, an error of `Commit`
being assigned to `err` only (lines 120-122). -/
def operation (f : Attempt → Db → Except AppError Db) (a : Attempt) (db : Db) : Outcome :=
  if a.beginOk = false then ⟨some (.stack (.sql 100)), some (.sql 100), db⟩
  else
    match f a db with
    | .error e => ⟨some (.stack e), some e, db⟩
    | .ok db1 =>
      if a.commitOk then ⟨none, none, db1⟩
      else ⟨none, some (.stack (.sql 101)), db⟩

/-- An attempt in which everything succeeds but `Commit`. -/
def lostCommit : Attempt := ⟨true, none, false, fun _ => 42⟩

/-! ## Statements reaching the database -/

/-- The statements on table `articles` that a callback sends. -/
inductive Stmt where
  | selectArticle (id : String)
  | updateArticle (id : String)
  | deleteArticle (id : String)
deriving DecidableEq, Repr

/-- The statements that the callback of `handlePatchArticle` (lines 208-242) has
sent when it returns: the `SELECT` once it is prepared, the `UPDATE` once the
row is found, the owner check passed and the statement prepared. -/
def patchArticleStmts (userID : String) (req : PatchRequest) (a : Attempt) (db : Db) :
    List Stmt :=
  match prepare a 0 with
  | .error _ => []
  | .ok _ =>
    match scanArticle a 1 db req.ArticleID with
    | .error _ => [.selectArticle req.ArticleID]
    | .ok article =>
      if article.UserID != userID then [.selectArticle req.ArticleID]
      else
        match prepare a 2 with
        | .error _ => [.selectArticle req.ArticleID]
        | .ok _ => [.selectArticle req.ArticleID, .updateArticle article.ID]

/-- The statements that the callback of `handleDeleteArticle` (lines 261-282) has
sent when it returns. -/
def deleteArticleStmts (userID : String) (articleID : String) (a : Attempt) (db : Db) :
    List Stmt :=
  match scanArticle a 0 db articleID with
  | .error _ => [.selectArticle articleID]
  | .ok article =>
    if article.UserID != userID then [.selectArticle articleID]
    else
      match prepare a 1 with
      | .error _ => [.selectArticle articleID]
      | .ok _ => [.selectArticle articleID, .deleteArticle article.ID]

/-- The third article of the store of the examples, owned by another user. -/
def article3 : Article := ⟨"a3", "title3", "body3", "u2", 0, 41, 42⟩

/-- A store with articles of two users. -/
def sharedDb : Db := ⟨[article1, article2, article3], []⟩

/-! ## Basic authentication (`echo.go`, lines 58-81) -/

/-- The struct `User` (`db.go`, lines 241-248), one row of table `users`. -/
structure User where
  ID : String
  Name : String
  Email : String
  PasswordHash : String
  CreatedAt : Int
  UpdatedAt : Int
deriving DecidableEq, Repr

/-- What `bcrypt.CompareHashAndPassword` returns: `nil`, the error
`bcrypt.ErrMismatchedHashAndPassword`, or another error, such as
`bcrypt.ErrHashTooShort` for a stored hash that is not well formed. -/
inductive CompareResult where
  | same
  | mismatched
  | other (code : Nat)
deriving DecidableEq, Repr

/-- The test `errors.Is(err, bcrypt.ErrMismatchedHashAndPassword)`. -/
def CompareResult.isMismatched : CompareResult → Bool
  | .mismatched => true
  | _ => false

/-- What the validator returns, and the user it has put in the context of the
request. -/
structure Verdict where
  valid : Bool
  err : Option AppError
  user : Option User
deriving DecidableEq, Repr

/-- The function given to `middleware.BasicAuth` (lines 58-81).  The package
`bcrypt` is a parameter, `compare`; `scanOk` is false when the query fails for
another reason than the absence of the row. -/
def basicAuthValidator (compare : String → String → CompareResult) (scanOk : Bool)
    (users : List User) (path email password : String) : Verdict :=
  if path == "/user" then ⟨true, none, none⟩
  else if scanOk = false then ⟨false, some (.stack (.sql 0)), none⟩
  else
    match users.find? (fun u => u.Email == email) with
    | none => ⟨false, none, none⟩
    | some user => ⟨!(compare user.PasswordHash password).isMismatched, none, some user⟩

/-- A row of `users` whose `password_hash` is not a hash of `bcrypt`. -/
def brokenUser : User := ⟨"u7", "n7", "e7", "", 1, 1⟩

/-- A comparison that finds the stored hash not well formed. -/
def brokenCompare (hash password : String) : CompareResult := .other 0

end Blog

namespace LoadTest

theorem countP_set_of_get {α : Type} (p : α → Bool) (l : List α) (i : Nat) (t a : α)
    (h : l[i]? = some t) :
    (l.set i a).countP p + (if p t then 1 else 0) = l.countP p + (if p a then 1 else 0) := by
  induction l generalizing i with
  | nil => simp at h
  | cons x xs ih =>
    cases i with
    | zero =>
      simp at h
      subst h
      simp [List.countP_cons]
      omega
    | succ j =>
      simp at h
      have := ih j h
      simp [List.countP_cons]
      omega

theorem holdsSlot_le_unfinished (l : List TaskPc) :
    l.countP TaskPc.holdsSlot ≤ l.countP TaskPc.unfinished := by
  apply List.countP_mono_left
  intro t _ h
  cases t <;> simp_all [TaskPc.holdsSlot, TaskPc.unfinished]

theorem inv_initial (conf : config) (t0 : Int) (c : Bool) : Inv conf (initial t0 c) := by
  constructor <;> simp [initial, leaked, MainPc.holding, MainPc.unwinding]

theorem stepMain_inv (conf : config) (s s1 : State) (ev : Event) (hs : Inv conf s)
    (h : stepMain conf s ev = some s1) : Inv conf s1 := by
  obtain ⟨h1, h2, h3, h4, h5, h6, h7, h8, h9, h10, h11⟩ := hs
  obtain ⟨pc, pnk, now, start, started, ctxDone, tctxDone, users, workers, ids, tasks,
    acq, rel, launched, spawnCalls, slog, sink, exitAA⟩ := s
  simp only [leaked] at h1 h2 h3 h4 h5 h6 h7 h8 h9 h10 h11
  cases ev <;> simp only [stepMain] at h
  case initReturn r =>
    split at h
    · rename_i hpc
      subst hpc
      injection h with h
      subst h
      cases started with
      | true => simp at h8
      | false =>
        simp at h7
        obtain ⟨f1, f2, f3, f4⟩ := h7
        subst f1 f2 f3 f4
        cases exitAA <;> simp [MainPc.holding, MainPc.unwinding] at h1 h2 h3 h4 h9 h11
        cases r with
        | error e =>
          simp only [stepInit]
          constructor <;> (try simp [leaked, MainPc.holding, MainPc.unwinding]) <;>
            first | omega | assumption | tauto
        | ok ids =>
          simp only [stepInit]
          split
          · constructor <;> (try simp [leaked, MainPc.holding, MainPc.unwinding]) <;>
              first | omega | assumption | tauto
          · constructor <;> (try simp [leaked, MainPc.holding, MainPc.unwinding]) <;>
              first | omega | assumption | tauto
    · simp at h
  case readLen =>
    split at h
    · rename_i hpc
      subst hpc
      cases started with
      | false => simp at h7
      | true =>
        cases exitAA <;> simp [MainPc.holding, MainPc.unwinding] at h1 h2 h3 h4 h8 h9 h11
        split at h
        · injection h with h
          subst h
          constructor <;> (try simp [leaked, MainPc.holding, MainPc.unwinding]) <;>
            first | omega | assumption | tauto
        · injection h with h
          subst h
          constructor <;> (try simp [leaked, MainPc.holding, MainPc.unwinding]) <;>
            first | omega | assumption | tauto
    · simp at h
  case sleepStart =>
    split at h
    · cases started with
      | false => simp at h7
      | true =>
        cases exitAA <;> simp [MainPc.holding, MainPc.unwinding] at h1 h2 h3 h4 h8 h9 h11
        all_goals injection h with h
        all_goals subst h
        all_goals constructor <;> (try simp [leaked, MainPc.holding, MainPc.unwinding]) <;>
          first | omega | assumption | tauto
    · simp at h
  case sleepEnd =>
    split at h
    · cases started with
      | false => simp at h7
      | true =>
        cases exitAA <;> simp [MainPc.holding, MainPc.unwinding] at h1 h2 h3 h4 h8 h9 h11
        all_goals (try split at h)
        all_goals (try (simp at h; done))
        all_goals injection h with h
        all_goals subst h
        all_goals constructor <;> (try simp [leaked, MainPc.holding, MainPc.unwinding]) <;>
          first | omega | assumption | tauto
    · simp at h
  case sendSlot =>
    split at h
    · rename_i hpc
      obtain ⟨hpc, hc⟩ := hpc
      subst hpc
      cases started with
      | false => simp at h7
      | true =>
        cases exitAA <;> simp [MainPc.holding, MainPc.unwinding] at h1 h2 h3 h4 h8 h9 h11
        all_goals injection h with h
        all_goals subst h
        all_goals constructor <;> (try simp [leaked, MainPc.holding, MainPc.unwinding]) <;>
          first | omega | assumption | tauto
    · simp at h
  case observeDone =>
    split at h
    · rename_i hpc
      obtain ⟨hpc, hc⟩ := hpc
      subst hpc
      cases started with
      | false => simp at h7
      | true =>
        cases exitAA <;> simp [MainPc.holding, MainPc.unwinding] at h1 h2 h3 h4 h8 h9 h11
        all_goals injection h with h
        all_goals subst h
        all_goals constructor <;> (try simp [leaked, MainPc.holding, MainPc.unwinding]) <;>
          first | omega | assumption | tauto
    · simp at h
  case recheck =>
    split at h
    · rename_i hpc
      subst hpc
      cases started with
      | false => simp at h7
      | true =>
        cases exitAA <;> simp [MainPc.holding, MainPc.unwinding] at h1 h2 h3 h4 h8 h9 h11
        all_goals (try split at h)
        all_goals injection h with h
        all_goals subst h
        all_goals constructor <;> (try simp [leaked, MainPc.holding, MainPc.unwinding]) <;>
          first | omega | assumption | tauto
    · simp at h
  case closeUsers =>
    split at h
    · rename_i hpc
      subst hpc
      cases started with
      | false => simp at h7
      | true =>
        cases exitAA <;> simp [MainPc.holding, MainPc.unwinding] at h1 h2 h3 h4 h8 h9 h11
        all_goals injection h with h
        all_goals subst h
        all_goals constructor <;> (try simp [leaked, MainPc.holding, MainPc.unwinding]) <;>
          first | omega | assumption | tauto
    · simp at h
  case cancelT =>
    split at h
    · rename_i hpc
      subst hpc
      cases started with
      | false => simp at h7
      | true =>
        cases exitAA <;> simp [MainPc.holding, MainPc.unwinding] at h1 h2 h3 h4 h8 h9 h11
        all_goals injection h with h
        all_goals subst h
        all_goals constructor <;> (try simp [leaked, MainPc.holding, MainPc.unwinding]) <;>
          first | omega | assumption | tauto
    · simp at h
  case waited =>
    split at h
    · rename_i hpc
      obtain ⟨hpc, hc⟩ := hpc
      subst hpc
      cases started with
      | false => simp at h7
      | true =>
        cases pnk <;> cases exitAA <;>
          simp [MainPc.holding, MainPc.unwinding] at h1 h2 h3 h4 h8 h9 h10 h11
        all_goals injection h with h
        all_goals subst h
        all_goals constructor <;> (try simp [leaked, MainPc.holding, MainPc.unwinding]) <;>
          first | omega | assumption | tauto
    · simp at h
  all_goals simp at h

theorem stepTask_inv (conf : config) (s s1 : State) (ev : Event) (i : Nat) (t : TaskPc)
    (hs : Inv conf s) (hget : s.tasks[i]? = some t) (h : stepTask s i t ev = some s1) :
    Inv conf s1 := by
  obtain ⟨h1, h2, h3, h4, h5, h6, h7, h8, h9, h10, h11⟩ := hs
  obtain ⟨pc, pnk, now, start, started, ctxDone, tctxDone, users, workers, ids, tasks,
    acq, rel, launched, spawnCalls, slog, sink, exitAA⟩ := s
  simp only [leaked] at h1 h2 h3 h4 h5 h6 h7 h8 h9 h10 h11 hget
  have c1 := fun t1 => countP_set_of_get TaskPc.holdsSlot tasks i t t1 hget
  have c2 := fun t1 => countP_set_of_get TaskPc.unfinished tasks i t t1 hget
  cases started with
  | false =>
    simp at h7
    rw [h7.1] at hget
    simp at hget
  | true =>
    simp only [true_implies] at h8
    cases ev <;> simp only [stepTask] at h
    case spawnCall j =>
      split at h
      · have d1 := c1 .spawning
        have d2 := c2 .spawning
        simp [TaskPc.holdsSlot, TaskPc.unfinished] at d1 d2
        cases exitAA <;> simp at h1 h9
        all_goals (try omega)
        all_goals injection h with h
        all_goals subst h
        all_goals constructor <;> (try simp [leaked, setTask]) <;>
          first | omega | assumption | tauto
      · simp at h
    case spawnReturn j r =>
      split at h
      · cases exitAA <;> simp at h1 h9
        all_goals cases r with
        | error e =>
          have d1 := c1 .release
          have d2 := c2 .release
          simp [TaskPc.holdsSlot, TaskPc.unfinished] at d1 d2
          injection h with h
          subst h
          constructor <;> (try simp [leaked, setTask]) <;>
            first | omega | assumption | tauto
        | ok u =>
          have d1 := c1 (.check u)
          have d2 := c2 (.check u)
          simp [TaskPc.holdsSlot, TaskPc.unfinished] at d1 d2
          injection h with h
          subst h
          constructor <;> (try simp [leaked, setTask]) <;>
            first | omega | assumption | tauto
      · simp at h
    case check j =>
      split at h
      · rename_i u
        have d1 := c1 .release
        have d2 := c2 .release
        have d3 := c1 (.scenario u)
        have d4 := c2 (.scenario u)
        simp [TaskPc.holdsSlot, TaskPc.unfinished] at d1 d2 d3 d4
        cases exitAA <;> simp at h1 h9
        all_goals (try split at h)
        all_goals (try (simp at h; done))
        all_goals (try omega)
        all_goals injection h with h
        all_goals subst h
        all_goals constructor <;> (try simp [leaked, setTask]) <;>
          first | omega | assumption | tauto
      · simp at h
    case scenarioReturn j r =>
      split at h
      · have d1 := c1 .release
        have d2 := c2 .release
        simp [TaskPc.holdsSlot, TaskPc.unfinished] at d1 d2
        cases exitAA <;> simp at h1 h9
        all_goals (try split at h)
        all_goals (try (simp at h; done))
        all_goals (try omega)
        all_goals injection h with h
        all_goals subst h
        all_goals constructor <;> (try simp [leaked, setTask]) <;>
          first | omega | assumption | tauto
      · simp at h
    case recv j =>
      split at h
      · have d1 := c1 .finishing
        have d2 := c2 .finishing
        simp [TaskPc.holdsSlot, TaskPc.unfinished] at d1 d2
        cases exitAA <;> simp at h1 h9
        all_goals (try split at h)
        all_goals (try (simp at h; done))
        all_goals (try split at h)
        all_goals (try (simp at h; done))
        all_goals (try omega)
        all_goals injection h with h
        all_goals subst h
        all_goals constructor <;> (try simp [leaked, setTask]) <;>
          first | omega | assumption | tauto
      · simp at h
    case done j =>
      split at h
      · have d1 := c1 .done
        have d2 := c2 .done
        simp [TaskPc.holdsSlot, TaskPc.unfinished] at d1 d2
        cases exitAA <;> simp at h1 h9
        all_goals (try split at h)
        all_goals (try (simp at h; done))
        all_goals (try omega)
        all_goals injection h with h
        all_goals subst h
        all_goals constructor <;> (try simp [leaked, setTask]) <;>
          first | omega | assumption | tauto
      · simp at h
    all_goals simp at h

theorem step_inv (conf : config) (s s1 : State) (ev : Event) (hs : Inv conf s)
    (h : step conf s ev = some s1) : Inv conf s1 := by
  cases ev <;> simp only [step, Event.taskIndex] at h <;> split at h <;>
    (try (simp at h; done))
  case tick d =>
    obtain ⟨h1, h2, h3, h4, h5, h6, h7, h8, h9, h10, h11⟩ := hs
    simp only [leaked] at h1
    simp only [Option.some.injEq] at h
    subst h
    constructor <;> (try simp only [leaked]) <;> assumption
  case interrupt =>
    obtain ⟨h1, h2, h3, h4, h5, h6, h7, h8, h9, h10, h11⟩ := hs
    simp only [leaked] at h1
    simp only [Option.some.injEq] at h
    subst h
    constructor <;> (try simp only [leaked]) <;> assumption
  case timeout =>
    obtain ⟨h1, h2, h3, h4, h5, h6, h7, h8, h9, h10, h11⟩ := hs
    simp only [leaked] at h1
    split at h
    · simp only [Option.some.injEq] at h
      subst h
      constructor <;> (try simp only [leaked]) <;> assumption
    · simp at h
  all_goals first
    | exact stepMain_inv conf s s1 _ hs h
    | (split at h
       · rename_i t ht
         exact stepTask_inv conf s s1 _ _ t hs ht h
       · simp at h)

theorem exec_inv (conf : config) (evs : List Event) (s s1 : State) (hs : Inv conf s)
    (h : exec conf s evs = some s1) : Inv conf s1 := by
  induction evs generalizing s with
  | nil =>
    simp only [exec, Option.some.injEq] at h
    subst h
    exact hs
  | cons ev evs ih =>
    simp only [exec] at h
    cases hstep : step conf s ev with
    | none => simp [hstep] at h
    | some s2 =>
      simp only [hstep, Option.bind] at h
      exact ih s2 (step_inv conf s s2 ev hs hstep) h

theorem wrap64_eq_self (x : Int) (h1 : -9223372036854775808 ≤ x) (h2 : x ≤ 9223372036854775807) :
    wrap64 x = x := by
  unfold wrap64
  omega

theorem interval_eq (conf : config) (hr : 0 < conf.SpawnRate) :
    interval conf = 1000000000 / conf.SpawnRate := by
  unfold interval secondNanos
  exact Int.tdiv_eq_ediv (by decide) (le_of_lt hr)

theorem interval_bounds (conf : config) (hr : 0 < conf.SpawnRate) :
    0 ≤ interval conf ∧ interval conf ≤ 1000000000 := by
  rw [interval_eq conf hr]
  constructor
  · exact Int.ediv_nonneg (by decide) (le_of_lt hr)
  · exact Int.ediv_le_self _ (by decide)

theorem ideal_bounds (conf : config) (hr : 0 < conf.SpawnRate) (k : Int)
    (h0 : 0 ≤ k) (h1 : k ≤ 2147483647) :
    0 ≤ k * interval conf ∧ k * interval conf ≤ 2147483647000000000 := by
  obtain ⟨i0, i1⟩ := interval_bounds conf hr
  constructor
  · exact mul_nonneg h0 i0
  · calc k * interval conf ≤ 2147483647 * 1000000000 := mul_le_mul h1 i1 i0 (by decide)
      _ = 2147483647000000000 := by norm_num

theorem sleepArg_eq (conf : config) (hr : 0 < conf.SpawnRate) (k e : Int)
    (h0 : 0 ≤ k) (h1 : k ≤ 2147483647) (e0 : 0 ≤ e) (e1 : e ≤ 9223372036854775807) :
    sleepArg conf k e = k * interval conf - e := by
  obtain ⟨p0, p1⟩ := ideal_bounds conf hr k h0 h1
  unfold sleepArg
  rw [wrap64_eq_self (k * interval conf) (by omega) (by omega),
    wrap64_eq_self _ (by omega) (by omega)]

theorem timeInv_initial (conf : config) (t0 : Int) (c : Bool) : TimeInv conf (initial t0 c) := by
  constructor <;> simp [initial]

/-- The sleep requested for a count `k` ends no earlier than `k` intervals after
the start of the run clock. -/
theorem wakeTime_ge (conf : config) (hr : 0 < conf.SpawnRate) (s : State) (k : Nat)
    (hk : (k : Int) ≤ 2147483647) (hclock : s.start ≤ s.now) :
    s.start + (k : Int) * interval conf ≤ wakeTime s.now (sleepArg conf k (since s)) := by
  obtain ⟨p0, p1⟩ := ideal_bounds conf hr k (by omega) hk
  have hs0 : 0 ≤ since s := by unfold since maxInt64; omega
  have hs1 : since s ≤ 9223372036854775807 := by unfold since maxInt64; omega
  rw [sleepArg_eq conf hr k (since s) (by omega) hk hs0 hs1]
  unfold wakeTime since maxInt64
  omega

theorem stepMain_timeInv (conf : config) (hc : conf.inRange) (hr : 0 < conf.SpawnRate)
    (s s1 : State) (ev : Event) (hi : Inv conf s) (ht : TimeInv conf s)
    (h : stepMain conf s ev = some s1) : TimeInv conf s1 := by
  obtain ⟨i0, i1⟩ := interval_bounds conf hr
  have hcap : (s.users.cap : Int) ≤ 2147483647 := by
    have h6 := hi.capLe
    have hu := hc.1.2
    unfold maxInt32 at hu
    omega
  have hlen := hi.lenLe
  have hst := hi.startedPc
  have hfr := hi.fresh
  have hled := hi.ledger
  obtain ⟨t1, t2, t3, t4, t5⟩ := ht
  have hwake := wakeTime_ge conf hr s
  clear hi
  obtain ⟨pc, pnk, now, start, started, ctxDone, tctxDone, users, workers, ids, tasks,
    acq, rel, launched, spawnCalls, slog, sink, exitAA⟩ := s
  simp only at t1 t2 t3 t4 t5 hcap hlen hst hfr hwake hled
  cases ev <;> simp only [stepMain] at h
  case initReturn r =>
    split at h
    · rename_i hpc
      subst hpc
      injection h with h
      subst h
      cases r with
      | error e =>
        constructor <;> simp [stepInit] <;> assumption
      | ok ids =>
        simp only [stepInit]
        split
        · cases started with
          | true => simp at hst
          | false =>
            simp at hfr
            have hz : users.len = 0 := by omega
            constructor <;> simp [hz]
            omega
        · constructor <;> simp
          omega
    · simp at h
  case readLen =>
    split at h
    · rename_i hpc
      subst hpc
      cases started with
      | false => simp at hfr
      | true =>
        simp at t1 t5
        split at h
        all_goals injection h with h
        all_goals subst h
        all_goals constructor <;> simp <;> first | omega | assumption
    · simp at h
  case sleepStart =>
    split at h
    · cases started with
      | false => simp at hfr
      | true =>
        simp at t1 t5
        injection h with h
        subst h
        rename_i k
        have hk := t2 k rfl
        have hw := hwake k (by omega) t1
        have : (users.len : Int) * interval conf ≤ (k : Int) * interval conf :=
          mul_le_mul_of_nonneg_right (by omega) i0
        constructor <;> simp <;> first | omega | assumption
    · simp at h
  case sleepEnd =>
    split at h
    · cases started with
      | false => simp at hfr
      | true =>
        simp at t1 t5
        rename_i w
        have hw := t3 w rfl
        split at h
        · injection h with h
          subst h
          constructor <;> simp <;> first | omega | assumption
        · simp at h
    · simp at h
  case sendSlot =>
    split at h
    · rename_i hpc
      obtain ⟨hpc, hlt⟩ := hpc
      subst hpc
      cases started with
      | false => simp at hfr
      | true =>
        simp at t1 t4 t5
        injection h with h
        subst h
        constructor <;> simp [add_mul] <;> first | omega | assumption
    · simp at h
  case observeDone =>
    split at h
    · rename_i hpc
      obtain ⟨hpc, hlt⟩ := hpc
      subst hpc
      cases started with
      | false => simp at hfr
      | true =>
        simp at t1 t4 t5
        injection h with h
        subst h
        constructor <;> simp <;> first | omega | assumption
    · simp at h
  case recheck =>
    split at h
    · rename_i hpc
      subst hpc
      cases started with
      | false => simp at hfr
      | true =>
        simp at t1 t5
        split at h
        all_goals injection h with h
        all_goals subst h
        all_goals constructor <;> simp <;> first | omega | assumption
    · simp at h
  case closeUsers =>
    split at h
    · rename_i hpc
      subst hpc
      cases started with
      | false => simp at hfr
      | true =>
        simp at t1 t5
        injection h with h
        subst h
        constructor <;> simp <;> first | omega | assumption
    · simp at h
  case cancelT =>
    split at h
    · rename_i hpc
      subst hpc
      cases started with
      | false => simp at hfr
      | true =>
        simp at t1 t5
        injection h with h
        subst h
        constructor <;> simp <;> first | omega | assumption
    · simp at h
  case waited =>
    split at h
    · rename_i hpc
      obtain ⟨hpc, hlt⟩ := hpc
      subst hpc
      cases started with
      | false => simp at hfr
      | true =>
        simp at t1 t5
        injection h with h
        subst h
        cases pnk <;> constructor <;> simp <;> first | omega | assumption
    · simp at h
  all_goals simp at h

theorem stepTask_timeInv (conf : config) (hr : 0 < conf.SpawnRate)
    (s s1 : State) (ev : Event) (i : Nat) (t : TaskPc) (ht : TimeInv conf s)
    (h : stepTask s i t ev = some s1) : TimeInv conf s1 := by
  obtain ⟨i0, i1⟩ := interval_bounds conf hr
  obtain ⟨t1, t2, t3, t4, t5⟩ := ht
  obtain ⟨pc, pnk, now, start, started, ctxDone, tctxDone, users, workers, ids, tasks,
    acq, rel, launched, spawnCalls, slog, sink, exitAA⟩ := s
  simp only at t1 t2 t3 t4 t5
  cases ev <;> simp only [stepTask] at h
  case recv j =>
    split at h
    · split at h
      · rename_i hpos
        injection h with h
        subst h
        have hcast : ((users.len - 1 : Nat) : Int) = (users.len : Int) - 1 := by omega
        constructor
        · exact t1
        · intro k hk
          have := t2 k hk
          show users.len - 1 ≤ k ∧ k ≤ users.cap
          omega
        · intro w hw
          have := t3 w hw
          show start + ((users.len - 1 : Nat) : Int) * interval conf ≤ w
          rw [hcast, sub_mul, one_mul]
          omega
        · intro hp
          have := t4 hp
          show ((users.len - 1 : Nat) : Int) * interval conf ≤ now - start
          rw [hcast, sub_mul, one_mul]
          omega
        · intro hp
          have := t5 hp
          show ((users.len - 1 : Nat) : Int) * interval conf ≤ now - start + interval conf
          rw [hcast, sub_mul, one_mul]
          omega
      · split at h
        · injection h with h
          subst h
          constructor <;> simp [setTask] <;> assumption
        · simp at h
    · simp at h
  case spawnReturn j r =>
    split at h
    · cases r <;> simp only at h <;> injection h with h <;> subst h <;>
        constructor <;> simp [setTask] <;> assumption
    · simp at h
  all_goals (try (simp at h; done))
  all_goals split at h
  all_goals (try (simp at h; done))
  all_goals (try split at h)
  all_goals injection h with h
  all_goals subst h
  all_goals constructor <;> simp [setTask] <;> assumption

theorem step_timeInv (conf : config) (hc : conf.inRange) (hr : 0 < conf.SpawnRate)
    (s s1 : State) (ev : Event) (hi : Inv conf s) (ht : TimeInv conf s)
    (h : step conf s ev = some s1) : TimeInv conf s1 := by
  cases ev <;> simp only [step, Event.taskIndex] at h <;> split at h <;>
    (try (simp at h; done))
  case tick d =>
    obtain ⟨t1, t2, t3, t4, t5⟩ := ht
    simp only [Option.some.injEq] at h
    subst h
    constructor
    · intro hp
      have := t1 hp
      dsimp only
      omega
    · exact t2
    · exact t3
    · intro hp
      have := t4 hp
      dsimp only
      omega
    · intro hp
      have := t5 hp
      dsimp only
      omega
  case interrupt =>
    obtain ⟨t1, t2, t3, t4, t5⟩ := ht
    simp only [Option.some.injEq] at h
    subst h
    exact ⟨t1, t2, t3, t4, t5⟩
  case timeout =>
    obtain ⟨t1, t2, t3, t4, t5⟩ := ht
    split at h
    · simp only [Option.some.injEq] at h
      subst h
      exact ⟨t1, t2, t3, t4, t5⟩
    · simp at h
  all_goals first
    | exact stepMain_timeInv conf hc hr s s1 _ hi ht h
    | (split at h
       · rename_i t hget
         exact stepTask_timeInv conf hr s s1 _ _ t ht h
       · simp at h)

theorem exec_timeInv (conf : config) (hc : conf.inRange) (hr : 0 < conf.SpawnRate)
    (evs : List Event) (s s1 : State) (hi : Inv conf s) (ht : TimeInv conf s)
    (h : exec conf s evs = some s1) : TimeInv conf s1 := by
  induction evs generalizing s with
  | nil =>
    simp only [exec, Option.some.injEq] at h
    subst h
    exact ht
  | cons ev evs ih =>
    simp only [exec] at h
    cases hstep : step conf s ev with
    | none => simp [hstep] at h
    | some s2 =>
      simp only [hstep, Option.bind] at h
      exact ih s2 (step_inv conf s s2 ev hi hstep) (step_timeInv conf hc hr s s2 ev hi ht hstep) h

theorem histInv_initial (t0 : Int) (c : Bool) : HistInv (initial t0 c) := by
  constructor <;> simp [initial, stopped, MainPc.unwinding]

theorem stepMain_histInv (conf : config) (s s1 : State) (ev : Event) (hi : Inv conf s)
    (hh : HistInv s) (h : stepMain conf s ev = some s1) : HistInv s1 := by
  have hfr := hi.fresh
  have hst := hi.startedPc
  have hwg := hi.wg
  clear hi
  obtain ⟨g1, g2, g3, g4, g5⟩ := hh
  obtain ⟨pc, pnk, now, start, started, ctxDone, tctxDone, users, workers, ids, tasks,
    acq, rel, launched, spawnCalls, slog, sink, exitAA⟩ := s
  simp only at g1 g2 g3 g4 g5 hfr hst hwg
  cases ev <;> simp only [stepMain] at h
  case initReturn r =>
    split at h
    · rename_i hpc
      subst hpc
      injection h with h
      subst h
      cases started with
      | true => simp at hst
      | false =>
        simp at hfr
        obtain ⟨f1, f2, f3, f4⟩ := hfr
        subst f1 f2 f3 f4
        cases pnk <;> simp [stopped, MainPc.unwinding] at g1 g2 g3 g5 hwg
        cases r with
        | error e =>
          simp only [stepInit]
          constructor <;> simp [stopped, MainPc.unwinding] <;> assumption
        | ok ids =>
          simp only [stepInit]
          split <;> constructor <;> simp [stopped, MainPc.unwinding] <;> assumption
    · simp at h
  case sleepStart =>
    split at h
    · cases pnk <;> simp [stopped, MainPc.unwinding] at g2 g3
      injection h with h
      subst h
      constructor <;> simp [stopped, MainPc.unwinding] <;> assumption
    · simp at h
  case sleepEnd =>
    split at h
    · cases pnk <;> simp [stopped, MainPc.unwinding] at g2 g3
      split at h
      · injection h with h
        subst h
        constructor <;> simp [stopped, MainPc.unwinding] <;> assumption
      · simp at h
    · simp at h
  case readLen =>
    split at h
    · rename_i hpc
      subst hpc
      cases pnk <;> simp [stopped, MainPc.unwinding] at g2 g3
      all_goals split at h
      all_goals injection h with h
      all_goals subst h
      all_goals constructor <;> simp [stopped, MainPc.unwinding, TaskPc.holdsSlot, TaskPc.isCreated] <;>
        first | omega | assumption
    · simp at h
  case sendSlot =>
    split at h
    · rename_i hpc
      obtain ⟨hpc, hcond⟩ := hpc
      subst hpc
      cases pnk <;> simp [stopped, MainPc.unwinding] at g2 g3
      all_goals injection h with h
      all_goals subst h
      all_goals constructor <;> simp [stopped, MainPc.unwinding, TaskPc.holdsSlot, TaskPc.isCreated] <;>
        first | omega | assumption
    · simp at h
  case observeDone =>
    split at h
    · rename_i hpc
      obtain ⟨hpc, hcond⟩ := hpc
      subst hpc
      cases pnk <;> simp [stopped, MainPc.unwinding] at g2 g3
      all_goals injection h with h
      all_goals subst h
      all_goals constructor <;> simp [stopped, MainPc.unwinding, TaskPc.holdsSlot, TaskPc.isCreated] <;>
        first | omega | assumption
    · simp at h
  case recheck =>
    split at h
    · rename_i hpc
      subst hpc
      cases pnk <;> simp [stopped, MainPc.unwinding] at g2 g3
      all_goals split at h
      all_goals injection h with h
      all_goals subst h
      all_goals constructor <;> simp [stopped, MainPc.unwinding, TaskPc.holdsSlot, TaskPc.isCreated] <;>
        first | omega | assumption
    · simp at h
  case closeUsers =>
    split at h
    · rename_i hpc
      subst hpc
      cases pnk <;> simp [stopped, MainPc.unwinding] at g2 g3
      all_goals injection h with h
      all_goals subst h
      all_goals constructor <;> simp [stopped, MainPc.unwinding, TaskPc.holdsSlot, TaskPc.isCreated] <;>
        first | omega | assumption
    · simp at h
  case cancelT =>
    split at h
    · rename_i hpc
      subst hpc
      cases pnk <;> simp [stopped, MainPc.unwinding] at g2 g3
      all_goals injection h with h
      all_goals subst h
      all_goals constructor <;> simp [stopped, MainPc.unwinding, TaskPc.holdsSlot, TaskPc.isCreated] <;>
        first | omega | assumption
    · simp at h
  case waited =>
    split at h
    · rename_i hpc
      obtain ⟨hpc, hcond⟩ := hpc
      subst hpc
      injection h with h
      subst h
      cases pnk <;> constructor <;> simp [stopped, MainPc.unwinding] <;>
        first | omega | assumption
    · simp at h
  all_goals simp at h

theorem stepTask_histInv (conf : config) (s s1 : State) (ev : Event) (i : Nat) (t : TaskPc)
    (hi : Inv conf s) (hh : HistInv s) (hget : s.tasks[i]? = some t)
    (h : stepTask s i t ev = some s1) : HistInv s1 := by
  have hwg := hi.wg
  clear hi
  obtain ⟨g1, g2, g3, g4, g5⟩ := hh
  obtain ⟨pc, pnk, now, start, started, ctxDone, tctxDone, users, workers, ids, tasks,
    acq, rel, launched, spawnCalls, slog, sink, exitAA⟩ := s
  simp only at g1 g2 g3 g4 g5 hget hwg
  have c1 := fun t1 => countP_set_of_get TaskPc.holdsSlot tasks i t t1 hget
  have c2 := fun t1 => countP_set_of_get TaskPc.unfinished tasks i t t1 hget
  have c3 := fun t1 => countP_set_of_get TaskPc.isCreated tasks i t t1 hget
  simp only [stopped] at g2
  cases ev <;> simp only [stepTask] at h
  case spawnCall j =>
    split at h
    · have d1 := c1 .spawning
      have e1 := c3 .spawning
      simp [TaskPc.holdsSlot, TaskPc.isCreated] at d1 e1
      injection h with h
      subst h
      constructor <;> simp [setTask, stopped] <;> first | omega | assumption
    · simp at h
  case spawnReturn j r =>
    split at h
    · cases r with
      | error e =>
        have d1 := c1 .release
        have e1 := c3 .release
        simp [TaskPc.holdsSlot, TaskPc.isCreated] at d1 e1
        injection h with h
        subst h
        constructor <;> simp [setTask, stopped] <;> first | omega | assumption
      | ok u =>
        have d1 := c1 (.check u)
        have e1 := c3 (.check u)
        simp [TaskPc.holdsSlot, TaskPc.isCreated] at d1 e1
        injection h with h
        subst h
        constructor <;> simp [setTask, stopped] <;> first | omega | assumption
    · simp at h
  case check j =>
    split at h
    · rename_i u
      have d1 := c1 .release
      have e1 := c3 .release
      have d3 := c1 (.scenario u)
      have e3 := c3 (.scenario u)
      simp [TaskPc.holdsSlot, TaskPc.isCreated] at d1 d3 e1 e3
      split at h
      · injection h with h
        subst h
        constructor <;> simp [setTask, stopped] <;> first | omega | assumption
      · injection h with h
        subst h
        constructor <;> simp [setTask, stopped]
        · omega
        · assumption
        · assumption
        · intro c hc
          rcases hc with hc | hc
          · exact g4 c hc
          · subst hc
            rfl
        · omega
    · simp at h
  case scenarioReturn j r =>
    split at h
    · have d1 := c1 .release
      have e1 := c3 .release
      simp [TaskPc.holdsSlot, TaskPc.isCreated] at d1 e1
      split at h
      all_goals injection h with h
      all_goals subst h
      all_goals constructor <;> simp [setTask, stopped] <;> first | omega | assumption
    · simp at h
  case recv j =>
    split at h
    · have d1 := c1 .finishing
      have e1 := c3 .finishing
      simp [TaskPc.holdsSlot, TaskPc.isCreated] at d1 e1
      split at h
      · injection h with h
        subst h
        constructor <;> simp [setTask, stopped] <;> first | omega | assumption
      · split at h
        · injection h with h
          subst h
          constructor <;> simp [setTask, stopped] <;> first | omega | assumption
        · simp at h
    · simp at h
  case done j =>
    split at h
    · have d1 := c1 .done
      have e1 := c3 .done
      have d2 := c2 .done
      simp [TaskPc.holdsSlot, TaskPc.unfinished, TaskPc.isCreated] at d1 d2 e1
      split at h
      · omega
      · rename_i hw
        injection h with h
        subst h
        constructor <;> simp [setTask, stopped]
        · omega
        · intro hp
          have := g2 hp
          omega
        · assumption
        · assumption
        · omega
    · simp at h
  all_goals simp at h

theorem step_histInv (conf : config) (s s1 : State) (ev : Event) (hi : Inv conf s)
    (hh : HistInv s) (h : step conf s ev = some s1) : HistInv s1 := by
  cases ev <;> simp only [step, Event.taskIndex] at h <;> split at h <;>
    (try (simp at h; done))
  case tick d =>
    obtain ⟨g1, g2, g3, g4, g5⟩ := hh
    simp only [Option.some.injEq] at h
    subst h
    exact ⟨g1, g2, g3, g4, g5⟩
  case interrupt =>
    obtain ⟨g1, g2, g3, g4, g5⟩ := hh
    simp only [Option.some.injEq] at h
    subst h
    exact ⟨g1, g2, g3, g4, g5⟩
  case timeout =>
    obtain ⟨g1, g2, g3, g4, g5⟩ := hh
    split at h
    · simp only [Option.some.injEq] at h
      subst h
      exact ⟨g1, g2, g3, g4, g5⟩
    · simp at h
  all_goals first
    | exact stepMain_histInv conf s s1 _ hi hh h
    | (split at h
       · rename_i t hget
         exact stepTask_histInv conf s s1 _ _ t hi hh hget h
       · simp at h)

theorem exec_histInv (conf : config) (evs : List Event) (s s1 : State) (hi : Inv conf s)
    (hh : HistInv s) (h : exec conf s evs = some s1) : HistInv s1 := by
  induction evs generalizing s with
  | nil =>
    simp only [exec, Option.some.injEq] at h
    subst h
    exact hh
  | cons ev evs ih =>
    simp only [exec] at h
    cases hstep : step conf s ev with
    | none => simp [hstep] at h
    | some s2 =>
      simp only [hstep, Option.bind] at h
      exact ih s2 (step_inv conf s s2 ev hi hstep) (step_histInv conf s s2 ev hi hh hstep) h

theorem exec_append (conf : config) (s : State) (xs ys : List Event) :
    exec conf s (xs ++ ys) = (exec conf s xs).bind fun s1 => exec conf s1 ys := by
  induction xs generalizing s with
  | nil => rfl
  | cons x xs ih =>
    simp only [List.cons_append, exec]
    cases step conf s x with
    | none => rfl
    | some s2 => exact ih s2

theorem reach_inv (conf : config) (t0 : Int) (c : Bool) (evs : List Event) (s : State)
    (h : exec conf (initial t0 c) evs = some s) : Inv conf s :=
  exec_inv conf evs _ s (inv_initial conf t0 c) h

theorem reach_histInv (conf : config) (t0 : Int) (c : Bool) (evs : List Event) (s : State)
    (h : exec conf (initial t0 c) evs = some s) : HistInv s :=
  exec_histInv conf evs _ s (inv_initial conf t0 c) (histInv_initial t0 c) h

theorem reach_timeInv (conf : config) (hc : conf.inRange) (hr : 0 < conf.SpawnRate)
    (t0 : Int) (c : Bool) (evs : List Event) (s : State)
    (h : exec conf (initial t0 c) evs = some s) : TimeInv conf s :=
  exec_timeInv conf hc hr evs _ s (inv_initial conf t0 c) (timeInv_initial conf t0 c) h

/-! ## How the spawning goroutine moves -/

theorem stepTask_done (s : State) (i : Nat) (ev : Event) : stepTask s i .done ev = none := by
  cases ev <;> rfl

theorem stepMain_returned (conf : config) (s : State) (r : Option GoError) (ev : Event)
    (hpc : s.pc = .returned r) : stepMain conf s ev = none := by
  cases ev <;> simp [stepMain, hpc]

theorem stepTask_pc (s s1 : State) (i : Nat) (t : TaskPc) (ev : Event)
    (h : stepTask s i t ev = some s1) : s1.pc = s.pc ∨ s1.pc = .crashed := by
  cases t <;> cases ev <;> simp only [stepTask] at h <;> (try (simp at h; done))
  all_goals (try split at h)
  all_goals (try split at h)
  all_goals (try (simp at h; done))
  all_goals simp only [Option.some.injEq] at h
  all_goals subst h
  all_goals first | exact Or.inl rfl | exact Or.inr rfl

/-- What an action of the spawning goroutine, or of the environment, can make of
the program counter `init`: nothing leads back to it. -/
theorem step_leaves_init (conf : config) (s s1 : State) (ev : Event)
    (h : step conf s ev = some s1) (hpc : s.pc ≠ .init) : s1.pc ≠ .init := by
  cases ev <;> simp only [step, Event.taskIndex] at h <;> split at h <;>
    (try (simp at h; done))
  case tick d => simp only [Option.some.injEq] at h; subst h; exact hpc
  case interrupt => simp only [Option.some.injEq] at h; subst h; exact hpc
  case timeout =>
    split at h
    · simp only [Option.some.injEq] at h; subst h; exact hpc
    · simp at h
  case initReturn r =>
    simp only [stepMain] at h
    split at h
    · rename_i h0
      exact absurd h0 hpc
    · simp at h
  case spawnCall i | spawnReturn i r | check i | scenarioReturn i r | recv i | done i =>
    split at h
    · rename_i t hget
      rcases stepTask_pc s s1 _ t _ h with hp | hp
      · rw [hp]; exact hpc
      · rw [hp]; simp
    · simp at h
  all_goals simp only [stepMain] at h
  all_goals split at h
  all_goals (try (simp at h; done))
  all_goals (try split at h)
  all_goals (try (simp at h; done))
  all_goals simp only [Option.some.injEq] at h
  all_goals subst h
  all_goals (try simp)
  all_goals split <;> simp

theorem initReturn_step (conf : config) (s s1 : State) (r : Except GoError Nat)
    (h : step conf s (.initReturn r) = some s1) : s.pc = .init ∧ s1 = stepInit conf s r := by
  simp only [step, Event.taskIndex, stepMain] at h
  split at h
  · simp at h
  · split at h
    · rename_i hpc
      simp only [Option.some.injEq] at h
      exact ⟨hpc, h.symm⟩
    · simp at h

theorem no_initReturn_later (conf : config) (evs : List Event) (s s1 : State)
    (hpc : s.pc ≠ .init) (h : exec conf s evs = some s1) (r : Except GoError Nat) :
    Event.initReturn r ∉ evs := by
  induction evs generalizing s with
  | nil => simp
  | cons ev evs ih =>
    simp only [exec] at h
    cases hstep : step conf s ev with
    | none => simp [hstep] at h
    | some s2 =>
      simp only [hstep, Option.bind] at h
      intro hmem
      rcases List.mem_cons.mp hmem with heq | hin
      · subst heq
        exact hpc (initReturn_step conf s s2 r hstep).1
      · exact ih s2 (step_leaves_init conf s s2 ev hstep hpc) h hin

/-- Once the run has stopped only the clock and the contexts still change. -/
theorem step_stopped (conf : config) (s s1 : State) (ev : Event) (hi : Inv conf s)
    (hh : HistInv s) (hstop : stopped s = true) (h : step conf s ev = some s1) :
    s1 = { s with now := s1.now, ctxDone := s1.ctxDone, tctxDone := s1.tctxDone } := by
  have hw := hh.quiet hstop
  have hwg := hi.wg
  have hun : s.tasks.countP TaskPc.unfinished = 0 := by omega
  rw [List.countP_eq_zero] at hun
  cases ev <;> simp only [step, Event.taskIndex] at h <;> split at h <;>
    (try (simp at h; done))
  case tick d => simp only [Option.some.injEq] at h; subst h; rfl
  case interrupt => simp only [Option.some.injEq] at h; subst h; rfl
  case timeout =>
    split at h
    · simp only [Option.some.injEq] at h; subst h; rfl
    · simp at h
  case spawnCall i | spawnReturn i r | check i | scenarioReturn i r | recv i | done i =>
    split at h
    · rename_i t hget
      have hmem : t ∈ s.tasks := List.getElem?_mem hget
      have := hun t hmem
      have ht : t = .done := by
        cases t <;> simp [TaskPc.unfinished] at this ⊢
      subst ht
      rw [stepTask_done] at h
      simp at h
    · simp at h
  all_goals
    (have hret : ∃ r, s.pc = .returned r := by
      unfold stopped at hstop
      cases hp : s.pc <;> simp_all)
  all_goals obtain ⟨r0, hr0⟩ := hret
  all_goals rw [stepMain_returned conf s r0 _ hr0] at h
  all_goals simp at h

theorem exec_stopped (conf : config) (evs : List Event) (s s1 : State) (hi : Inv conf s)
    (hh : HistInv s) (hstop : stopped s = true) (h : exec conf s evs = some s1) :
    s1 = { s with now := s1.now, ctxDone := s1.ctxDone, tctxDone := s1.tctxDone } := by
  induction evs generalizing s with
  | nil =>
    simp only [exec, Option.some.injEq] at h
    subst h
    rfl
  | cons ev evs ih =>
    simp only [exec] at h
    cases hstep : step conf s ev with
    | none => simp [hstep] at h
    | some s2 =>
      simp only [hstep, Option.bind] at h
      have e2 := step_stopped conf s s2 ev hi hh hstop hstep
      have hstop2 : stopped s2 = true := by
        rw [e2]
        exact hstop
      have e1 := ih s2 (step_inv conf s s2 ev hi hstep) (step_histInv conf s s2 ev hi hh hstep)
        hstop2 h
      rw [e1, e2]

/-- A returned error can only come from the initialization scenario. -/
theorem step_returns_error (conf : config) (s s1 : State) (ev : Event) (e1 : GoError)
    (h : step conf s ev = some s1) (hpc : s1.pc = .returned (some e1)) :
    s.pc = .returned (some e1) ∨ ∃ e, ev = .initReturn (.error e) ∧ e1 = withStack e := by
  cases ev
  case initReturn r =>
    have h2 := (initReturn_step conf s s1 r h).2
    subst h2
    cases r with
    | error e =>
      right
      refine ⟨e, rfl, ?_⟩
      simp [stepInit] at hpc
      exact hpc.symm
    | ok ids =>
      simp only [stepInit] at hpc
      split at hpc <;> simp at hpc
  all_goals simp only [step, Event.taskIndex] at h
  all_goals split at h
  all_goals (try (simp at h; done))
  case tick d => simp only [Option.some.injEq] at h; subst h; exact Or.inl hpc
  case interrupt => simp only [Option.some.injEq] at h; subst h; exact Or.inl hpc
  case timeout =>
    split at h
    · simp only [Option.some.injEq] at h; subst h; exact Or.inl hpc
    · simp at h
  case spawnCall i | spawnReturn i r | check i | scenarioReturn i r | recv i | done i =>
    split at h
    · rename_i t hget
      rcases stepTask_pc s s1 _ t _ h with hp | hp
      · left; rw [← hp]; exact hpc
      · rw [hp] at hpc; simp at hpc
    · simp at h
  all_goals simp only [stepMain] at h
  all_goals split at h
  all_goals (try (simp at h; done))
  all_goals (try split at h)
  all_goals (try (simp at h; done))
  all_goals simp only [Option.some.injEq] at h
  all_goals subst h
  all_goals (try (simp at hpc; done))
  all_goals split at hpc <;> simp at hpc

theorem exec_returns_error (conf : config) (evs : List Event) (s s1 : State) (e1 : GoError)
    (h : exec conf s evs = some s1) (hpc : s1.pc = .returned (some e1)) :
    s.pc = .returned (some e1) ∨ ∃ e, Event.initReturn (.error e) ∈ evs ∧ e1 = withStack e := by
  induction evs generalizing s with
  | nil =>
    simp only [exec, Option.some.injEq] at h
    subst h
    exact Or.inl hpc
  | cons ev evs ih =>
    simp only [exec] at h
    cases hstep : step conf s ev with
    | none => simp [hstep] at h
    | some s2 =>
      simp only [hstep, Option.bind] at h
      rcases ih s2 h with h2 | ⟨e, hmem, he⟩
      · rcases step_returns_error conf s s2 ev e1 hstep h2 with h3 | ⟨e, hev, he⟩
        · exact Or.inl h3
        · exact Or.inr ⟨e, by rw [hev]; exact List.mem_cons_self _ _, he⟩
      · exact Or.inr ⟨e, List.mem_cons_of_mem _ hmem, he⟩

/-- An error of the initialization scenario ends the run at once, with that
error wrapped as the result. -/
theorem exec_init_error (conf : config) (evs : List Event) (s s1 : State) (e : GoError)
    (hi : Inv conf s) (hh : HistInv s) (hpc : s.pc = .init)
    (h : exec conf s evs = some s1) (hmem : Event.initReturn (.error e) ∈ evs) :
    s1.pc = .returned (some (withStack e)) := by
  induction evs generalizing s with
  | nil => simp at hmem
  | cons ev evs ih =>
    simp only [exec] at h
    cases hstep : step conf s ev with
    | none => simp [hstep] at h
    | some s2 =>
      simp only [hstep, Option.bind] at h
      have hi2 := step_inv conf s s2 ev hi hstep
      have hh2 := step_histInv conf s s2 ev hi hh hstep
      by_cases hev : ev = .initReturn (.error e)
      · subst hev
        have h2 := (initReturn_step conf s s2 _ hstep).2
        have hp2 : s2.pc = .returned (some (withStack e)) := by rw [h2]; rfl
        have hst : stopped s2 = true := by unfold stopped; rw [hp2]
        have := exec_stopped conf evs s2 s1 hi2 hh2 hst h
        rw [this]
        exact hp2
      · have hin : Event.initReturn (.error e) ∈ evs := by
          rcases List.mem_cons.mp hmem with heq | hin
          · exact absurd heq.symm hev
          · exact hin
        by_cases hp2 : s2.pc = .init
        · exact ih s2 hi2 hh2 hp2 h hin
        · exact absurd hin (no_initReturn_later conf evs s2 s1 hp2 h _)

/-! ## Every run can be brought to its end -/

theorem set_self_of_get {α : Type} (l : List α) (i : Nat) (a : α) (h : l[i]? = some a) :
    l.set i a = l := by
  induction l generalizing i with
  | nil => rfl
  | cons x xs ih =>
    cases i with
    | zero =>
      simp at h
      subst h
      rfl
    | succ j =>
      simp at h
      simp [ih j h]

theorem countP_pos_of_get {α : Type} (p : α → Bool) (l : List α) (i : Nat) (a : α)
    (h : l[i]? = some a) (hp : p a = true) : 0 < l.countP p :=
  List.countP_pos_iff.mpr ⟨a, List.getElem?_mem h, hp⟩

/-- A goroutine that has not ended can take one more action when `tctx.Done()`
is closed: no state of the run blocks it. -/
theorem task_advance (conf : config) (s : State) (i : Nat) (t : TaskPc) (hi : Inv conf s)
    (hlive : s.pc ≠ .crashed) (hd : s.tctxDone = true) (hget : s.tasks[i]? = some t)
    (hne : t ≠ .done) :
    ∃ ev s1 t1, step conf s ev = some s1 ∧ s1.tasks = s.tasks.set i t1 ∧
      t1.rank < t.rank ∧ s1.pc = s.pc ∧ s1.tctxDone = true := by
  cases t with
  | created =>
    have hstep : step conf s (.spawnCall i)
        = some { setTask s i .spawning with spawnCalls := s.spawnCalls + 1 } := by
      simp [step, hlive, Event.taskIndex, hget, stepTask]
    exact ⟨_, _, .spawning, hstep, rfl, by decide, rfl, hd⟩
  | spawning =>
    have hstep : step conf s (.spawnReturn i (.ok 0)) = some (setTask s i (.check 0)) := by
      simp [step, hlive, Event.taskIndex, hget, stepTask]
    exact ⟨_, _, .check 0, hstep, rfl, by decide, rfl, hd⟩
  | check u =>
    have hstep : step conf s (.check i) = some (setTask s i .release) := by
      simp [step, hlive, Event.taskIndex, hget, stepTask, hd]
    exact ⟨_, _, .release, hstep, rfl, by simp [TaskPc.rank], rfl, hd⟩
  | scenario u =>
    have hstep : step conf s (.scenarioReturn i none) = some (setTask s i .release) := by
      simp [step, hlive, Event.taskIndex, hget, stepTask]
    exact ⟨_, _, .release, hstep, rfl, by simp [TaskPc.rank], rfl, hd⟩
  | release =>
    have hpos : 0 < s.users.len := by
      have h1 := hi.tokens
      have := countP_pos_of_get TaskPc.holdsSlot s.tasks i .release hget rfl
      omega
    have hstep : step conf s (.recv i)
        = some { setTask s i .finishing with
                 users := { s.users with len := s.users.len - 1 },
                 released := s.released + 1 } := by
      simp [step, hlive, Event.taskIndex, hget, stepTask, hpos]
    exact ⟨_, _, .finishing, hstep, rfl, by decide, rfl, hd⟩
  | finishing =>
    have hpos : ¬ s.workers ≤ 0 := by
      have h3 := hi.wg
      have := countP_pos_of_get TaskPc.unfinished s.tasks i .finishing hget rfl
      omega
    have hstep : step conf s (.done i)
        = some { setTask s i .done with workers := s.workers - 1 } := by
      simp [step, hlive, Event.taskIndex, hget, stepTask, hpos]
    exact ⟨_, _, .done, hstep, rfl, by decide, rfl, hd⟩
  | done => exact absurd rfl hne

/-- A goroutine reaches its end from wherever it is when `tctx.Done()` is closed. -/
theorem task_finish (conf : config) (n : Nat) (s : State) (i : Nat) (t : TaskPc)
    (hn : t.rank ≤ n) (hi : Inv conf s) (hlive : s.pc ≠ .crashed) (hd : s.tctxDone = true)
    (hget : s.tasks[i]? = some t) :
    ∃ evs s1, exec conf s evs = some s1 ∧ s1.tasks = s.tasks.set i .done ∧
      s1.pc = s.pc ∧ s1.tctxDone = true := by
  induction n generalizing s t with
  | zero =>
    have ht : t = .done := by
      cases t <;> simp [TaskPc.rank] at hn ⊢
    subst ht
    exact ⟨[], s, rfl, (set_self_of_get _ _ _ hget).symm, rfl, hd⟩
  | succ n ih =>
    by_cases hne : t = .done
    · subst hne
      exact ⟨[], s, rfl, (set_self_of_get _ _ _ hget).symm, rfl, hd⟩
    · obtain ⟨ev, s1, t1, hstep, htasks, hrank, hpc, hd1⟩ :=
        task_advance conf s i t hi hlive hd hget hne
      have hlt : i < s.tasks.length := (List.getElem?_eq_some.mp hget).1
      have hget1 : s1.tasks[i]? = some t1 := by
        rw [htasks]
        exact List.getElem?_set_self hlt
      obtain ⟨evs, s2, hexec, htasks2, hpc2, hd2⟩ :=
        ih s1 t1 (by omega) (step_inv conf s s1 ev hi hstep) (by rw [hpc]; exact hlive) hd1 hget1
      refine ⟨ev :: evs, s2, ?_, ?_, by rw [hpc2, hpc], hd2⟩
      · simp [exec, hstep, hexec]
      · rw [htasks2, htasks, List.set_set]

/-- All the goroutines reach their end when `tctx.Done()` is closed. -/
theorem tasks_finish (conf : config) (n : Nat) (s : State)
    (hn : s.tasks.countP TaskPc.unfinished = n) (hi : Inv conf s) (hlive : s.pc ≠ .crashed)
    (hd : s.tctxDone = true) :
    ∃ evs s1, exec conf s evs = some s1 ∧ s1.tasks.countP TaskPc.unfinished = 0 ∧
      s1.pc = s.pc ∧ s1.tctxDone = true := by
  induction n generalizing s with
  | zero => exact ⟨[], s, rfl, hn, rfl, hd⟩
  | succ n ih =>
    have hpos : 0 < s.tasks.countP TaskPc.unfinished := by omega
    obtain ⟨t, hmem, hp⟩ := List.countP_pos_iff.mp hpos
    obtain ⟨i, hget⟩ := List.mem_iff_getElem?.mp hmem
    obtain ⟨evs, s1, hexec, htasks, hpc, hd1⟩ :=
      task_finish conf t.rank s i t (le_refl _) hi hlive hd hget
    have hcount := countP_set_of_get TaskPc.unfinished s.tasks i t .done hget
    rw [if_pos hp] at hcount
    simp [TaskPc.unfinished] at hcount
    have hn1 : s1.tasks.countP TaskPc.unfinished = n := by
      rw [htasks]
      omega
    obtain ⟨evs2, s2, hexec2, hzero, hpc2, hd2⟩ :=
      ih s1 hn1 (exec_inv conf evs s s1 hi hexec) (by rw [hpc]; exact hlive) hd1
    refine ⟨evs ++ evs2, s2, ?_, hzero, by rw [hpc2, hpc], hd2⟩
    rw [exec_append, hexec]
    exact hexec2

/-- The spawning goroutine moves on toward its deferred `workers.Wait()` when
`tctx.Done()` is closed. -/
theorem main_advance (conf : config) (s : State) (hr : conf.SpawnRate ≠ 0)
    (hd : s.tctxDone = true) (h1 : 2 ≤ s.pc.rank) (h2 : s.pc.rank ≤ 8) :
    ∃ evs s1, exec conf s evs = some s1 ∧ s1.tctxDone = true ∧ 1 ≤ s1.pc.rank ∧
      s1.pc.rank < s.pc.rank := by
  have hlive : s.pc ≠ .crashed := by
    intro hp
    rw [hp] at h1
    simp [MainPc.rank] at h1
  cases hp : s.pc with
  | init => rw [hp] at h2; simp [MainPc.rank] at h2
  | returned r => rw [hp] at h1; simp [MainPc.rank] at h1
  | crashed => exact absurd hp hlive
  | waiting => rw [hp] at h1; simp [MainPc.rank] at h1
  | loopTop =>
    refine ⟨[.readLen], { s with pc := .timing s.users.len }, ?_, hd, ?_, ?_⟩
    · simp [exec, step, stepMain, Event.taskIndex, hp, hr]
    · simp [MainPc.rank]
    · simp [MainPc.rank]
  | timing k =>
    refine ⟨[.sleepStart],
      { s with pc := .sleeping (wakeTime s.now (sleepArg conf k (since s))) }, ?_, hd, ?_, ?_⟩
    · simp [exec, step, stepMain, Event.taskIndex, hp]
    · simp [MainPc.rank]
    · simp [MainPc.rank]
  | sleeping w =>
    refine ⟨[.tick (w - s.now).toNat, .sleepEnd],
      { s with now := s.now + ((w - s.now).toNat : Int), pc := .selecting }, ?_, hd, ?_, ?_⟩
    · have hw : w ≤ s.now + ((w - s.now).toNat : Int) := by omega
      have hm := le_max_left (w - s.now) 0
      simp [exec, step, stepMain, Event.taskIndex, hp]
      linarith
    · simp [MainPc.rank]
    · simp [MainPc.rank]
  | selecting =>
    refine ⟨[.observeDone], { s with pc := .closing }, ?_, hd, ?_, ?_⟩
    · simp [exec, step, stepMain, Event.taskIndex, hp, hd]
    · simp [MainPc.rank]
    · simp [MainPc.rank]
  | acquired =>
    refine ⟨[.recheck], { s with exitAfterAcquire := true, pc := .closing }, ?_, hd, ?_, ?_⟩
    · simp [exec, step, stepMain, Event.taskIndex, hp, hd]
    · simp [MainPc.rank]
    · simp [MainPc.rank]
  | closing =>
    refine ⟨[.closeUsers],
      { s with users := { s.users with closed := true }, pc := .cancelling }, ?_, hd, ?_, ?_⟩
    · simp [exec, step, stepMain, Event.taskIndex, hp]
    · simp [MainPc.rank]
    · simp [MainPc.rank]
  | cancelling =>
    refine ⟨[.cancelT], { s with tctxDone := true, pc := .waiting }, ?_, rfl, ?_, ?_⟩
    · simp [exec, step, stepMain, Event.taskIndex, hp]
    · simp [MainPc.rank]
    · simp [MainPc.rank]

/-- The spawning goroutine reaches its deferred `workers.Wait()`. -/
theorem main_drain (conf : config) (n : Nat) (s : State) (hr : conf.SpawnRate ≠ 0)
    (hd : s.tctxDone = true) (hn : s.pc.rank ≤ n) (h1 : 1 ≤ s.pc.rank) (h2 : s.pc.rank ≤ 8) :
    ∃ evs s1, exec conf s evs = some s1 ∧ s1.tctxDone = true ∧ s1.pc = .waiting := by
  induction n generalizing s with
  | zero => omega
  | succ n ih =>
    by_cases hw : s.pc.rank = 1
    · refine ⟨[], s, rfl, hd, ?_⟩
      cases hp : s.pc <;> rw [hp] at hw <;> simp [MainPc.rank] at hw ⊢
    · obtain ⟨evs, s1, hexec, hd1, hlo, hlt⟩ := main_advance conf s hr hd (by omega) h2
      obtain ⟨evs2, s2, hexec2, hd2, hpc2⟩ := ih s1 hd1 (by omega) hlo (by omega)
      refine ⟨evs ++ evs2, s2, ?_, hd2, hpc2⟩
      rw [exec_append, hexec]
      exact hexec2

/-- From every state of a run whose initialization succeeded, and that no panic
can hit, some continuation makes `runLoadTest` return `nil`. -/
theorem can_return_nil (conf : config) (s : State) (hU : 0 ≤ conf.Users)
    (hr : conf.SpawnRate ≠ 0) (hi : Inv conf s) (hh : HistInv s) (hs : s.started = true) :
    ∃ evs s1, exec conf s evs = some s1 ∧ s1.pc = .returned none := by
  have hnp : ∀ x : State, Inv conf x → x.panicking = false := by
    intro x hx
    cases hq : x.panicking with
    | false => rfl
    | true =>
      rcases hx.panicWhy hq with h | h
      · omega
      · exact absurd h hr
  have hpcs := hi.startedPc hs
  have hcr : s.pc ≠ .crashed := by
    intro hp
    have := hi.crashWhy hp
    rw [hnp s hi] at this
    simp at this
  by_cases hret : ∃ r, s.pc = .returned r
  · obtain ⟨r, hr0⟩ := hret
    cases r with
    | none => exact ⟨[], s, rfl, hr0⟩
    | some e => exact absurd hr0 (hpcs.2 e)
  · have hrank : 1 ≤ s.pc.rank ∧ s.pc.rank ≤ 8 := by
      cases hp : s.pc <;> simp [MainPc.rank]
      · exact hpcs.1 hp
      · exact hret ⟨_, hp⟩
      · exact hcr hp
    -- the caller cancels, which closes `tctx.Done()`
    have hint : step conf s .interrupt
        = some { s with ctxDone := true, tctxDone := s.tctxDone || s.started } := by
      simp [step, hcr]
    obtain ⟨evs1, s1, hexec1, hd1, hpc1⟩ :=
      main_drain conf _ { s with ctxDone := true, tctxDone := s.tctxDone || s.started } hr
        (by simp [hs]) (le_refl _) hrank.1 hrank.2
    have hi0 := step_inv conf s _ .interrupt hi hint
    have hi1 := exec_inv conf evs1 _ s1 hi0 hexec1
    obtain ⟨evs2, s2, hexec2, hzero, hpc2, hd2⟩ :=
      tasks_finish conf _ s1 rfl hi1 (by rw [hpc1]; simp) hd1
    have hi2 := exec_inv conf evs2 s1 s2 hi1 hexec2
    have hw : s2.workers = 0 := by
      have := hi2.wg
      omega
    have hfin : step conf s2 .waited = some { s2 with pc := .returned none } := by
      have hp2 : s2.pc = .waiting := by rw [hpc2, hpc1]
      simp [step, stepMain, Event.taskIndex, hp2, hw, hnp s2 hi2]
    refine ⟨.interrupt :: (evs1 ++ (evs2 ++ [.waited])), { s2 with pc := .returned none }, ?_, rfl⟩
    simp only [exec, hint, Option.bind]
    rw [exec_append, hexec1]
    simp only [Option.bind]
    rw [exec_append, hexec2]
    simp only [Option.bind, exec, hfin]

/-- Effect of an action of a per-user goroutine on the list of goroutines and on
the log: the goroutine makes one move of `TaskPc.next`, unless the action
crashes the process. -/
theorem stepTask_effect (s s1 : State) (i : Nat) (t : TaskPc) (ev : Event)
    (h : stepTask s i t ev = some s1) :
    (s1.pc = .crashed ∧ s1.tasks = s.tasks ∧ s1.scenarioLog = s.scenarioLog) ∨
      ∃ t1, TaskPc.next t t1 = true ∧ s1.tasks = s.tasks.set i t1 ∧
        s1.scenarioLog = logAfter s i t1 ∧ s1.articleIDs = s.articleIDs ∧ s1.pc = s.pc := by
  cases t <;> cases ev <;> simp only [stepTask] at h <;> (try (simp at h; done))
  all_goals (try split at h)
  all_goals (try split at h)
  all_goals (try (simp at h; done))
  all_goals simp only [Option.some.injEq] at h
  all_goals subst h
  all_goals first
    | exact Or.inl ⟨rfl, rfl, rfl⟩
    | exact Or.inr ⟨.spawning, rfl, rfl, rfl, rfl, rfl⟩
    | exact Or.inr ⟨.check _, rfl, rfl, rfl, rfl, rfl⟩
    | exact Or.inr ⟨.release, rfl, rfl, rfl, rfl, rfl⟩
    | exact Or.inr ⟨.scenario _, by simp [TaskPc.next], rfl, rfl, rfl, rfl⟩
    | exact Or.inr ⟨.finishing, rfl, rfl, rfl, rfl, rfl⟩
    | exact Or.inr ⟨.done, rfl, rfl, rfl, rfl, rfl⟩

/-- Effect of an action of the spawning goroutine on the list of goroutines and
on the log: only the `go` statement of line 79 changes the list, by one new
goroutine at its end. -/
theorem stepMain_effect (conf : config) (s s1 : State) (ev : Event)
    (h : stepMain conf s ev = some s1) :
    s1.scenarioLog = s.scenarioLog ∧
      (s1.tasks = s.tasks ∨
        (s1.tasks = s.tasks ++ [.created] ∧ ev = .recheck ∧ s.pc = .acquired ∧
          s.tctxDone = false)) := by
  cases ev <;> simp only [stepMain] at h <;> (try (simp at h; done))
  case initReturn r =>
    split at h
    · simp only [Option.some.injEq] at h
      subst h
      cases r with
      | error e => exact ⟨rfl, Or.inl rfl⟩
      | ok ids =>
        simp only [stepInit]
        split <;> exact ⟨rfl, Or.inl rfl⟩
    · simp at h
  case recheck =>
    split at h
    · rename_i hpc
      split at h
      · simp only [Option.some.injEq] at h
        subst h
        exact ⟨rfl, Or.inl rfl⟩
      · rename_i hd
        simp only [Option.some.injEq] at h
        subst h
        exact ⟨rfl, Or.inr ⟨rfl, rfl, hpc, by simpa using hd⟩⟩
    · simp at h
  all_goals split at h
  all_goals (try (simp at h; done))
  all_goals (try split at h)
  all_goals (try (simp at h; done))
  all_goals simp only [Option.some.injEq] at h
  all_goals subst h
  all_goals exact ⟨rfl, Or.inl rfl⟩

/-- Effect of any action on the list of goroutines and on the log. -/
theorem step_effect (conf : config) (s s1 : State) (ev : Event)
    (h : step conf s ev = some s1) :
    (s1.tasks = s.tasks ∧ s1.scenarioLog = s.scenarioLog) ∨
      (s1.tasks = s.tasks ++ [.created] ∧ s1.scenarioLog = s.scenarioLog ∧ ev = .recheck ∧
        s.pc = .acquired ∧ s.tctxDone = false) ∨
      ∃ i t t1, ev.taskIndex = some i ∧ s.tasks[i]? = some t ∧ TaskPc.next t t1 = true ∧
        s1.tasks = s.tasks.set i t1 ∧ s1.scenarioLog = logAfter s i t1 ∧
        s1.articleIDs = s.articleIDs ∧ s1.pc = s.pc := by
  cases ev
  case tick d =>
    simp only [step] at h
    split at h
    · simp at h
    · simp only [Option.some.injEq] at h; subst h; exact Or.inl ⟨rfl, rfl⟩
  case interrupt =>
    simp only [step] at h
    split at h
    · simp at h
    · simp only [Option.some.injEq] at h; subst h; exact Or.inl ⟨rfl, rfl⟩
  case timeout =>
    simp only [step] at h
    split at h
    · simp at h
    · split at h
      · simp only [Option.some.injEq] at h; subst h; exact Or.inl ⟨rfl, rfl⟩
      · simp at h
  case spawnCall i | spawnReturn i r | check i | scenarioReturn i r | recv i | done i =>
    simp only [step, Event.taskIndex] at h
    split at h
    · simp at h
    · split at h
      · rename_i t hget
        rcases stepTask_effect s s1 i t _ h with ⟨_, h1, h2⟩ | ⟨t1, h1, h2, h3, h4, h5⟩
        · exact Or.inl ⟨h1, h2⟩
        · exact Or.inr (Or.inr ⟨i, t, t1, rfl, hget, h1, h2, h3, h4, h5⟩)
      · simp at h
  all_goals simp only [step, Event.taskIndex] at h
  all_goals split at h
  all_goals (try (simp at h; done))
  all_goals
    (rcases stepMain_effect conf s s1 _ h with ⟨h1, h2 | ⟨h2, h3, h4, h5⟩⟩
     · exact Or.inl ⟨h2, h1⟩
     · first
       | exact Or.inr (Or.inl ⟨h2, h1, h3, h4, h5⟩)
       | simp at h3)

/-! ## What the log of scenario calls says about the goroutines -/

theorem next_pastCheck (t t1 : TaskPc) (h : TaskPc.next t t1 = true)
    (hp : t.pastCheck = true) : t1.pastCheck = true := by
  cases t <;> cases t1 <;> simp_all [TaskPc.next, TaskPc.pastCheck]

theorem next_leaving (t t1 : TaskPc) (h : TaskPc.next t t1 = true)
    (hp : t.leaving = true) : t1.leaving = true := by
  cases t <;> cases t1 <;> simp_all [TaskPc.next, TaskPc.leaving]

theorem leaving_logAfter (s : State) (i : Nat) (t1 : TaskPc) (h : t1.leaving = true) :
    logAfter s i t1 = s.scenarioLog := by
  cases t1 <;> simp_all [TaskPc.leaving, logAfter]

theorem step_logInv (conf : config) (s s1 : State) (ev : Event) (hl : LogInv s)
    (h : step conf s ev = some s1) : LogInv s1 := by
  rcases step_effect conf s s1 ev h with ⟨h1, h2⟩ | ⟨h1, h2, _⟩ |
    ⟨i, t, t1, _, hget, hnext, h1, h2, _⟩
  · intro c hc
    rw [h1]
    rw [h2] at hc
    exact hl c hc
  · intro c hc
    rw [h2] at hc
    obtain ⟨t, ht, hp⟩ := hl c hc
    refine ⟨t, ?_, hp⟩
    rw [h1, List.getElem?_append_left (List.getElem?_eq_some.mp ht).1]
    exact ht
  · have hlt : i < s.tasks.length := (List.getElem?_eq_some.mp hget).1
    have hold : ∀ c ∈ s.scenarioLog, ∃ t2, s1.tasks[c.task]? = some t2 ∧ t2.pastCheck = true := by
      intro c hc
      obtain ⟨t0, ht0, hp0⟩ := hl c hc
      rw [h1]
      by_cases hci : i = c.task
      · subst hci
        rw [hget] at ht0
        simp only [Option.some.injEq] at ht0
        subst ht0
        exact ⟨t1, List.getElem?_set_self hlt, next_pastCheck t t1 hnext hp0⟩
      · rw [List.getElem?_set_ne hci]
        exact ⟨t0, ht0, hp0⟩
    intro c hc
    rw [h2] at hc
    cases t1 with
    | scenario u =>
      simp only [logAfter, List.mem_append, List.mem_singleton] at hc
      rcases hc with hc | hc
      · exact hold c hc
      · subst hc
        rw [h1]
        exact ⟨.scenario u, List.getElem?_set_self hlt, rfl⟩
    | created | spawning | check _ | release | finishing | done => exact hold c hc

theorem exec_logInv (conf : config) (evs : List Event) (s s1 : State) (hl : LogInv s)
    (h : exec conf s evs = some s1) : LogInv s1 := by
  induction evs generalizing s with
  | nil =>
    simp only [exec, Option.some.injEq] at h
    subst h
    exact hl
  | cons ev evs ih =>
    simp only [exec] at h
    cases hstep : step conf s ev with
    | none => simp [hstep] at h
    | some s2 =>
      simp only [hstep, Option.bind] at h
      exact ih s2 (step_logInv conf s s2 ev hl hstep) h

theorem step_skipped (conf : config) (i : Nat) (s s1 : State) (ev : Event)
    (hk : Skipped i s) (h : step conf s ev = some s1) : Skipped i s1 := by
  obtain ⟨⟨t0, ht0, hp0⟩, hlog⟩ := hk
  have hlt0 : i < s.tasks.length := (List.getElem?_eq_some.mp ht0).1
  rcases step_effect conf s s1 ev h with ⟨h1, h2⟩ | ⟨h1, h2, _⟩ |
    ⟨j, t, t1, _, hget, hnext, h1, h2, _⟩
  · refine ⟨⟨t0, by rw [h1]; exact ht0, hp0⟩, ?_⟩
    rw [h2]
    exact hlog
  · refine ⟨⟨t0, ?_, hp0⟩, ?_⟩
    · rw [h1, List.getElem?_append_left hlt0]
      exact ht0
    · rw [h2]
      exact hlog
  · by_cases hji : j = i
    · subst hji
      rw [hget] at ht0
      simp only [Option.some.injEq] at ht0
      subst ht0
      have hl1 := next_leaving t t1 hnext hp0
      refine ⟨⟨t1, by rw [h1]; exact List.getElem?_set_self hlt0, hl1⟩, ?_⟩
      rw [h2, leaving_logAfter s j t1 hl1]
      exact hlog
    · refine ⟨⟨t0, by rw [h1, List.getElem?_set_ne hji]; exact ht0, hp0⟩, ?_⟩
      rw [h2]
      intro c hc
      cases t1 with
      | scenario u =>
        simp only [logAfter, List.mem_append, List.mem_singleton] at hc
        rcases hc with hc | hc
        · exact hlog c hc
        · subst hc
          exact hji
      | created | spawning | check _ | release | finishing | done => exact hlog c hc

theorem exec_skipped (conf : config) (i : Nat) (evs : List Event) (s s1 : State)
    (hk : Skipped i s) (h : exec conf s evs = some s1) : Skipped i s1 := by
  induction evs generalizing s with
  | nil =>
    simp only [exec, Option.some.injEq] at h
    subst h
    exact hk
  | cons ev evs ih =>
    simp only [exec] at h
    cases hstep : step conf s ev with
    | none => simp [hstep] at h
    | some s2 =>
      simp only [hstep, Option.bind] at h
      exact ih s2 (step_skipped conf i s s2 ev hk hstep) h

/-- What the return of a failed spawn step does (lines 86-90): the goroutine goes
to its deferred function and nothing else changes, `errorHandler` reporting
nothing. -/
theorem spawn_error_step (conf : config) (s s1 : State) (i : Nat) (e : GoError)
    (h : step conf s (.spawnReturn i (.error e)) = some s1) :
    s.tasks[i]? = some .spawning ∧ s1 = setTask s i .release := by
  simp only [step, Event.taskIndex] at h
  split at h
  · simp at h
  · split at h
    · rename_i t hget
      cases t <;> simp only [stepTask] at h <;> (try (simp at h; done))
      simp only [Option.some.injEq] at h
      refine ⟨hget, ?_⟩
      rw [← h]
      simp [errorHandler, setTask]
    · simp at h

/-- A goroutine whose spawn step failed never calls the scenario step. -/
theorem exec_spawn_error (conf : config) (i : Nat) (e : GoError) (evs : List Event)
    (s s1 : State) (hl : LogInv s) (h : exec conf s evs = some s1)
    (hmem : Event.spawnReturn i (.error e) ∈ evs) : Skipped i s1 := by
  induction evs generalizing s with
  | nil => simp at hmem
  | cons ev evs ih =>
    simp only [exec] at h
    cases hstep : step conf s ev with
    | none => simp [hstep] at h
    | some s2 =>
      simp only [hstep, Option.bind] at h
      by_cases hev : ev = .spawnReturn i (.error e)
      · subst hev
        obtain ⟨hget, hs2⟩ := spawn_error_step conf s s2 i e hstep
        have hlt : i < s.tasks.length := (List.getElem?_eq_some.mp hget).1
        have hk : Skipped i s2 := by
          subst hs2
          refine ⟨⟨.release, ?_, rfl⟩, ?_⟩
          · simp only [setTask]
            exact List.getElem?_set_self hlt
          · intro c hc hci
            obtain ⟨t, ht, hp⟩ := hl c hc
            rw [hci, hget] at ht
            simp only [Option.some.injEq] at ht
            subst ht
            simp [TaskPc.pastCheck] at hp
        exact exec_skipped conf i evs s2 s1 hk h
      · have hin : Event.spawnReturn i (.error e) ∈ evs := by
          rcases List.mem_cons.mp hmem with heq | hin
          · exact absurd heq.symm hev
          · exact hin
        exact ih s2 (step_logInv conf s s2 ev hl hstep) h hin

/-- Another goroutine's pc is left alone by an action that is not its own. -/
theorem step_other_task (conf : config) (s s1 : State) (ev : Event) (i : Nat) (t : TaskPc)
    (h : step conf s ev = some s1) (hget : s.tasks[i]? = some t)
    (hev : ev.taskIndex ≠ some i) : s1.tasks[i]? = some t := by
  have hlt : i < s.tasks.length := (List.getElem?_eq_some.mp hget).1
  rcases step_effect conf s s1 ev h with ⟨h1, _⟩ | ⟨h1, _⟩ | ⟨j, t0, t1, hj, _, _, h1, _⟩
  · rw [h1]; exact hget
  · rw [h1, List.getElem?_append_left hlt]; exact hget
  · have hji : j ≠ i := by
      intro hji
      subst hji
      exact hev hj
    rw [h1, List.getElem?_set_ne hji]
    exact hget

/-- The spawning goroutine and the environment read nothing of a per-user
goroutine: their actions commute with a change of its program counter. -/
theorem main_ignores_task (conf : config) (s : State) (i : Nat) (t : TaskPc) (ev : Event)
    (hlt : i < s.tasks.length) (hev : ev.taskIndex = none) :
    step conf (setTask s i t) ev = (step conf s ev).map (fun x => setTask x i t) := by
  cases ev <;> simp only [Event.taskIndex] at hev <;> (try (simp at hev; done))
  case tick d =>
    simp only [step, setTask]
    split <;> rfl
  case interrupt =>
    simp only [step, setTask]
    split <;> rfl
  case timeout =>
    simp only [step, setTask]
    split
    · rfl
    · split <;> rfl
  case initReturn r =>
    simp only [step, Event.taskIndex, stepMain, setTask]
    split
    · rfl
    · split
      · cases r with
        | error e => rfl
        | ok ids =>
          simp only [stepInit]
          split <;> rfl
      · rfl
  case recheck =>
    simp only [step, Event.taskIndex, stepMain, setTask]
    split
    · rfl
    · split
      · split
        · rfl
        · simp [List.set_append_left _ _ hlt]
      · rfl
  case sleepStart =>
    simp only [step, Event.taskIndex, stepMain, setTask]
    split
    · rfl
    · cases hp : s.pc <;> simp [since]
  case sleepEnd =>
    simp only [step, Event.taskIndex, stepMain, setTask]
    split
    · rfl
    · cases hp : s.pc <;> simp
  all_goals simp only [step, Event.taskIndex, stepMain, setTask]
  all_goals split
  all_goals (try rfl)
  all_goals split
  all_goals (try rfl)
  all_goals split
  all_goals rfl

/-- How the spawning goroutine enters an iteration, and how it comes to hold a
slot of its own. -/
theorem step_into_loop (conf : config) (s s1 : State) (ev : Event)
    (h : step conf s ev = some s1) :
    (s1.pc.inLoop = true → s.pc.inLoop = true ∨ (s.pc = .loopTop ∧ conf.SpawnRate ≠ 0)) ∧
      (s1.pc = .acquired →
        s.pc = .acquired ∨ (s.pc = .selecting ∧ s.users.len < s.users.cap)) := by
  cases ev
  case tick d =>
    simp only [step] at h
    split at h
    · simp at h
    · simp only [Option.some.injEq] at h; subst h; exact ⟨Or.inl, Or.inl⟩
  case interrupt =>
    simp only [step] at h
    split at h
    · simp at h
    · simp only [Option.some.injEq] at h; subst h; exact ⟨Or.inl, Or.inl⟩
  case timeout =>
    simp only [step] at h
    split at h
    · simp at h
    · split at h
      · simp only [Option.some.injEq] at h; subst h; exact ⟨Or.inl, Or.inl⟩
      · simp at h
  case spawnCall i | spawnReturn i r | check i | scenarioReturn i r | recv i | done i =>
    simp only [step, Event.taskIndex] at h
    split at h
    · simp at h
    · split at h
      · rename_i t hget
        rcases stepTask_pc s s1 _ t _ h with hp | hp
        · rw [hp]; exact ⟨Or.inl, Or.inl⟩
        · rw [hp]; simp [MainPc.inLoop]
      · simp at h
  case initReturn r =>
    have h2 := (initReturn_step conf s s1 r h).2
    subst h2
    cases r with
    | error e => simp [stepInit, MainPc.inLoop]
    | ok ids =>
      simp only [stepInit]
      split <;> simp [MainPc.inLoop]
  all_goals simp only [step, Event.taskIndex, stepMain] at h
  all_goals split at h
  all_goals (try (simp at h; done))
  all_goals split at h
  all_goals (try (simp at h; done))
  all_goals (try split at h)
  all_goals (try (simp at h; done))
  all_goals simp only [Option.some.injEq] at h
  all_goals subst h
  all_goals simp_all [MainPc.inLoop]
  all_goals split <;> simp

theorem noLaunch_initial (conf : config) (t0 : Int) (c : Bool) :
    NoLaunch conf (initial t0 c) := by
  constructor <;> intro _ <;> simp [initial, MainPc.inLoop]

theorem step_noLaunch (conf : config) (s s1 : State) (ev : Event) (hi : Inv conf s)
    (hn : NoLaunch conf s) (h : step conf s ev = some s1) : NoLaunch conf s1 := by
  obtain ⟨hflow1, hflow2⟩ := step_into_loop conf s s1 ev h
  have heff := step_effect conf s s1 ev h
  constructor
  · intro hr
    obtain ⟨ht, hp⟩ := hn.1 hr
    constructor
    · rcases heff with ⟨h1, _⟩ | ⟨_, _, _, h4, _⟩ | ⟨i, t, t1, _, hget, _⟩
      · rw [h1]; exact ht
      · rw [h4] at hp; simp [MainPc.inLoop] at hp
      · rw [ht] at hget; simp at hget
    · cases hq : s1.pc.inLoop with
      | false => rfl
      | true =>
        rcases hflow1 hq with h1 | ⟨_, h2⟩
        · rw [hp] at h1; simp at h1
        · exact absurd hr h2
  · intro hU
    obtain ⟨ht, hp⟩ := hn.2 hU
    constructor
    · rcases heff with ⟨h1, _⟩ | ⟨_, _, _, h4, _⟩ | ⟨i, t, t1, _, hget, _⟩
      · rw [h1]; exact ht
      · exact absurd h4 hp
      · rw [ht] at hget; simp at hget
    · intro hq
      rcases hflow2 hq with h1 | ⟨_, h2⟩
      · exact hp h1
      · have h5 := hi.lenLe
        have h6 := hi.capLe
        omega

theorem exec_noLaunch (conf : config) (evs : List Event) (s s1 : State) (hi : Inv conf s)
    (hn : NoLaunch conf s) (h : exec conf s evs = some s1) : NoLaunch conf s1 := by
  induction evs generalizing s with
  | nil =>
    simp only [exec, Option.some.injEq] at h
    subst h
    exact hn
  | cons ev evs ih =>
    simp only [exec] at h
    cases hstep : step conf s ev with
    | none => simp [hstep] at h
    | some s2 =>
      simp only [hstep, Option.bind] at h
      exact ih s2 (step_inv conf s s2 ev hi hstep) (step_noLaunch conf s s2 ev hi hn hstep) h

/-- In a run that has launched a goroutine nothing has panicked. -/
theorem reach_alive (conf : config) (t0 : Int) (c : Bool) (evs : List Event) (s : State)
    (h : exec conf (initial t0 c) evs = some s) (i : Nat) (t : TaskPc)
    (hget : s.tasks[i]? = some t) : s.pc ≠ .crashed ∧ s.panicking = false := by
  have hi := reach_inv conf t0 c evs s h
  have hn := exec_noLaunch conf evs _ s (inv_initial conf t0 c) (noLaunch_initial conf t0 c) h
  have hp : s.panicking = false := by
    cases hq : s.panicking with
    | false => rfl
    | true =>
      rcases hi.panicWhy hq with h1 | h1
      · rw [(hn.2 h1).1] at hget; simp at hget
      · rw [(hn.1 h1).1] at hget; simp at hget
  refine ⟨?_, hp⟩
  intro hc
  have := hi.crashWhy hc
  rw [hp] at this
  simp at this

/-- The run clock and the result of the initialization are set by the return of
`initScenario.Run` and by nothing else. -/
theorem step_started (conf : config) (s s1 : State) (ev : Event)
    (h : step conf s ev = some s1) (hs : s1.started = true) :
    (s.started = true ∧ s1.articleIDs = s.articleIDs) ∨
      ev = .initReturn (.ok s1.articleIDs) := by
  cases ev
  case initReturn r =>
    have h2 := (initReturn_step conf s s1 r h).2
    subst h2
    cases r with
    | error e =>
      left
      simpa [stepInit] using hs
    | ok ids =>
      right
      simp only [stepInit]
      split <;> rfl
  case tick d =>
    simp only [step] at h
    split at h
    · simp at h
    · simp only [Option.some.injEq] at h; subst h; exact Or.inl ⟨hs, rfl⟩
  case interrupt =>
    simp only [step] at h
    split at h
    · simp at h
    · simp only [Option.some.injEq] at h; subst h; exact Or.inl ⟨hs, rfl⟩
  case timeout =>
    simp only [step] at h
    split at h
    · simp at h
    · split at h
      · simp only [Option.some.injEq] at h; subst h; exact Or.inl ⟨hs, rfl⟩
      · simp at h
  case spawnCall i | spawnReturn i r | check i | scenarioReturn i r | recv i | done i =>
    simp only [step, Event.taskIndex] at h
    split at h
    · simp at h
    · split at h
      · rename_i t hget
        left
        cases t <;> simp only [stepTask] at h <;> (try (simp at h; done))
        all_goals (try split at h)
        all_goals (try split at h)
        all_goals (try (simp at h; done))
        all_goals simp only [Option.some.injEq] at h
        all_goals subst h
        all_goals exact ⟨hs, rfl⟩
      · simp at h
  all_goals simp only [step, Event.taskIndex, stepMain] at h
  all_goals split at h
  all_goals (try (simp at h; done))
  all_goals split at h
  all_goals (try (simp at h; done))
  all_goals (try split at h)
  all_goals (try (simp at h; done))
  all_goals simp only [Option.some.injEq] at h
  all_goals subst h
  all_goals exact Or.inl ⟨hs, rfl⟩

theorem exec_started (conf : config) (evs : List Event) (s s1 : State)
    (h : exec conf s evs = some s1) (hs : s1.started = true) :
    (s.started = true ∧ s1.articleIDs = s.articleIDs) ∨
      Event.initReturn (.ok s1.articleIDs) ∈ evs := by
  induction evs generalizing s with
  | nil =>
    simp only [exec, Option.some.injEq] at h
    subst h
    exact Or.inl ⟨hs, rfl⟩
  | cons ev evs ih =>
    simp only [exec] at h
    cases hstep : step conf s ev with
    | none => simp [hstep] at h
    | some s2 =>
      simp only [hstep, Option.bind] at h
      rcases ih s2 h with ⟨h2, h3⟩ | hmem
      · rcases step_started conf s s2 ev hstep h2 with ⟨h4, h5⟩ | hev
        · exact Or.inl ⟨h4, by rw [h3, h5]⟩
        · right
          rw [hev, h3]
          exact List.mem_cons_self _ _
      · exact Or.inr (List.mem_cons_of_mem _ hmem)

/-- A goroutine inside `articleScenario.Run` stays there until that call
returns: no other action moves it, the timeout and the cancellations included. -/
theorem step_in_scenario (conf : config) (s s1 : State) (ev : Event) (i u : Nat)
    (hget : s.tasks[i]? = some (.scenario u)) (h : step conf s ev = some s1)
    (hev : ∀ r, ev ≠ .scenarioReturn i r) : s1.tasks[i]? = some (.scenario u) := by
  cases ev
  case scenarioReturn j r =>
    by_cases hji : j = i
    · subst hji
      exact absurd rfl (hev r)
    · exact step_other_task conf s s1 _ i _ h hget (by simp [Event.taskIndex]; exact hji)
  case spawnCall j | spawnReturn j r | check j | recv j | done j =>
    by_cases hji : j = i
    · subst hji
      simp [step, Event.taskIndex, hget, stepTask] at h
    · exact step_other_task conf s s1 _ i _ h hget (by simp [Event.taskIndex]; exact hji)
  all_goals exact step_other_task conf s s1 _ i _ h hget (by simp [Event.taskIndex])

theorem exec_in_scenario (conf : config) (evs : List Event) (s s1 : State) (i u : Nat)
    (hget : s.tasks[i]? = some (.scenario u)) (h : exec conf s evs = some s1)
    (hev : ∀ r, Event.scenarioReturn i r ∉ evs) : s1.tasks[i]? = some (.scenario u) := by
  induction evs generalizing s with
  | nil =>
    simp only [exec, Option.some.injEq] at h
    subst h
    exact hget
  | cons ev evs ih =>
    simp only [exec] at h
    cases hstep : step conf s ev with
    | none => simp [hstep] at h
    | some s2 =>
      simp only [hstep, Option.bind] at h
      have h2 := step_in_scenario conf s s2 ev i u hget hstep
        (fun r heq => hev r (by rw [heq]; exact List.mem_cons_self _ _))
      exact ih s2 h2 h (fun r hmem => hev r (List.mem_cons_of_mem _ hmem))

/-- Once the spawning goroutine has left its loop without a panic it stays on
its way to return `nil`, and launches nothing. -/
theorem step_exiting (conf : config) (s s1 : State) (ev : Event) (hi : Inv conf s)
    (hp : s.pc.exitingNil = true) (hn : s.panicking = false)
    (h : step conf s ev = some s1) :
    s1.pc.exitingNil = true ∧ s1.panicking = false ∧ s1.tasks.length = s.tasks.length := by
  have hi1 := step_inv conf s s1 ev hi h
  have hlen : s1.tasks.length = s.tasks.length := by
    rcases step_effect conf s s1 ev h with ⟨h1, _⟩ | ⟨_, _, _, h4, _⟩ | ⟨j, t, t1, _, _, _, h1, _⟩
    · rw [h1]
    · rw [h4] at hp; simp [MainPc.exitingNil] at hp
    · rw [h1, List.length_set]
  have hmain : (s1.pc.exitingNil = true ∨ s1.pc = .crashed) ∧ s1.panicking = false := by
    cases ev
    case tick d =>
      simp only [step] at h
      split at h
      · simp at h
      · simp only [Option.some.injEq] at h; subst h; exact ⟨Or.inl hp, hn⟩
    case interrupt =>
      simp only [step] at h
      split at h
      · simp at h
      · simp only [Option.some.injEq] at h; subst h; exact ⟨Or.inl hp, hn⟩
    case timeout =>
      simp only [step] at h
      split at h
      · simp at h
      · split at h
        · simp only [Option.some.injEq] at h; subst h; exact ⟨Or.inl hp, hn⟩
        · simp at h
    case spawnCall i | spawnReturn i r | check i | scenarioReturn i r | recv i | done i =>
      simp only [step, Event.taskIndex] at h
      split at h
      · simp at h
      · split at h
        · rename_i t hget
          cases t <;> simp only [stepTask] at h <;> (try (simp at h; done))
          all_goals (try split at h)
          all_goals (try split at h)
          all_goals (try (simp at h; done))
          all_goals simp only [Option.some.injEq] at h
          all_goals subst h
          all_goals first
            | exact ⟨Or.inl hp, hn⟩
            | exact ⟨Or.inr rfl, hn⟩
        · simp at h
    case initReturn r =>
      have h0 := (initReturn_step conf s s1 r h).1
      rw [h0] at hp
      simp [MainPc.exitingNil] at hp
    all_goals simp only [step, Event.taskIndex, stepMain] at h
    all_goals split at h
    all_goals (try (simp at h; done))
    all_goals split at h
    all_goals (try (simp at h; done))
    all_goals (try split at h)
    all_goals (try (simp at h; done))
    all_goals simp only [Option.some.injEq] at h
    all_goals subst h
    all_goals simp_all [MainPc.exitingNil]
  refine ⟨?_, hmain.2, hlen⟩
  rcases hmain.1 with h1 | h1
  · exact h1
  · have := hi1.crashWhy h1
    rw [hmain.2] at this
    simp at this

theorem exec_exiting (conf : config) (evs : List Event) (s s1 : State) (hi : Inv conf s)
    (hp : s.pc.exitingNil = true) (hn : s.panicking = false)
    (h : exec conf s evs = some s1) :
    s1.pc.exitingNil = true ∧ s1.panicking = false ∧ s1.tasks.length = s.tasks.length := by
  induction evs generalizing s with
  | nil =>
    simp only [exec, Option.some.injEq] at h
    subst h
    exact ⟨hp, hn, rfl⟩
  | cons ev evs ih =>
    simp only [exec] at h
    cases hstep : step conf s ev with
    | none => simp [hstep] at h
    | some s2 =>
      simp only [hstep, Option.bind] at h
      obtain ⟨h1, h2, h3⟩ := step_exiting conf s s2 ev hi hp hn hstep
      obtain ⟨h4, h5, h6⟩ := ih s2 (step_inv conf s s2 ev hi hstep) h1 h2 h
      exact ⟨h4, h5, by rw [h6, h3]⟩

/-! ## The concurrency limiter -/

/-- C1: in every state reachable in a run with `Users = U > 0`, the number of
outstanding slots, counted as sends minus receives on `users`, is the number of
tokens queued in the channel, and it lies between 0 and `U`. -/
theorem outstanding_slots_bounded (conf : config) (t0 : Int) (c : Bool)
    (evs : List Event) (s : State) (hU : 0 < conf.Users)
    (h : exec conf (initial t0 c) evs = some s) :
    outstanding s = (s.users.len : Int) ∧ 0 ≤ outstanding s ∧ outstanding s ≤ conf.Users := by
  have hi := reach_inv conf t0 c evs s h
  have h2 := hi.ledger
  have h5 := hi.lenLe
  have h6 := hi.capLe
  unfold outstanding
  omega

/-- Witness of C1: after `rampRun` both slots of `rampConf` are outstanding. -/
theorem outstanding_slots_bounded_witness :
    0 < rampConf.Users ∧ exec rampConf (initial 0 false) rampRun = some rampState ∧
      (outstanding rampState = (rampState.users.len : Int) ∧ 0 ≤ outstanding rampState ∧
        outstanding rampState ≤ rampConf.Users) :=
  ⟨by decide, by rfl,
    outstanding_slots_bounded rampConf 0 false rampRun rampState (by decide) (by rfl)⟩

/-- C2, as stated, fails: `raceRun` ends with `runLoadTest` returned and one slot
acquired and never released, the one sent just before the re-check of line 71. -/
theorem race_leaves_a_slot :
    exec raceConf (initial 0 false) raceRun = some raceState ∧
      raceState.pc = .returned none ∧ stopped raceState = true ∧
      raceState.acquired = 2 ∧ raceState.released = 1 ∧ outstanding raceState = 1 :=
  ⟨by rfl, by rfl, by rfl, by rfl, by rfl, by rfl⟩

/-- C2, amended: when a run has stopped every launched goroutine has ended and
has received from `users` exactly once in total per goroutine, whatever its
steps returned; the outstanding slots are then those left by the exit of line
73, none or one. -/
theorem slots_balanced_up_to_recheck_exit (conf : config) (t0 : Int) (c : Bool)
    (evs : List Event) (s : State) (h : exec conf (initial t0 c) evs = some s)
    (hstop : stopped s = true) :
    running s = 0 ∧ (∀ t ∈ s.tasks, t = TaskPc.done) ∧ s.released = s.launched ∧
      outstanding s = (if s.exitAfterAcquire then 1 else 0) := by
  have hi := reach_inv conf t0 c evs s h
  have hh := reach_histInv conf t0 c evs s h
  have hw := hh.quiet hstop
  have hwg := hi.wg
  have hun : s.tasks.countP TaskPc.unfinished = 0 := by omega
  have hhs : s.tasks.countP TaskPc.holdsSlot = 0 := by
    have := holdsSlot_le_unfinished s.tasks
    omega
  have hpc : s.pc.holding = 0 := by
    unfold stopped at hstop
    cases hp : s.pc <;> simp [hp] at hstop <;> rfl
  have h1 := hi.tokens
  have h2 := hi.ledger
  have h4 := hi.launchedEq
  have g1 := hh.releasedEq
  have hrel : s.released = s.launched := by
    rw [hhs] at g1
    omega
  refine ⟨hun, ?_, hrel, ?_⟩
  · intro t ht
    rw [List.countP_eq_zero] at hun
    have := hun t ht
    cases t <;> simp [TaskPc.unfinished] at this ⊢
  · unfold outstanding
    unfold leaked at h1
    split <;> simp_all <;> omega

/-- Witness of the amended C2 on `raceRun`. -/
theorem slots_balanced_up_to_recheck_exit_witness :
    exec raceConf (initial 0 false) raceRun = some raceState ∧ stopped raceState = true ∧
      (running raceState = 0 ∧ (∀ t ∈ raceState.tasks, t = TaskPc.done) ∧
        raceState.released = raceState.launched ∧
        outstanding raceState = (if raceState.exitAfterAcquire then 1 else 0)) :=
  ⟨by rfl, by rfl,
    slots_balanced_up_to_recheck_exit raceConf 0 false raceRun raceState (by rfl) (by rfl)⟩

/-! ## The ramp scheduler -/

/-- C3, as stated, fails: in `burstRun` the second user is launched while no
time has elapsed since the start of the run clock, at one user per second:
two users are launched where `⌊t·r⌋ + 1` is one. -/
theorem burst_outruns_rate :
    exec burstConf (initial 0 false) burstRun = some burstState ∧
      burstState.launched = 2 ∧ elapsed burstState = 0 ∧
      ¬ ((burstState.launched : Int) ≤ specSpawnBound burstConf.SpawnRate (elapsed burstState)) :=
  ⟨by rfl, by rfl, by rfl, by decide⟩

/-- C3, amended: the count that the scheduler holds against the rate is the
number of outstanding slots.  In every reachable state of a run with
`SpawnRate = r > 0`, once the run clock has started, the outstanding slots but
one fit in the elapsed time at `⌊10^9 / r⌋` nanoseconds each; and when the loop
stands at its outer `select`, about to acquire, all of them do. -/
theorem outstanding_tracks_rate (conf : config) (t0 : Int) (c : Bool)
    (evs : List Event) (s : State) (hc : conf.inRange) (hr : 0 < conf.SpawnRate)
    (h : exec conf (initial t0 c) evs = some s) (hs : s.started = true) :
    (outstanding s - 1) * (1000000000 / conf.SpawnRate) ≤ elapsed s ∧
      (s.pc = .selecting → outstanding s * (1000000000 / conf.SpawnRate) ≤ elapsed s) := by
  have hi := reach_inv conf t0 c evs s h
  have ht := reach_timeInv conf hc hr t0 c evs s h
  have hout : outstanding s = (s.users.len : Int) := by
    have h2 := hi.ledger
    unfold outstanding
    omega
  rw [hout, ← interval_eq conf hr]
  unfold elapsed
  constructor
  · have := ht.ramp hs
    rw [sub_mul, one_mul]
    omega
  · intro hp
    exact ht.ready hp

/-- Witness of the amended C3 on `rampRun`: two slots are outstanding 100 ms
after the start, at ten users per second. -/
theorem outstanding_tracks_rate_witness :
    rampConf.inRange ∧ 0 < rampConf.SpawnRate ∧
      exec rampConf (initial 0 false) rampRun = some rampState ∧ rampState.started = true ∧
      ((outstanding rampState - 1) * (1000000000 / rampConf.SpawnRate) ≤ elapsed rampState ∧
        (rampState.pc = .selecting →
          outstanding rampState * (1000000000 / rampConf.SpawnRate) ≤ elapsed rampState)) :=
  ⟨by decide, by decide, by rfl, by rfl,
    outstanding_tracks_rate rampConf 0 false rampRun rampState (by decide) (by decide)
      (by rfl) (by rfl)⟩

/-- C4, as stated, fails: at three users per second and a count of three the
loop asks for 999999999 ns, one nanosecond short of `3 * (1 s / 3) - 0`. -/
theorem sleepArg_truncates :
    sleepArg ⟨0, 3, 3⟩ 3 0 = 999999999 ∧ specWaitTime 3 3 0 = 1000000000 ∧
      ((sleepArg ⟨0, 3, 3⟩ 3 0 : Int) : ℚ) ≠ specWaitTime 3 3 0 := by
  have h1 : sleepArg ⟨0, 3, 3⟩ 3 0 = 999999999 := by rfl
  have h2 : specWaitTime 3 3 0 = 1000000000 := by
    unfold specWaitTime
    norm_num
  refine ⟨h1, h2, ?_⟩
  rw [h1, h2]
  norm_num

/-- C4, amended: for a rate `r > 0`, a count `c` of the range of `len(users)` and
an elapsed time `e` of the range of `time.Duration`, the argument of
`time.Sleep` is `c * ⌊10^9 / r⌋ - e` nanoseconds, one second divided by `r` in
integer arithmetic.  A value that is not positive means no wait.  The value is
the exact `c * (1 s / r) - e` when `r` divides `10^9`, and never more than `c`
nanoseconds below it. -/
theorem sleepArg_floor (conf : config) (c e now : Int) (hr : 0 < conf.SpawnRate)
    (hc0 : 0 ≤ c) (hc1 : c ≤ maxInt32) (he0 : 0 ≤ e) (he1 : e ≤ maxInt64) :
    sleepArg conf c e = c * (1000000000 / conf.SpawnRate) - e ∧
      (sleepArg conf c e ≤ 0 → wakeTime now (sleepArg conf c e) = now) ∧
      (0 < sleepArg conf c e → wakeTime now (sleepArg conf c e) = now + sleepArg conf c e) ∧
      (conf.SpawnRate ∣ 1000000000 →
        ((sleepArg conf c e : Int) : ℚ) = specWaitTime conf.SpawnRate c e) ∧
      specWaitTime conf.SpawnRate c e - c ≤ ((sleepArg conf c e : Int) : ℚ) ∧
      ((sleepArg conf c e : Int) : ℚ) ≤ specWaitTime conf.SpawnRate c e := by
  unfold maxInt32 at hc1
  unfold maxInt64 at he1
  have heq := sleepArg_eq conf hr c e hc0 hc1 he0 he1
  rw [interval_eq conf hr] at heq
  have hrq : (0 : ℚ) < (conf.SpawnRate : ℚ) := by exact_mod_cast hr
  have hcq : (0 : ℚ) ≤ (c : ℚ) := by exact_mod_cast hc0
  -- the quotient and the remainder of the division of one second by the rate
  have hdiv : conf.SpawnRate * (1000000000 / conf.SpawnRate) + 1000000000 % conf.SpawnRate
      = 1000000000 := Int.ediv_add_emod 1000000000 conf.SpawnRate
  have hm0 : 0 ≤ 1000000000 % conf.SpawnRate := Int.emod_nonneg _ (ne_of_gt hr)
  have hm1 : 1000000000 % conf.SpawnRate < conf.SpawnRate := Int.emod_lt_of_pos _ hr
  have hdivq : (conf.SpawnRate : ℚ) * ((1000000000 / conf.SpawnRate : Int) : ℚ)
      + ((1000000000 % conf.SpawnRate : Int) : ℚ) = 1000000000 := by exact_mod_cast hdiv
  have hm0q : (0 : ℚ) ≤ ((1000000000 % conf.SpawnRate : Int) : ℚ) := by exact_mod_cast hm0
  have hm1q : ((1000000000 % conf.SpawnRate : Int) : ℚ) < (conf.SpawnRate : ℚ) := by
    exact_mod_cast hm1
  have hquot : (1000000000 : ℚ) / (conf.SpawnRate : ℚ)
      = ((1000000000 / conf.SpawnRate : Int) : ℚ)
        + ((1000000000 % conf.SpawnRate : Int) : ℚ) / (conf.SpawnRate : ℚ) := by
    field_simp
    linarith
  have hfrac0 : (0 : ℚ) ≤ ((1000000000 % conf.SpawnRate : Int) : ℚ) / (conf.SpawnRate : ℚ) :=
    div_nonneg hm0q (le_of_lt hrq)
  have hfrac1 : ((1000000000 % conf.SpawnRate : Int) : ℚ) / (conf.SpawnRate : ℚ) ≤ 1 := by
    rw [div_le_one hrq]
    exact le_of_lt hm1q
  refine ⟨heq, ?_, ?_, ?_, ?_, ?_⟩
  · intro hle
    unfold wakeTime
    omega
  · intro hlt
    unfold wakeTime
    omega
  · intro hdvd
    have hz : 1000000000 % conf.SpawnRate = 0 := Int.emod_eq_zero_of_dvd hdvd
    rw [heq]
    unfold specWaitTime
    rw [hquot, hz]
    push_cast
    ring
  · rw [heq]
    unfold specWaitTime
    rw [hquot]
    push_cast
    nlinarith [mul_le_mul_of_nonneg_left hfrac1 hcq]
  · rw [heq]
    unfold specWaitTime
    rw [hquot]
    push_cast
    nlinarith [mul_nonneg hcq hfrac0]

/-- Witness of the amended C4, on the example of the source comment: ten users
per second, 160 users, 15.5 s elapsed, a wait of exactly 0.5 s. -/
theorem sleepArg_floor_witness :
    sleepArg ⟨0, 200, 10⟩ 160 15500000000 = 500000000 ∧
      ((sleepArg ⟨0, 200, 10⟩ 160 15500000000 : Int) : ℚ)
        = specWaitTime (10 : Int) 160 15500000000 := by
  have h := sleepArg_floor ⟨0, 200, 10⟩ 160 15500000000 0 (by decide) (by decide)
    (by decide) (by decide) (by decide)
  exact ⟨by rfl, h.2.2.2.1 (by decide)⟩

/-- C5: for every rate `r > 0` and every elapsed time `e ≥ 0`, a count of zero
gives a wait that is not positive, so `time.Sleep` returns at once: from the
program counter where the loop has read `len(users) = 0`, the sleep starts and
ends without the clock moving and the loop stands at its outer `select`. -/
theorem first_spawn_not_delayed (conf : config) (e now : Int) (s : State)
    (hr : 0 < conf.SpawnRate) (he0 : 0 ≤ e) (he1 : e ≤ maxInt64)
    (hpc : s.pc = .timing 0) (hclock : s.start ≤ s.now) :
    sleepArg conf 0 e ≤ 0 ∧ wakeTime now (sleepArg conf 0 e) = now ∧
      (exec conf s [.sleepStart, .sleepEnd]).map (fun s1 => (s1.pc, s1.now))
        = some (.selecting, s.now) := by
  unfold maxInt64 at he1
  have hz : ∀ x : Int, 0 ≤ x → x ≤ 9223372036854775807 → sleepArg conf 0 x = -x := by
    intro x hx0 hx1
    unfold sleepArg
    rw [zero_mul, wrap64_eq_self 0 (by omega) (by omega), wrap64_eq_self _ (by omega) (by omega)]
    omega
  have hsince0 : 0 ≤ since s := by unfold since maxInt64; omega
  have hsince1 : since s ≤ 9223372036854775807 := by unfold since maxInt64; omega
  have hw : wakeTime s.now (sleepArg conf 0 (since s)) = s.now := by
    rw [hz _ hsince0 hsince1]
    unfold wakeTime
    omega
  refine ⟨by rw [hz e he0 he1]; omega, by rw [hz e he0 he1]; unfold wakeTime; omega, ?_⟩
  simp [exec, step, stepMain, Event.taskIndex, hpc, hw]

/-- Witness of C5: at ten users per second, 3 ns after the start. -/
theorem first_spawn_not_delayed_witness :
    sleepArg ⟨0, 2, 10⟩ 0 3 ≤ 0 ∧ wakeTime 5 (sleepArg ⟨0, 2, 10⟩ 0 3) = 5 ∧
      (exec ⟨0, 2, 10⟩ { initial 3 false with pc := .timing 0, started := true }
        [.sleepStart, .sleepEnd]).map (fun s1 => (s1.pc, s1.now)) = some (.selecting, 3) :=
  first_spawn_not_delayed ⟨0, 2, 10⟩ 3 5 { initial 3 false with pc := .timing 0, started := true }
    (by decide) (by decide) (by decide) (by rfl) (by decide)

/-! ## Initialization and the result of the run -/

/-- C6: when the initialization scenario returns an error, the run performs no
call of `userSpawnScenario.Run` and none of `articleScenario.Run`, launches no
goroutine and acquires no slot; the wrapped error is what `runLoadTest`
returns. -/
theorem init_error_starts_nothing (conf : config) (t0 : Int) (c : Bool)
    (evs : List Event) (s : State) (e : GoError)
    (h : exec conf (initial t0 c) evs = some s)
    (hmem : Event.initReturn (.error e) ∈ evs) :
    s.pc = .returned (some (withStack e)) ∧ s.spawnCalls = 0 ∧ s.scenarioLog = [] ∧
      s.launched = 0 ∧ s.tasks = [] ∧ s.acquired = 0 ∧ s.users.len = 0 := by
  have hi := reach_inv conf t0 c evs s h
  have hpc := exec_init_error conf evs _ s e (inv_initial conf t0 c) (histInv_initial t0 c)
    rfl h hmem
  have hst : s.started = false := by
    cases hq : s.started with
    | false => rfl
    | true => exact absurd hpc ((hi.startedPc hq).2 _)
  obtain ⟨f1, f2, f3, f4, _⟩ := hi.fresh hst
  have h2 := hi.ledger
  have h4 := hi.launchedEq
  rw [f1] at h4
  refine ⟨hpc, f3, f4, h4, f1, f2, ?_⟩
  omega

/-- Witness of C6: the initialization scenario fails first thing, time passes
and the caller cancels. -/
theorem init_error_starts_nothing_witness :
    exec rampConf (initial 0 false) [.tick 5, .initReturn (.error ⟨1, false, false⟩), .tick 9,
        .interrupt] = some { initial 14 true with pc := .returned (some ⟨1, false, true⟩) } ∧
      ({ initial 14 true with pc := .returned (some ⟨1, false, true⟩) } : State).spawnCalls = 0 :=
  ⟨by rfl,
    (init_error_starts_nothing rampConf 0 false
      [.tick 5, .initReturn (.error ⟨1, false, false⟩), .tick 9, .interrupt]
      { initial 14 true with pc := .returned (some ⟨1, false, true⟩) } ⟨1, false, false⟩
      (by rfl) (by simp)).2.1⟩

/-- C7: in a run with `Users > 0` and `SpawnRate > 0` nothing panics and the
value returned is non-nil exactly when the initialization scenario returned an
error, that error wrapped.  Both results are produced: while the
initialization scenario has not returned, its return with an error `e` is
accepted and makes `runLoadTest` return `e` wrapped, and its return without
error is accepted and starts the run; once the initialization has succeeded
the run can be brought to return `nil`, whatever the per-user goroutines have
done; and every state of a run is in one of these three situations. -/
theorem run_result (conf : config) (t0 : Int) (c : Bool) (evs : List Event) (s : State)
    (hU : 0 < conf.Users) (hr : 0 < conf.SpawnRate)
    (h : exec conf (initial t0 c) evs = some s) :
    s.pc ≠ .crashed ∧
      (∀ r, s.pc = .returned r → (r ≠ none ↔ ∃ e, Event.initReturn (.error e) ∈ evs)) ∧
      (∀ e, Event.initReturn (.error e) ∈ evs → s.pc = .returned (some (withStack e))) ∧
      (s.started = true → ∃ evs2 s2, exec conf s evs2 = some s2 ∧ s2.pc = .returned none) ∧
      (∀ e, s.pc = .init →
        exec conf s [.initReturn (.error e)]
          = some { s with pc := .returned (some (withStack e)) }) ∧
      (∀ ids, s.pc = .init →
        ∃ s1, exec conf s [.initReturn (.ok ids)] = some s1 ∧ s1.started = true ∧
          ∃ evs2 s2, exec conf s1 evs2 = some s2 ∧ s2.pc = .returned none) ∧
      (s.pc = .init ∨ s.started = true ∨ ∃ e, s.pc = .returned (some (withStack e))) ∧
      (∀ e, exec conf (initial t0 c) [.initReturn (.error e)]
        = some { initial t0 c with pc := .returned (some (withStack e)) }) := by
  have hi := reach_inv conf t0 c evs s h
  have hh := reach_histInv conf t0 c evs s h
  have herr : ∀ e, Event.initReturn (.error e) ∈ evs → s.pc = .returned (some (withStack e)) :=
    fun e hmem => exec_init_error conf evs _ s e (inv_initial conf t0 c) (histInv_initial t0 c)
      rfl h hmem
  refine ⟨?_, ?_, herr, ?_, ?_, ?_, ?_, ?_⟩
  · intro hp
    rcases hi.panicWhy (hi.crashWhy hp) with h1 | h1 <;> omega
  · intro r hp
    constructor
    · intro hne
      cases r with
      | none => exact absurd rfl hne
      | some e1 =>
        rcases exec_returns_error conf evs _ s e1 h hp with h0 | ⟨e, hmem, _⟩
        · simp [initial] at h0
        · exact ⟨e, hmem⟩
    · rintro ⟨e, hmem⟩ hnone
      have := herr e hmem
      rw [hp, hnone] at this
      simp at this
  · intro hs
    exact can_return_nil conf s (le_of_lt hU) (ne_of_gt hr) hi hh hs
  · intro e hpc
    simp [exec, step, Event.taskIndex, stepMain, stepInit, hpc]
  · intro ids hpc
    have hnU : ¬ conf.Users < 0 := by omega
    have hstep : exec conf s [.initReturn (.ok ids)] = some (stepInit conf s (.ok ids)) := by
      simp [exec, step, Event.taskIndex, stepMain, hpc]
    have hs1 : (stepInit conf s (.ok ids)).started = true := by
      simp [stepInit, hnU]
    have hall : exec conf (initial t0 c) (evs ++ [.initReturn (.ok ids)])
        = some (stepInit conf s (.ok ids)) := by
      rw [exec_append, h]
      exact hstep
    refine ⟨_, hstep, hs1, ?_⟩
    exact can_return_nil conf _ (le_of_lt hU) (ne_of_gt hr) (reach_inv conf t0 c _ _ hall)
      (reach_histInv conf t0 c _ _ hall) hs1
  · cases hst : s.started with
    | true => exact Or.inr (Or.inl rfl)
    | false =>
      rcases (hi.fresh hst).2.2.2.2 with hp | ⟨e1, hp⟩
      · exact Or.inl hp
      · rcases exec_returns_error conf evs _ s e1 h hp with h0 | ⟨e, _, he⟩
        · simp [initial] at h0
        · exact Or.inr (Or.inr ⟨e, by rw [hp, he]⟩)
  · intro e
    rfl

/-- Witness of C7: `raceRun` holds no error of the initialization scenario and
returns `nil`; the run in which the initialization scenario fails at once is
accepted and returns that error, wrapped. -/
theorem run_result_witness :
    (exec raceConf (initial 0 false) raceRun = some raceState ∧
        raceState.pc = .returned none ∧
        ¬ (∃ e, Event.initReturn (.error e) ∈ raceRun)) ∧
      (exec raceConf (initial 0 false) [.initReturn (.error ⟨1, false, false⟩)]
          = some { initial 0 false with pc := .returned (some ⟨1, false, true⟩) } ∧
        (some ⟨1, false, true⟩ : Option GoError) ≠ none) := by
  have hw := run_result raceConf 0 false raceRun raceState (by decide) (by decide) (by rfl)
  have hv := run_result raceConf 0 false [.initReturn (.error ⟨1, false, false⟩)]
    { initial 0 false with pc := .returned (some ⟨1, false, true⟩) } (by decide) (by decide)
    (by rfl)
  refine ⟨⟨by rfl, by rfl, ?_⟩, hv.2.2.2.2.2.2.2 ⟨1, false, false⟩, ?_⟩
  · intro hex
    exact ((hw.2.1 none rfl).mpr hex) rfl
  · exact (hv.2.1 (some ⟨1, false, true⟩) rfl).mpr ⟨⟨1, false, false⟩, by simp⟩

/-! ## The per-user goroutines -/

/-- C8: an error of the spawn step or of the scenario step ends only the
goroutine that got it.  In every reachable state, the failing return moves that
goroutine to its deferred function and changes nothing else; the actions of the
spawning goroutine and of the environment are the same before and after it; the
deferred `<-users` is then enabled and takes one slot out of the channel.  And
in a run where the spawn step of goroutine `i` failed, no scenario call is
recorded for `i`, and the value returned is `nil`. -/
theorem task_failure_contained (conf : config) (t0 : Int) (c : Bool) (evs : List Event)
    (s : State) (i : Nat) (e : GoError) (h : exec conf (initial t0 c) evs = some s) :
    (s.tasks[i]? = some .spawning →
        step conf s (.spawnReturn i (.error e)) = some (setTask s i .release)) ∧
      (∀ u, s.tasks[i]? = some (.scenario u) →
        step conf s (.scenarioReturn i (some e)) = some (setTask s i .release)) ∧
      (∀ ev, i < s.tasks.length → ev.taskIndex = none →
        step conf (setTask s i .release) ev
          = (step conf s ev).map (fun x => setTask x i .release)) ∧
      (s.tasks[i]? = some .release →
        0 < s.users.len ∧
          step conf s (.recv i)
            = some { setTask s i .finishing with
                     users := { s.users with len := s.users.len - 1 },
                     released := s.released + 1 }) ∧
      (Event.spawnReturn i (.error e) ∈ evs →
        Skipped i s ∧ ∀ r, s.pc = .returned r → r = none) := by
  have hi := reach_inv conf t0 c evs s h
  have halive := reach_alive conf t0 c evs s h i
  refine ⟨?_, ?_, ?_, ?_, ?_⟩
  · intro hget
    have hlive := (halive _ hget).1
    simp [step, hlive, Event.taskIndex, hget, stepTask, errorHandler, setTask]
  · intro u hget
    have hlive := (halive _ hget).1
    simp [step, hlive, Event.taskIndex, hget, stepTask, errorHandler, setTask]
  · intro ev hlt hev
    exact main_ignores_task conf s i .release ev hlt hev
  · intro hget
    have hlive := (halive _ hget).1
    have hpos : 0 < s.users.len := by
      have h1 := hi.tokens
      have := countP_pos_of_get TaskPc.holdsSlot s.tasks i .release hget rfl
      omega
    refine ⟨hpos, ?_⟩
    simp [step, hlive, Event.taskIndex, hget, stepTask, hpos]
  · intro hmem
    have hk : Skipped i s := exec_spawn_error conf i e evs _ s
      (by intro c hc; simp [initial] at hc) h hmem
    refine ⟨hk, ?_⟩
    intro r hp
    obtain ⟨⟨t, ht, _⟩, _⟩ := hk
    have hs : s.started = true := by
      cases hq : s.started with
      | true => rfl
      | false =>
        have := (hi.fresh hq).1
        rw [this] at ht
        simp at ht
    cases r with
    | none => rfl
    | some e1 => exact absurd hp ((hi.startedPc hs).2 e1)

/-- Witness of C8: in `failRun` the spawn step of the first user fails; the loop
stands at its top, the goroutine is about to release its slot and no scenario
call was made. -/
theorem task_failure_contained_witness :
    exec rampConf (initial 0 false) failRun = some failState ∧
      Skipped 0 failState ∧
      step rampConf failState (.recv 0)
        = some { setTask failState 0 .finishing with
                 users := { failState.users with len := failState.users.len - 1 },
                 released := failState.released + 1 } := by
  have hw := task_failure_contained rampConf 0 false failRun failState 0 ⟨5, false, false⟩
    (by rfl)
  exact ⟨by rfl, (hw.2.2.2.2 (by simp [failRun])).1, (hw.2.2.2.1 (by rfl)).2⟩

/-- C9, as stated, fails: in `lateRun` the spawn step of the goroutine succeeds,
nobody cancels anything, the deadline elapses before the goroutine reaches its
`select`, and the goroutine ends without any call of the scenario step. -/
theorem late_task_skips_scenario :
    exec raceConf (initial 0 false) lateRun = some lateState ∧
      Event.spawnReturn 0 (.ok 3) ∈ lateRun ∧ Event.interrupt ∉ lateRun ∧
      lateState.tasks = [.done] ∧ lateState.scenarioLog = [] ∧ lateState.ctxDone = false := by
  refine ⟨by rfl, by simp [lateRun], by simp [lateRun], by rfl, by rfl, by rfl⟩

/-- C9, amended: a goroutine whose spawn step returned `u` runs the scenario step
with the result of the initialization and `u` unless `tctx.Done()` is closed
when it reaches its `select` of line 93; if it is closed, by the deadline or by
a cancellation of the caller's context, the goroutine goes to its deferred
function without the scenario step.  Once inside the scenario step the
goroutine stays there until the step returns, whatever the deadline does. -/
theorem scenario_unless_deadline (conf : config) (t0 : Int) (c : Bool) (evs : List Event)
    (s : State) (i u : Nat) (h : exec conf (initial t0 c) evs = some s)
    (hget : s.tasks[i]? = some (.check u)) :
    Event.initReturn (.ok s.articleIDs) ∈ evs ∧
      (s.tctxDone = false →
        step conf s (.check i)
          = some { setTask s i (.scenario u) with
                   scenarioLog := s.scenarioLog ++ [⟨i, u, s.articleIDs⟩] }) ∧
      (s.tctxDone = true → step conf s (.check i) = some (setTask s i .release)) ∧
      (∀ s1 evs2 s2, s1.tasks[i]? = some (.scenario u) → exec conf s1 evs2 = some s2 →
        (∀ r, Event.scenarioReturn i r ∉ evs2) → s2.tasks[i]? = some (.scenario u)) := by
  have hi := reach_inv conf t0 c evs s h
  have hlive := (reach_alive conf t0 c evs s h i _ hget).1
  have hs : s.started = true := by
    cases hq : s.started with
    | true => rfl
    | false =>
      have := (hi.fresh hq).1
      rw [this] at hget
      simp at hget
  refine ⟨?_, ?_, ?_, ?_⟩
  · rcases exec_started conf evs _ s h hs with ⟨h0, _⟩ | hmem
    · simp [initial] at h0
    · exact hmem
  · intro hd
    simp [step, hlive, Event.taskIndex, hget, stepTask, hd]
  · intro hd
    simp [step, hlive, Event.taskIndex, hget, stepTask, hd]
  · intro s1 evs2 s2 hg1 hex hno
    exact exec_in_scenario conf evs2 s1 s2 i u hg1 hex hno

/-- Witness of the amended C9 on the prefix of `lateRun` that ends with the
return of the spawn step. -/
theorem scenario_unless_deadline_witness :
    exec raceConf (initial 0 false) (lateRun.take 8) = some checkState ∧
      checkState.tasks[0]? = some (.check 3) ∧
      step raceConf checkState (.check 0)
        = some { setTask checkState 0 (.scenario 3) with
                 scenarioLog := checkState.scenarioLog ++ [⟨0, 3, checkState.articleIDs⟩] } := by
  have hw := scenario_unless_deadline raceConf 0 false (lateRun.take 8) checkState 0 3
    (by rfl) (by rfl)
  exact ⟨by rfl, by rfl, hw.2.1 (by rfl)⟩

/-! ## The deadline -/

/-- C10: in every reachable state where the loop has just sent a slot and
`tctx.Done()` is closed, the inner `select` takes the deadline: the loop is left,
no goroutine is launched then or later, so no spawn step is called for that
slot, the run cannot crash, it can only return `nil`, and it can do so. -/
theorem deadline_wins_on_recheck (conf : config) (t0 : Int) (c : Bool) (evs : List Event)
    (s : State) (h : exec conf (initial t0 c) evs = some s) (hpc : s.pc = .acquired)
    (hd : s.tctxDone = true) :
    step conf s .recheck = some { s with exitAfterAcquire := true, pc := .closing } ∧
      (∀ evs2 s2,
        exec conf { s with exitAfterAcquire := true, pc := .closing } evs2 = some s2 →
          s2.launched = s.launched ∧ s2.tasks.length = s.tasks.length ∧
            s2.spawnCalls ≤ s.launched ∧ s2.pc ≠ .crashed ∧
            ∀ r, s2.pc = .returned r → r = none) ∧
      ∃ evs2 s2,
        exec conf { s with exitAfterAcquire := true, pc := .closing } evs2 = some s2 ∧
          s2.pc = .returned none := by
  have hi := reach_inv conf t0 c evs s h
  have hh := reach_histInv conf t0 c evs s h
  have hn := exec_noLaunch conf evs _ s (inv_initial conf t0 c) (noLaunch_initial conf t0 c) h
  have hstep : step conf s .recheck = some { s with exitAfterAcquire := true, pc := .closing } := by
    simp [step, stepMain, Event.taskIndex, hpc, hd]
  have hi1 := step_inv conf s _ .recheck hi hstep
  have hh1 := step_histInv conf s _ .recheck hi hh hstep
  have hs : s.started = true := by
    cases hq : s.started with
    | true => rfl
    | false =>
      rcases (hi.fresh hq).2.2.2.2 with h0 | ⟨e, h0⟩ <;> rw [hpc] at h0 <;> simp at h0
  have hpan : s.panicking = false := by
    cases hq : s.panicking with
    | false => rfl
    | true =>
      have := hh.panicPc hq
      rw [hpc] at this
      simp [MainPc.unwinding] at this
  have hr : conf.SpawnRate ≠ 0 := by
    intro h0
    have := (hn.1 h0).2
    rw [hpc] at this
    simp [MainPc.inLoop] at this
  have hU : 0 ≤ conf.Users := by
    by_contra h0
    exact (hn.2 (by omega)).2 hpc
  refine ⟨hstep, ?_, ?_⟩
  · intro evs2 s2 hex
    obtain ⟨h1, h2, h3⟩ := exec_exiting conf evs2 _ s2 hi1 rfl hpan hex
    have hi2 := exec_inv conf evs2 _ s2 hi1 hex
    have hh2 := exec_histInv conf evs2 _ s2 hi1 hh1 hex
    have hl2 := hi2.launchedEq
    have hl := hi.launchedEq
    have hc2 := hh2.callsEq
    simp only at h3
    refine ⟨by omega, h3, by omega, ?_, ?_⟩
    · intro hcr
      rw [hcr] at h1
      simp [MainPc.exitingNil] at h1
    · intro r hp
      rw [hp] at h1
      cases r with
      | none => rfl
      | some e1 => simp [MainPc.exitingNil] at h1
  · exact can_return_nil conf _ hU hr hi1 hh1 hs

/-- Witness of C10 on `raceRun`, at the send that raced with the deadline. -/
theorem deadline_wins_on_recheck_witness :
    exec raceConf (initial 0 false) (raceRun.take 17) = some raceAcquired ∧
      raceAcquired.pc = .acquired ∧ raceAcquired.tctxDone = true ∧
      step raceConf raceAcquired .recheck
        = some { raceAcquired with exitAfterAcquire := true, pc := .closing } :=
  ⟨by rfl, by rfl, by rfl,
    (deadline_wins_on_recheck raceConf 0 false (raceRun.take 17) raceAcquired (by rfl)
      (by rfl) (by rfl)).1⟩

/-! ## A zero spawn rate, the clock, the caller -/

theorem zeroRate_initial (conf : config) (t0 : Int) (c : Bool) :
    ZeroRate conf (initial t0 c) := by
  intro _
  simp [initial, MainPc.exitingNil]

theorem step_zeroRate (conf : config) (s s1 : State) (ev : Event) (hn : NoLaunch conf s)
    (hz : ZeroRate conf s) (h : step conf s ev = some s1) : ZeroRate conf s1 := by
  intro hr
  obtain ⟨hz1, hz2⟩ := hz hr
  obtain ⟨ht, hl⟩ := hn.1 hr
  cases ev
  case tick d =>
    simp only [step] at h
    split at h
    · simp at h
    · simp only [Option.some.injEq] at h; subst h; exact ⟨hz1, hz2⟩
  case interrupt =>
    simp only [step] at h
    split at h
    · simp at h
    · simp only [Option.some.injEq] at h; subst h; exact ⟨hz1, hz2⟩
  case timeout =>
    simp only [step] at h
    split at h
    · simp at h
    · split at h
      · simp only [Option.some.injEq] at h; subst h; exact ⟨hz1, hz2⟩
      · simp at h
  case spawnCall i | spawnReturn i r | check i | scenarioReturn i r | recv i | done i =>
    simp [step, Event.taskIndex, ht] at h
  case initReturn r =>
    have h2 := (initReturn_step conf s s1 r h).2
    subst h2
    cases r with
    | error e => simp [stepInit, MainPc.exitingNil, hz1]
    | ok ids =>
      simp only [stepInit]
      split <;> simp [MainPc.exitingNil, hz1]
  all_goals simp only [step, Event.taskIndex, stepMain] at h
  all_goals split at h
  all_goals (try (simp at h; done))
  all_goals split at h
  all_goals (try (simp at h; done))
  all_goals (try split at h)
  all_goals (try (simp at h; done))
  all_goals simp only [Option.some.injEq] at h
  all_goals subst h
  all_goals simp_all [MainPc.exitingNil, MainPc.inLoop]

theorem exec_zeroRate (conf : config) (evs : List Event) (s s1 : State) (hi : Inv conf s)
    (hn : NoLaunch conf s) (hz : ZeroRate conf s) (h : exec conf s evs = some s1) :
    ZeroRate conf s1 := by
  induction evs generalizing s with
  | nil =>
    simp only [exec, Option.some.injEq] at h
    subst h
    exact hz
  | cons ev evs ih =>
    simp only [exec] at h
    cases hstep : step conf s ev with
    | none => simp [hstep] at h
    | some s2 =>
      simp only [hstep, Option.bind] at h
      exact ih s2 (step_inv conf s s2 ev hi hstep) (step_noLaunch conf s s2 ev hi hn hstep)
        (step_zeroRate conf s s2 ev hn hz hstep) h

/-- Once the run clock has started it is never set again, and time does not go
back. -/
theorem step_clock (conf : config) (s s1 : State) (ev : Event) (hi : Inv conf s)
    (hs : s.started = true) (h : step conf s ev = some s1) :
    s1.started = true ∧ s1.start = s.start ∧ s.now ≤ s1.now := by
  have hpc := (hi.startedPc hs).1
  cases ev
  case tick d =>
    simp only [step] at h
    split at h
    · simp at h
    · simp only [Option.some.injEq] at h
      subst h
      refine ⟨hs, rfl, ?_⟩
      show s.now ≤ s.now + (d : Int)
      omega
  case interrupt =>
    simp only [step] at h
    split at h
    · simp at h
    · simp only [Option.some.injEq] at h; subst h; exact ⟨hs, rfl, le_refl _⟩
  case timeout =>
    simp only [step] at h
    split at h
    · simp at h
    · split at h
      · simp only [Option.some.injEq] at h; subst h; exact ⟨hs, rfl, le_refl _⟩
      · simp at h
  case initReturn r => exact absurd (initReturn_step conf s s1 r h).1 hpc
  case spawnCall i | spawnReturn i r | check i | scenarioReturn i r | recv i | done i =>
    simp only [step, Event.taskIndex] at h
    split at h
    · simp at h
    · split at h
      · rename_i t hget
        cases t <;> simp only [stepTask] at h <;> (try (simp at h; done))
        all_goals (try split at h)
        all_goals (try split at h)
        all_goals (try (simp at h; done))
        all_goals simp only [Option.some.injEq] at h
        all_goals subst h
        all_goals exact ⟨hs, rfl, le_refl _⟩
      · simp at h
  all_goals simp only [step, Event.taskIndex, stepMain] at h
  all_goals split at h
  all_goals (try (simp at h; done))
  all_goals split at h
  all_goals (try (simp at h; done))
  all_goals (try split at h)
  all_goals (try (simp at h; done))
  all_goals simp only [Option.some.injEq] at h
  all_goals subst h
  all_goals exact ⟨hs, rfl, le_refl _⟩

theorem exec_clock (conf : config) (evs : List Event) (s s1 : State) (hi : Inv conf s)
    (hs : s.started = true) (h : exec conf s evs = some s1) :
    s1.started = true ∧ s1.start = s.start ∧ s.now ≤ s1.now := by
  induction evs generalizing s with
  | nil =>
    simp only [exec, Option.some.injEq] at h
    subst h
    exact ⟨hs, rfl, le_refl _⟩
  | cons ev evs ih =>
    simp only [exec] at h
    cases hstep : step conf s ev with
    | none => simp [hstep] at h
    | some s2 =>
      simp only [hstep, Option.bind] at h
      obtain ⟨h1, h2, h3⟩ := step_clock conf s s2 ev hi hs hstep
      obtain ⟨h4, h5, h6⟩ := ih s2 (step_inv conf s s2 ev hi hstep) h1 h
      exact ⟨h4, by rw [h5, h2], le_trans h3 h6⟩

/-- Without the case `<-ctx.Done()` of line 104, `run` returns only what
`runLoadTest` has returned. -/
theorem procExec_without_ctxDone (conf : config) (evs : List ProcEvent) (p p1 : Proc)
    (h : procExec conf p evs = some p1) (hno : ProcEvent.takeCtxDone ∉ evs)
    (hp : p.runPc = .selecting) (r : Option GoError) (hr : p1.runPc = .returned r) :
    ∃ r0, p1.load.pc = .returned r0 ∧ r = r0.map withStack := by
  induction evs generalizing p with
  | nil =>
    simp only [procExec, Option.some.injEq] at h
    subst h
    rw [hp] at hr
    simp at hr
  | cons ev evs ih =>
    simp only [procExec] at h
    cases hstep : procStep conf p ev with
    | none => simp [hstep] at h
    | some p2 =>
      simp only [hstep, Option.bind] at h
      have hno2 : ProcEvent.takeCtxDone ∉ evs := fun hm => hno (List.mem_cons_of_mem _ hm)
      cases ev with
      | takeCtxDone => exact absurd (List.mem_cons_self _ _) hno
      | load e =>
        simp only [procStep, hp] at hstep
        cases hs : step conf p.load e with
        | none => simp [hs] at hstep
        | some s2 =>
          simp only [hs, Option.map, Option.some.injEq] at hstep
          subst hstep
          exact ih _ h hno2 rfl
      | takeLoadErr =>
        simp only [procStep, hp] at hstep
        cases hq : p.load.pc <;> simp [hq] at hstep
        rename_i r0
        subst hstep
        cases evs with
        | nil =>
          simp only [procExec, Option.some.injEq] at h
          subst h
          simp only [RunPc.returned.injEq] at hr
          exact ⟨r0, hq, hr.symm⟩
        | cons e2 rest =>
          simp only [procExec] at h
          cases e2 <;> simp [procStep, hq] at h

/-! ## Draining, the error sink, invalid configurations, the caller -/

/-- The error sink is never written: `errorHandler` is the only writer and it
leaves the sink as it is. -/
theorem step_sink (conf : config) (s s1 : State) (ev : Event)
    (h : step conf s ev = some s1) : s1.sink = s.sink := by
  cases ev
  case tick d =>
    simp only [step] at h
    split at h
    · simp at h
    · simp only [Option.some.injEq] at h; subst h; rfl
  case interrupt =>
    simp only [step] at h
    split at h
    · simp at h
    · simp only [Option.some.injEq] at h; subst h; rfl
  case timeout =>
    simp only [step] at h
    split at h
    · simp at h
    · split at h
      · simp only [Option.some.injEq] at h; subst h; rfl
      · simp at h
  case initReturn r =>
    have h2 := (initReturn_step conf s s1 r h).2
    subst h2
    cases r with
    | error e => rfl
    | ok ids =>
      simp only [stepInit]
      split <;> rfl
  case spawnCall i | spawnReturn i r | check i | scenarioReturn i r | recv i | done i =>
    simp only [step, Event.taskIndex] at h
    split at h
    · simp at h
    · split at h
      · rename_i t hget
        cases t <;> simp only [stepTask] at h <;> (try (simp at h; done))
        all_goals (try split at h)
        all_goals (try split at h)
        all_goals (try (simp at h; done))
        all_goals simp only [Option.some.injEq] at h
        all_goals subst h
        all_goals simp [errorHandler, setTask]
      · simp at h
  all_goals simp only [step, Event.taskIndex, stepMain] at h
  all_goals split at h
  all_goals (try (simp at h; done))
  all_goals split at h
  all_goals (try (simp at h; done))
  all_goals (try split at h)
  all_goals (try (simp at h; done))
  all_goals simp only [Option.some.injEq] at h
  all_goals subst h
  all_goals rfl

theorem exec_sink (conf : config) (evs : List Event) (s s1 : State)
    (h : exec conf s evs = some s1) : s1.sink = s.sink := by
  induction evs generalizing s with
  | nil =>
    simp only [exec, Option.some.injEq] at h
    subst h
    rfl
  | cons ev evs ih =>
    simp only [exec] at h
    cases hstep : step conf s ev with
    | none => simp [hstep] at h
    | some s2 =>
      simp only [hstep, Option.bind] at h
      rw [ih s2 h, step_sink conf s s2 ev hstep]

/-- C11: in every run, when `runLoadTest` has returned, whatever it returns, no
goroutine it launched is still running: each of them has called
`workers.Done()`. -/
theorem returns_after_all_tasks (conf : config) (t0 : Int) (c : Bool) (evs : List Event)
    (s : State) (r : Option GoError) (h : exec conf (initial t0 c) evs = some s)
    (hpc : s.pc = .returned r) :
    running s = 0 ∧ s.workers = 0 ∧ ∀ t ∈ s.tasks, t = TaskPc.done := by
  have hi := reach_inv conf t0 c evs s h
  have hh := reach_histInv conf t0 c evs s h
  have hstop : stopped s = true := by
    unfold stopped
    rw [hpc]
  have hw := hh.quiet hstop
  have hwg := hi.wg
  have hun : s.tasks.countP TaskPc.unfinished = 0 := by omega
  refine ⟨hun, hw, ?_⟩
  intro t ht
  rw [List.countP_eq_zero] at hun
  have := hun t ht
  cases t <;> simp [TaskPc.unfinished] at this ⊢

/-- Witness of C11: `lateRun` returns once its only goroutine has ended. -/
theorem returns_after_all_tasks_witness :
    exec raceConf (initial 0 false) lateRun = some lateState ∧
      lateState.pc = .returned none ∧
      (running lateState = 0 ∧ lateState.workers = 0 ∧
        ∀ t ∈ lateState.tasks, t = TaskPc.done) :=
  ⟨by rfl, by rfl,
    returns_after_all_tasks raceConf 0 false lateRun lateState none (by rfl) (by rfl)⟩

/-- C12: for every error caused by a cancellation, by `context.Canceled` or by
`context.DeadlineExceeded` along its chain, `errorHandler` forwards nothing to
the sink; and the two returns that call it, of the spawn step and of the
scenario step, leave the sink of the run as it is. -/
theorem cancellation_not_forwarded (conf : config) (sink : List GoError) (e : RaisedError)
    (hc : e.byCancellation = true) :
    errorHandler sink e.err = sink ∧
      (∀ s i s1, step conf s (.spawnReturn i (.error e.err)) = some s1 → s1.sink = s.sink) ∧
      (∀ s i s1, step conf s (.scenarioReturn i (some e.err)) = some s1 → s1.sink = s.sink) := by
  refine ⟨?_, ?_, ?_⟩
  · unfold errorHandler
    split <;> rfl
  · intro s i s1 h
    exact step_sink conf s s1 _ h
  · intro s i s1 h
    exact step_sink conf s s1 _ h

/-- Witness of C12: an error whose chain holds `context.Canceled`, and one whose
chain holds `context.DeadlineExceeded` only. -/
theorem cancellation_not_forwarded_witness :
    errorHandler [] (⟨⟨1, true, false⟩, false⟩ : RaisedError).err = [] ∧
      errorHandler [] (⟨⟨2, false, false⟩, true⟩ : RaisedError).err = [] :=
  ⟨(cancellation_not_forwarded rampConf [] ⟨⟨1, true, false⟩, false⟩ (by rfl)).1,
    (cancellation_not_forwarded rampConf [] ⟨⟨2, false, false⟩, true⟩ (by rfl)).1⟩

/-- C13 on the code: in `failRun` the spawn step returns an error that no
cancellation caused, `errorHandler` is called with it, and the sink is empty
afterwards. -/
theorem spawn_error_not_forwarded :
    exec rampConf (initial 0 false) failRun = some failState ∧
      Event.spawnReturn 0 (.error ⟨5, false, false⟩) ∈ failRun ∧
      (⟨⟨5, false, false⟩, false⟩ : RaisedError).byCancellation = false ∧
      errorHandler [] ⟨5, false, false⟩ = [] ∧ failState.sink = [] := by
  refine ⟨by rfl, by simp [failRun], by rfl, by rfl, by rfl⟩

/-- C14, as stated, fails: with `SpawnRate = 0` and an initialization that
succeeds, `zeroRateRun` ends in a crash of the process, the division of line 63
having panicked, and no error is returned. -/
theorem zero_rate_crashes :
    zeroRateConf.SpawnRate = 0 ∧
      exec zeroRateConf (initial 0 false) zeroRateRun = some zeroRateState ∧
      zeroRateState.pc = .crashed ∧ ∀ e, Event.initReturn (.error e) ∉ zeroRateRun := by
  refine ⟨by rfl, by rfl, by rfl, ?_⟩
  intro e
  simp [zeroRateRun]

/-- C14, amended: `runLoadTest` does not validate its configuration.  In a run
with `SpawnRate = 0` the ramp never starts: no slot is acquired, no goroutine is
launched and neither per-user step is called; and the only value the function
can return is the wrapped error of the initialization scenario. -/
theorem zero_rate_never_ramps (conf : config) (t0 : Int) (c : Bool) (evs : List Event)
    (s : State) (hr : conf.SpawnRate = 0) (h : exec conf (initial t0 c) evs = some s) :
    s.tasks = [] ∧ s.launched = 0 ∧ s.acquired = 0 ∧ s.spawnCalls = 0 ∧
      s.scenarioLog = [] ∧
      ∀ r, s.pc = .returned r →
        ∃ e, Event.initReturn (.error e) ∈ evs ∧ r = some (withStack e) := by
  have hi := reach_inv conf t0 c evs s h
  have hh := reach_histInv conf t0 c evs s h
  have hn := exec_noLaunch conf evs _ s (inv_initial conf t0 c) (noLaunch_initial conf t0 c) h
  have hz := exec_zeroRate conf evs _ s (inv_initial conf t0 c) (noLaunch_initial conf t0 c)
    (zeroRate_initial conf t0 c) h
  have hl : LogInv s := exec_logInv conf evs _ s (by intro c hc; simp [initial] at hc) h
  obtain ⟨ht, hloop⟩ := hn.1 hr
  obtain ⟨hz1, hz2⟩ := hz hr
  have h1 := hi.tokens
  have h2 := hi.ledger
  have h4 := hi.launchedEq
  have g1 := hh.releasedEq
  have g5 := hh.callsEq
  have hhold : s.pc.holding = 0 := by
    cases hp : s.pc <;> simp [MainPc.holding]
    rw [hp] at hloop
    simp [MainPc.inLoop] at hloop
  have hleak : leaked s = 0 := by simp [leaked, hz1]
  rw [ht] at h1 h4 g1 g5
  simp at h1 h4 g1 g5
  refine ⟨ht, h4, by omega, g5, ?_, ?_⟩
  · cases hlog : s.scenarioLog with
    | nil => rfl
    | cons c0 rest =>
      obtain ⟨t, hget, _⟩ := hl c0 (by rw [hlog]; exact List.mem_cons_self _ _)
      rw [ht] at hget
      simp at hget
  · intro r hp
    cases r with
    | none =>
      have := (hz2 (by rw [hp]; rfl)).2
      exact absurd hp this
    | some e1 =>
      rcases exec_returns_error conf evs _ s e1 h hp with h0 | ⟨e, hmem, he⟩
      · simp [initial] at h0
      · exact ⟨e, hmem, by rw [he]⟩

/-- Witness of the amended C14 on `zeroRateRun`. -/
theorem zero_rate_never_ramps_witness :
    zeroRateConf.SpawnRate = 0 ∧
      exec zeroRateConf (initial 0 false) zeroRateRun = some zeroRateState ∧
      zeroRateState.tasks = [] ∧ zeroRateState.acquired = 0 :=
  ⟨by rfl, by rfl,
    (zero_rate_never_ramps zeroRateConf 0 false zeroRateRun zeroRateState (by rfl) (by rfl)).1,
    (zero_rate_never_ramps zeroRateConf 0 false zeroRateRun zeroRateState (by rfl)
      (by rfl)).2.2.1⟩

/-- C15 on the code: in `interruptRun` an interrupt arrives while a user is
inside its scenario step; `run` takes `<-ctx.Done()` and returns `nil` while
`runLoadTest` has not returned and its goroutine is still running. -/
theorem run_returns_before_drain :
    procExec burstConf (procInitial 0) interruptRun = some interruptState ∧
      interruptState.runPc = .returned none ∧
      (∀ r, interruptState.load.pc ≠ .returned r) ∧
      running interruptState.load = 1 ∧
      interruptState.load.tasks = [.scenario 3] := by
  refine ⟨by rfl, by rfl, ?_, by rfl, by rfl⟩
  intro r
  simp [interruptState]

/-- C20: with `Users = U ≥ 0` and `SpawnRate = r ≥ 1`, once the clock of the run
shows at least `U * ⌊10^9 / r⌋` nanoseconds, every later iteration of the loop
reads a count of at most `U`, computes a wait that is not positive, and its
`time.Sleep` is over at the instant it is called. -/
theorem no_wait_after_ramp (conf : config) (t0 : Int) (c : Bool) (evs : List Event)
    (s : State) (hc : conf.inRange) (hU : 0 ≤ conf.Users) (hr : 1 ≤ conf.SpawnRate)
    (h : exec conf (initial t0 c) evs = some s) (hs : s.started = true)
    (hel : conf.Users * (1000000000 / conf.SpawnRate) ≤ elapsed s) :
    ∀ evs2 s2 k, exec conf s evs2 = some s2 → s2.pc = .timing k →
      (k : Int) ≤ conf.Users ∧ sleepArg conf k (since s2) ≤ 0 ∧
        step conf s2 .sleepStart = some { s2 with pc := .sleeping s2.now } := by
  intro evs2 s2 k h2 hpc
  have hr0 : 0 < conf.SpawnRate := by omega
  have hi := reach_inv conf t0 c evs s h
  have hall : exec conf (initial t0 c) (evs ++ evs2) = some s2 := by
    rw [exec_append, h]
    exact h2
  have hi2 := reach_inv conf t0 c _ s2 hall
  have ht2 := reach_timeInv conf hc hr0 t0 c _ s2 hall
  obtain ⟨hst2, hstart, hnow⟩ := exec_clock conf evs2 s s2 hi hs h2
  obtain ⟨_, hkcap⟩ := ht2.read k hpc
  have hcap := hi2.capLe
  have hkU : (k : Int) ≤ conf.Users := by omega
  have hUmax := hc.1.2
  unfold maxInt32 at hUmax
  obtain ⟨i0, i1⟩ := interval_bounds conf hr0
  obtain ⟨p0, p1⟩ := ideal_bounds conf hr0 k (by omega) (by omega)
  have hmono : (k : Int) * interval conf ≤ conf.Users * interval conf :=
    mul_le_mul_of_nonneg_right hkU i0
  rw [← interval_eq conf hr0] at hel
  unfold elapsed at hel
  have hclock := ht2.clock hst2
  have hs0 : 0 ≤ since s2 := by unfold since maxInt64; omega
  have hs1 : since s2 ≤ 9223372036854775807 := by unfold since maxInt64; omega
  have hle : (k : Int) * interval conf ≤ since s2 := by
    unfold since maxInt64
    omega
  have harg : sleepArg conf k (since s2) ≤ 0 := by
    rw [sleepArg_eq conf hr0 k (since s2) (by omega) (by omega) hs0 hs1]
    omega
  have hlive : s2.pc ≠ .crashed := by rw [hpc]; simp
  refine ⟨hkU, harg, ?_⟩
  have hw : wakeTime s2.now (sleepArg conf k (since s2)) = s2.now := by
    unfold wakeTime
    omega
  simp [step, stepMain, Event.taskIndex, hpc, hw]

/-- Witness of C20: at ten users per second and two users, 200 ms after the
start of the run clock. -/
theorem no_wait_after_ramp_witness :
    exec rampConf (initial 0 false) (rampRun ++ [.readLen, .tick 100000000])
        = some rampTiming ∧
      rampConf.Users * (1000000000 / rampConf.SpawnRate) ≤ elapsed rampTiming ∧
      sleepArg rampConf 2 (since rampTiming) ≤ 0 :=
  ⟨by rfl, by decide,
    (no_wait_after_ramp rampConf 0 false (rampRun ++ [.readLen, .tick 100000000]) rampTiming
      (by decide) (by decide) (by decide) (by rfl) (by rfl) (by decide) [] rampTiming 2
      (by rfl) (by rfl)).2.1⟩

end LoadTest

namespace Blog

/-! ## Rows found by their id -/

theorem find_by_id (l : List Article) (art : Article)
    (hnd : (l.map fun x => x.ID).Nodup) (hmem : art ∈ l) :
    l.find? (fun x => x.ID == art.ID) = some art := by
  induction l with
  | nil => simp at hmem
  | cons b l ih =>
    simp only [List.map_cons, List.nodup_cons] at hnd
    rcases List.mem_cons.1 hmem with h | h
    · subst h
      simp
    · have hne : b.ID ≠ art.ID := by
        intro he
        apply hnd.1
        rw [he]
        exact List.mem_map_of_mem (fun x => x.ID) h
      simp [List.find?_cons, hne, ih hnd.2 h]

theorem eq_of_id (l : List Article) (hnd : (l.map fun x => x.ID).Nodup) (x y : Article)
    (hx : x ∈ l) (hy : y ∈ l) (h : x.ID = y.ID) : x = y :=
  List.inj_on_of_nodup_map hnd hx hy h

/-- With unique ids, rewriting the rows that carry the id of `art` rewrites `art`
and nothing else. -/
theorem map_by_id (l : List Article) (art : Article) (g : Article → Article)
    (hnd : (l.map fun x => x.ID).Nodup) (hmem : art ∈ l) :
    (l.map fun x => if x.ID == art.ID then g x else x)
      = l.map fun x => if x = art then g art else x := by
  apply List.map_congr_left
  intro x hx
  by_cases h : x.ID = art.ID
  · have := eq_of_id l hnd x art hx hmem h
    subst this
    simp
  · have hne : x ≠ art := by
      intro he
      exact h (by rw [he])
    simp [h, hne]

/-! ## The order of the lists -/

theorem insert_of_le (a : Article) (l : List Article)
    (h : ∀ x ∈ l, x.CreatedAt ≤ a.CreatedAt) : insertByCreatedAt a l = a :: l := by
  cases l with
  | nil => rfl
  | cons b l => simp [insertByCreatedAt, h b (List.mem_cons_self _ _)]

theorem mem_insertByCreatedAt (a x : Article) (l : List Article) :
    x ∈ insertByCreatedAt a l ↔ x = a ∨ x ∈ l := by
  induction l with
  | nil => simp [insertByCreatedAt]
  | cons b l ih =>
    simp only [insertByCreatedAt]
    split
    · simp
    · simp [ih]
      tauto

theorem mem_orderByCreatedAtDesc (x : Article) (l : List Article) :
    x ∈ orderByCreatedAtDesc l ↔ x ∈ l := by
  induction l with
  | nil => simp [orderByCreatedAtDesc]
  | cons b l ih => simp [orderByCreatedAtDesc, mem_insertByCreatedAt, ih]

theorem sorted_insertByCreatedAt (a : Article) (l : List Article)
    (h : l.Pairwise fun x y => y.CreatedAt ≤ x.CreatedAt) :
    (insertByCreatedAt a l).Pairwise fun x y => y.CreatedAt ≤ x.CreatedAt := by
  induction l with
  | nil => simp [insertByCreatedAt]
  | cons b l ih =>
    rw [List.pairwise_cons] at h
    simp only [insertByCreatedAt]
    split
    · rename_i hle
      rw [List.pairwise_cons]
      refine ⟨?_, List.pairwise_cons.2 h⟩
      intro y hy
      rcases List.mem_cons.1 hy with hy | hy
      · subst hy
        exact hle
      · exact le_trans (h.1 y hy) hle
    · rename_i hnle
      rw [List.pairwise_cons]
      refine ⟨?_, ih h.2⟩
      intro y hy
      rcases (mem_insertByCreatedAt a y l).1 hy with hy | hy
      · subst hy
        omega
      · exact h.1 y hy

theorem sorted_orderByCreatedAtDesc (l : List Article) :
    (orderByCreatedAtDesc l).Pairwise fun x y => y.CreatedAt ≤ x.CreatedAt := by
  induction l with
  | nil => simp [orderByCreatedAtDesc]
  | cons b l ih => exact sorted_insertByCreatedAt b _ ih

theorem insert_filter (p : Article → Bool) (a : Article) (l : List Article)
    (h : l.Pairwise fun x y => y.CreatedAt ≤ x.CreatedAt) :
    (insertByCreatedAt a l).filter p
      = if p a then insertByCreatedAt a (l.filter p) else l.filter p := by
  induction l with
  | nil => simp [insertByCreatedAt, List.filter_cons]
  | cons b l ih =>
    rw [List.pairwise_cons] at h
    simp only [insertByCreatedAt]
    split
    · rename_i hle
      have hall : ∀ x ∈ (b :: l).filter p, x.CreatedAt ≤ a.CreatedAt := by
        intro x hx
        have hx1 := (List.mem_filter.1 hx).1
        rcases List.mem_cons.1 hx1 with hx2 | hx2
        · subst hx2
          exact hle
        · exact le_trans (h.1 x hx2) hle
      rw [insert_of_le a _ hall]
      by_cases hp : p a = true
      · simp [List.filter_cons, hp]
      · simp [List.filter_cons, hp]
    · rename_i hnle
      by_cases hb : p b = true
      · rw [List.filter_cons_of_pos hb, List.filter_cons_of_pos hb, ih h.2]
        by_cases hp : p a = true
        · simp [hp, insertByCreatedAt, hnle]
        · simp [hp]
      · rw [List.filter_cons_of_neg hb, List.filter_cons_of_neg hb, ih h.2]

/-- Sorting the rows that satisfy `p` gives the sorted rows that satisfy `p`. -/
theorem orderBy_filter (p : Article → Bool) (l : List Article) :
    orderByCreatedAtDesc (l.filter p) = (orderByCreatedAtDesc l).filter p := by
  induction l with
  | nil => rfl
  | cons b l ih =>
    rw [orderByCreatedAtDesc, insert_filter p b _ (sorted_orderByCreatedAtDesc l)]
    by_cases hb : p b = true
    · rw [List.filter_cons_of_pos hb, orderByCreatedAtDesc, ih]
      simp [hb]
    · rw [List.filter_cons_of_neg hb, ih]
      simp [hb]

theorem take_initial_succ {α : Type} (l : List α) (n : Nat) :
    List.IsPrefix (l.take n) (l.take (n + 1)) := by
  induction l generalizing n with
  | nil => simp
  | cons x l ih =>
    cases n with
    | zero => simp
    | succ m =>
      simp only [List.take_succ_cons]
      exact (List.prefix_cons_inj x).2 (ih m)

/-- Filtering the first `n` rows gives a prefix of the first `n` filtered rows. -/
theorem filter_take_initial {α : Type} (p : α → Bool) (l : List α) (n : Nat) :
    List.IsPrefix ((l.take n).filter p) ((l.filter p).take n) := by
  induction l generalizing n with
  | nil => simp
  | cons x l ih =>
    cases n with
    | zero => simp
    | succ m =>
      by_cases hx : p x = true
      · simp only [List.take_succ_cons, List.filter_cons_of_pos hx]
        exact (List.prefix_cons_inj x).2 (ih m)
      · simp only [List.take_succ_cons, List.filter_cons_of_neg hx]
        exact (ih m).trans (take_initial_succ _ m)

theorem perm_insertByCreatedAt (a : Article) (l : List Article) :
    (insertByCreatedAt a l).Perm (a :: l) := by
  induction l with
  | nil => exact List.Perm.refl _
  | cons b l ih =>
    simp only [insertByCreatedAt]
    split
    · exact List.Perm.refl _
    · exact ((List.Perm.cons b ih).trans (List.Perm.swap a b l))

theorem perm_orderByCreatedAtDesc (l : List Article) : (orderByCreatedAtDesc l).Perm l := by
  induction l with
  | nil => exact List.Perm.refl _
  | cons b l ih =>
    simp only [orderByCreatedAtDesc]
    exact (perm_insertByCreatedAt b _).trans (List.Perm.cons b ih)

theorem strictly_sorted (l : List Article)
    (hd : (l.map fun x => x.CreatedAt).Nodup)
    (hs : l.Pairwise fun x y => y.CreatedAt ≤ x.CreatedAt) :
    l.Pairwise fun x y => y.CreatedAt < x.CreatedAt := by
  have hne : l.Pairwise fun x y => x.CreatedAt ≠ y.CreatedAt := by
    unfold List.Nodup at hd
    rw [List.pairwise_map] at hd
    exact hd
  exact (hs.and hne).imp (fun h => by omega)

/-- On rows whose `created_at` are pairwise distinct the clause
`ORDER BY created_at DESC` leaves one answer only: every arrangement of the rows
that is sorted newest first is the list of `orderByCreatedAtDesc`. -/
theorem orderBy_unique (rows result : List Article)
    (hd : (rows.map fun x => x.CreatedAt).Nodup) (hp : result.Perm rows)
    (hs : result.Pairwise fun x y => y.CreatedAt ≤ x.CreatedAt) :
    result = orderByCreatedAtDesc rows := by
  have hp2 : result.Perm (orderByCreatedAtDesc rows) :=
    hp.trans (perm_orderByCreatedAtDesc rows).symm
  have hd1 : (result.map fun x => x.CreatedAt).Nodup :=
    ((hp.map fun x => x.CreatedAt).nodup_iff).2 hd
  have hd2 : ((orderByCreatedAtDesc rows).map fun x => x.CreatedAt).Nodup :=
    (((perm_orderByCreatedAtDesc rows).map fun x => x.CreatedAt).nodup_iff).2 hd
  have s1 := strictly_sorted result hd1 hs
  have s2 := strictly_sorted _ hd2 (sorted_orderByCreatedAtDesc rows)
  haveI : IsAntisymm Article (fun x y => y.CreatedAt < x.CreatedAt) :=
    ⟨fun a b h1 h2 => by omega⟩
  exact List.eq_of_perm_of_sorted hp2 s1 s2

/-! ## The transaction helper -/

/-- An attempt whose commit does not fail either returns an error and writes
nothing, or returns `nil` with the writes of the callback committed. -/
theorem attemptTx_cases (f : Attempt → Db → Except AppError Db) (a : Attempt) (db : Db)
    (hc : a.commitOk = true) :
    (∃ e, attemptTx f a db = (some e, db)) ∨
      (a.beginOk = true ∧ ∃ db1, f a db = .ok db1 ∧ attemptTx f a db = (none, db1)) := by
  unfold attemptTx
  by_cases hb : a.beginOk = false
  · left
    simp [hb]
  · have hb1 : a.beginOk = true := by simpa using hb
    cases hf : f a db with
    | error e =>
      left
      simp [hb1]
    | ok db1 =>
      right
      simp [hb1, hc]

theorem retryTx_ok (f : Attempt → Db → Except AppError Db) (a : Attempt)
    (rest : List Attempt) (db db1 : Db) (hc : ∀ b ∈ a :: rest, b.commitOk = true)
    (h : retryTx f a rest db = (none, db1)) :
    ∃ b ∈ a :: rest, b.beginOk = true ∧ f b db = .ok db1 := by
  induction rest generalizing a with
  | nil =>
    simp only [retryTx] at h
    rcases attemptTx_cases f a db (hc a (List.mem_cons_self _ _)) with ⟨e, he⟩ | ⟨hb, d, hf, hat⟩
    · rw [he] at h
      simp at h
    · rw [hat] at h
      simp only [Prod.mk.injEq, true_and] at h
      subst h
      exact ⟨a, List.mem_cons_self _ _, hb, hf⟩
  | cons b rest ih =>
    simp only [retryTx] at h
    rcases attemptTx_cases f a db (hc a (List.mem_cons_self _ _)) with ⟨e, he⟩ | ⟨hb, d, hf, hat⟩
    · rw [he] at h
      simp only at h
      obtain ⟨b1, hb1, h1, h2⟩ := ih b (fun x hx => hc x (List.mem_cons_of_mem _ hx)) h
      exact ⟨b1, List.mem_cons_of_mem _ hb1, h1, h2⟩
    · rw [hat] at h
      simp only [Prod.mk.injEq, true_and] at h
      subst h
      exact ⟨a, List.mem_cons_self _ _, hb, hf⟩

/-- When no commit fails, a transaction that returns `nil` has run its callback
to the end in one of its attempts, on the content it started from, and holds
what that attempt wrote. -/
theorem transaction_ok (f : Attempt → Db → Except AppError Db) (a : Attempt)
    (rest : List Attempt) (db : Db) (hc : ∀ b ∈ a :: rest, b.commitOk = true)
    (h : (Transaction f a rest db).1 = none) :
    ∃ b ∈ a :: rest, b.beginOk = true ∧ f b db = .ok (Transaction f a rest db).2 := by
  unfold Transaction at h ⊢
  cases hr : retryTx f a rest db with
  | mk r d =>
    rw [hr] at h
    cases r with
    | none => exact retryTx_ok f a rest db d hc hr
    | some e => simp at h

/-- A first attempt that begins, whose callback returns `nil` and whose commit
succeeds, ends the transaction with the writes of the callback. -/
theorem transaction_first (f : Attempt → Db → Except AppError Db) (a : Attempt)
    (rest : List Attempt) (db db1 : Db) (hb : a.beginOk = true) (hcm : a.commitOk = true)
    (hf : f a db = .ok db1) : Transaction f a rest db = (none, db1) := by
  have hat : attemptTx f a db = (none, db1) := by
    simp [attemptTx, hb, hf, hcm]
  cases rest <;> simp [Transaction, retryTx, hat]

/-! ## The callbacks -/

theorem patchArticleTx_healthy (db : Db) (art : Article) (req : PatchRequest) (a : Attempt)
    (hnd : (db.articles.map fun x => x.ID).Nodup) (hmem : art ∈ db.articles)
    (hreq : req.ArticleID = art.ID) (hf : a.failAt = none) :
    patchArticleTx art.UserID req a db
      = .ok { db with
              articles := db.articles.map fun x =>
                if x = art then patched (a.now 0) req art else x } := by
  have hfind := find_by_id db.articles art hnd hmem
  have hmap := map_by_id db.articles art
    (fun x => { x with Title := (patched (a.now 0) req art).Title,
                       Body := (patched (a.now 0) req art).Body,
                       UpdatedAt := (patched (a.now 0) req art).UpdatedAt }) hnd hmem
  simp only [patchArticleTx, prepare, execStmt, scanArticle, hf, hreq, hfind]
  simp only [bne_self_eq_false, Bool.false_eq_true, if_false, reduceCtorEq]
  have hid : (patched (a.now 0) req art).ID = art.ID := rfl
  rw [hid, hmap]
  rfl

theorem deleteArticleTx_ok (db db1 : Db) (userID articleID : String) (a : Attempt)
    (h : deleteArticleTx userID articleID a db = .ok db1) :
    db1 = { db with articles := db.articles.filter fun x => !(x.ID == articleID) } := by
  unfold deleteArticleTx scanArticle prepare execStmt at h
  split at h
  · simp at h
  · rename_i article hscan
    split at hscan
    · simp at hscan
    · split at hscan
      · simp at hscan
      · rename_i x hfind
        simp only [Except.ok.injEq] at hscan
        subst hscan
        have hx := List.find?_some hfind
        simp only [beq_iff_eq] at hx
        split at h
        · simp at h
        · split at h
          · simp at h
          · split at h
            · simp at h
            · simp only [Except.ok.injEq] at h
              rw [← h, hx]

theorem favoriteArticleTx_ok (schema : Schema) (db db1 : Db) (art : Article)
    (userID : String) (a : Attempt)
    (hnd : (db.articles.map fun x => x.ID).Nodup) (hmem : art ∈ db.articles)
    (h : favoriteArticleTx schema userID art.ID a db = .ok db1) :
    db1 = { articles := db.articles.map fun x =>
              if x = art then
                { art with TotalFavoriteCount := LoadTest.wrap64 (art.TotalFavoriteCount + 1),
                           UpdatedAt := a.now 0 }
              else x,
            usersArticles := db.usersArticles ++ [⟨userID, art.ID, a.now 1, a.now 2⟩] } := by
  have hfind := find_by_id db.articles art hnd hmem
  have hmap := map_by_id db.articles art
    (fun x => { x with TotalFavoriteCount := LoadTest.wrap64 (art.TotalFavoriteCount + 1),
                       UpdatedAt := a.now 0 }) hnd hmem
  unfold favoriteArticleTx scanArticle prepare at h
  rw [hfind] at h
  split at h
  · simp at h
  · rename_i article hscan
    split at hscan
    · simp at hscan
    · simp only [Except.ok.injEq] at hscan
      subst hscan
      split at h
      · simp at h
      · simp only at h
        split at h
        · simp at h
        · split at h
          · simp at h
          · split at h
            · simp at h
            · simp only [Except.ok.injEq] at h
              rw [← h, hmap]

/-! ## Update, deletion, favourites -/

/-- The update when the commit succeeds: for every stored article of a table
with unique ids and every PATCH request of its owner that the database serves
in the first attempt, commit included, `handlePatchArticle` answers
200 and leaves the article with the title of the request if that is not empty
and its old title otherwise, likewise for the body, `updated_at` equal to the
time of the timer, and its id, `user_id`, `total_favorite_count` and
`created_at` as they were; `handleGetArticle` then returns exactly this row;
every other row of `articles`, and table `users_articles`, are unchanged. -/
theorem patch_sets_title_body_time (db : Db) (art : Article) (req : PatchRequest)
    (a : Attempt) (rest : List Attempt)
    (hnd : (db.articles.map fun x => x.ID).Nodup) (hmem : art ∈ db.articles)
    (hreq : req.ArticleID = art.ID) (ha : a.healthy) :
    ∃ db1 art1,
      handlePatchArticle art.UserID req a rest db = (.ok .noContent, db1) ∧
        art1.Title = (if req.Title = "" then art.Title else req.Title) ∧
        art1.Body = (if req.Body = "" then art.Body else req.Body) ∧
        art1.UpdatedAt = a.now 0 ∧
        art1.ID = art.ID ∧ art1.UserID = art.UserID ∧
        art1.TotalFavoriteCount = art.TotalFavoriteCount ∧
        art1.CreatedAt = art.CreatedAt ∧
        handleGetArticle true art.ID db1 = .ok (.article art1) ∧
        db1.articles = (db.articles.map fun x => if x = art then art1 else x) ∧
        db1.usersArticles = db.usersArticles := by
  obtain ⟨hb, hf, hcm⟩ := ha
  have hcb := patchArticleTx_healthy db art req a hnd hmem hreq hf
  have htx := transaction_first (patchArticleTx art.UserID req) a rest db _ hb hcm hcb
  refine ⟨{ db with
      articles := db.articles.map fun x => if x = art then patched (a.now 0) req art else x },
    patched (a.now 0) req art, ?_, ?_, ?_, rfl, rfl, rfl, rfl, rfl, ?_, rfl, rfl⟩
  · simp only [handlePatchArticle, htx]
  · by_cases ht : req.Title = "" <;> simp [patched, ht]
  · by_cases ht : req.Body = "" <;> simp [patched, ht]
  · have hfind := find_by_id db.articles art hnd hmem
    have hcomp : ((fun x : Article => x.ID == art.ID) ∘
        fun x => if x = art then patched (a.now 0) req art else x)
          = fun x : Article => x.ID == art.ID := by
      funext x
      by_cases hx : x = art
      · subst hx
        simp [patched]
      · simp [hx]
    simp only [handleGetArticle, List.find?_map, hcomp, hfind]
    simp

/-- The update of `Test_E2E`, a new title and an empty body, in an attempt that
the database serves. -/
theorem patch_sets_title_body_time_witness :
    goodAttempt.healthy ∧
      ∃ db1 art1,
        handlePatchArticle article2.UserID ⟨"a2", "title2-1", ""⟩ goodAttempt [] testDb
            = (.ok .noContent, db1) ∧
          art1.Title = (if "title2-1" = "" then article2.Title else "title2-1") ∧
          art1.Body = (if "" = "" then article2.Body else "") ∧
          art1.UpdatedAt = goodAttempt.now 0 ∧
          art1.ID = article2.ID ∧ art1.UserID = article2.UserID ∧
          art1.TotalFavoriteCount = article2.TotalFavoriteCount ∧
          art1.CreatedAt = article2.CreatedAt ∧
          handleGetArticle true article2.ID db1 = .ok (.article art1) ∧
          db1.articles = (testDb.articles.map fun x => if x = article2 then art1 else x) ∧
          db1.usersArticles = testDb.usersArticles :=
  ⟨⟨rfl, rfl, rfl⟩,
    patch_sets_title_body_time testDb article2 ⟨"a2", "title2-1", ""⟩ goodAttempt []
      (by decide) (by decide) rfl ⟨rfl, rfl, rfl⟩⟩

/-- The deletion when no commit fails: for every store and every article `A`
owned by the requester, when `handleDeleteArticle` of `A` has answered 200 and
no attempt had its commit fail, the
list of `handleGetArticleList` holds no item with the id of `A`, and the items
it held before, those of `A` left out, come first in it in the order they had;
the rows behind the list are in the order newest `created_at` first. -/
theorem delete_keeps_other_articles (db : Db) (art : Article) (userID : String)
    (a : Attempt) (rest : List Attempt)
    (hmem : art ∈ db.articles) (howner : art.UserID = userID)
    (hcommit : ∀ b ∈ a :: rest, b.commitOk = true)
    (hok : (handleDeleteArticle userID art.ID a rest db).1 = .ok .noContent) :
    ∃ db1 before after,
      handleDeleteArticle userID art.ID a rest db = (.ok .noContent, db1) ∧
        handleGetArticleList true db = .ok (.list before) ∧
        handleGetArticleList true db1 = .ok (.list after) ∧
        (∀ it ∈ after, it.ArticleID ≠ art.ID) ∧
        List.IsPrefix (before.filter fun it => !(it.ArticleID == art.ID)) after ∧
        after = (selectArticleList db1).map toItem ∧
        (selectArticleList db1).Pairwise fun x y => y.CreatedAt ≤ x.CreatedAt := by
  have htx : (Transaction (deleteArticleTx userID art.ID) a rest db).1 = none := by
    unfold handleDeleteArticle at hok
    cases hT : Transaction (deleteArticleTx userID art.ID) a rest db with
    | mk r d =>
      rw [hT] at hok
      cases r with
      | none => rfl
      | some e => simp at hok
  obtain ⟨b, _, _, hcb⟩ := transaction_ok _ a rest db hcommit htx
  have hdb := deleteArticleTx_ok db _ userID art.ID b hcb
  have hsel : selectArticleList (Transaction (deleteArticleTx userID art.ID) a rest db).2
      = ((orderByCreatedAtDesc db.articles).filter fun x => !(x.ID == art.ID)).take 100 := by
    rw [hdb]
    simp only [selectArticleList]
    rw [orderBy_filter]
  refine ⟨(Transaction (deleteArticleTx userID art.ID) a rest db).2,
    (selectArticleList db).map toItem,
    (selectArticleList (Transaction (deleteArticleTx userID art.ID) a rest db).2).map toItem,
    ?_, ?_, ?_, ?_, ?_, rfl, ?_⟩
  · unfold handleDeleteArticle
    cases hT : Transaction (deleteArticleTx userID art.ID) a rest db with
    | mk r d =>
      rw [hT] at htx
      simp only at htx
      subst htx
      rfl
  · simp only [handleGetArticleList]
    rfl
  · simp only [handleGetArticleList]
    rfl
  · intro it hit
    rw [hsel] at hit
    obtain ⟨x, hx, rfl⟩ := List.mem_map.1 hit
    have hx1 := (List.mem_filter.1 (List.mem_of_mem_take hx)).2
    simpa [toItem] using hx1
  · rw [hsel]
    simp only [selectArticleList]
    have hfm : ((List.take 100 (orderByCreatedAtDesc db.articles)).map toItem).filter
          (fun it => !(it.ArticleID == art.ID))
        = ((List.take 100 (orderByCreatedAtDesc db.articles)).filter
            (fun x => !(x.ID == art.ID))).map toItem := by
      rw [List.filter_map]
      rfl
    rw [hfm]
    exact (filter_take_initial _ _ 100).map toItem
  · rw [hsel]
    exact ((sorted_orderByCreatedAtDesc db.articles).filter _).sublist (List.take_sublist _ _)

/-- The deletion of `Test_E2E` in an attempt that the database serves, after
which the list holds the first article only. -/
theorem delete_keeps_other_articles_witness :
    (handleDeleteArticle "u1" article2.ID goodAttempt [] testDb).1 = .ok .noContent ∧
      ∃ db1 before after,
        handleDeleteArticle "u1" article2.ID goodAttempt [] testDb = (.ok .noContent, db1) ∧
          handleGetArticleList true testDb = .ok (.list before) ∧
          handleGetArticleList true db1 = .ok (.list after) ∧
          (∀ it ∈ after, it.ArticleID ≠ article2.ID) ∧
          List.IsPrefix (before.filter fun it => !(it.ArticleID == article2.ID)) after ∧
          after = (selectArticleList db1).map toItem ∧
          (selectArticleList db1).Pairwise fun x y => y.CreatedAt ≤ x.CreatedAt :=
  ⟨by rfl,
    delete_keeps_other_articles testDb article2 "u1" goodAttempt [] (by decide) rfl
      (by decide) (by rfl)⟩

/-- The favourite when no commit fails: for every article of a table with
unique ids whose `total_favorite_count` is `n < 2^63 - 1` and every user `u`,
when `handlePostFavoriteArticle` has answered 200 and no attempt had its commit
fail, the
article holds the count `n + 1` and the time of the timer as `updated_at`, all
its other columns and all other articles are as they were, the row
`(u, article)` is added to `users_articles`, and the article is in the list of
`handleGetFavoriteArticleList` for `u`. -/
theorem favorite_increments_count (schema : Schema) (db : Db) (art : Article)
    (userID : String) (a : Attempt) (rest : List Attempt)
    (hnd : (db.articles.map fun x => x.ID).Nodup) (hmem : art ∈ db.articles)
    (hlo : -9223372036854775808 ≤ art.TotalFavoriteCount)
    (hn : art.TotalFavoriteCount < 9223372036854775807)
    (hcommit : ∀ b ∈ a :: rest, b.commitOk = true)
    (hok : (handlePostFavoriteArticle schema userID art.ID a rest db).1 = .ok .noContent) :
    ∃ b ∈ a :: rest, ∃ db1 art1 items,
      handlePostFavoriteArticle schema userID art.ID a rest db = (.ok .noContent, db1) ∧
        art1 = { art with TotalFavoriteCount := art.TotalFavoriteCount + 1,
                          UpdatedAt := b.now 0 } ∧
        db1.articles = (db.articles.map fun x => if x = art then art1 else x) ∧
        art1 ∈ db1.articles ∧
        db1.usersArticles = db.usersArticles ++ [⟨userID, art.ID, b.now 1, b.now 2⟩] ∧
        handleGetFavoriteArticleList true userID db1 = .ok (.list items) ∧
        toItem art1 ∈ items := by
  have htx : (Transaction (favoriteArticleTx schema userID art.ID) a rest db).1 = none := by
    unfold handlePostFavoriteArticle at hok
    cases hT : Transaction (favoriteArticleTx schema userID art.ID) a rest db with
    | mk r d =>
      rw [hT] at hok
      cases r with
      | none => rfl
      | some e => simp at hok
  obtain ⟨b, hb, _, hcb⟩ := transaction_ok _ a rest db hcommit htx
  have hdb := favoriteArticleTx_ok schema db _ art userID b hnd hmem hcb
  have hw : LoadTest.wrap64 (art.TotalFavoriteCount + 1) = art.TotalFavoriteCount + 1 := by
    unfold LoadTest.wrap64
    omega
  rw [hw] at hdb
  have hin : ({ art with TotalFavoriteCount := art.TotalFavoriteCount + 1,
                         UpdatedAt := b.now 0 } : Article)
      ∈ (Transaction (favoriteArticleTx schema userID art.ID) a rest db).2.articles := by
    rw [hdb]
    simp only [List.mem_map]
    exact ⟨art, hmem, by simp⟩
  refine ⟨b, hb, (Transaction (favoriteArticleTx schema userID art.ID) a rest db).2,
    { art with TotalFavoriteCount := art.TotalFavoriteCount + 1, UpdatedAt := b.now 0 },
    (selectFavoriteArticleList userID
      (Transaction (favoriteArticleTx schema userID art.ID) a rest db).2).map toItem,
    ?_, rfl, ?_, hin, ?_, rfl, ?_⟩
  · unfold handlePostFavoriteArticle
    cases hT : Transaction (favoriteArticleTx schema userID art.ID) a rest db with
    | mk r d =>
      rw [hT] at htx
      simp only at htx
      subst htx
      rfl
  · rw [hdb]
  · rw [hdb]
  · apply List.mem_map_of_mem
    unfold selectFavoriteArticleList
    rw [mem_orderByCreatedAtDesc, List.mem_filter]
    refine ⟨hin, ?_⟩
    rw [hdb]
    simp

/-- The favourite of `Test_E2E`, on the first article, in an attempt that the
database serves. -/
theorem favorite_increments_count_witness :
    (handlePostFavoriteArticle plainSchema "u9" article1.ID goodAttempt [] testDb).1
        = .ok .noContent ∧
      ∃ b ∈ [goodAttempt], ∃ db1 art1 items,
        handlePostFavoriteArticle plainSchema "u9" article1.ID goodAttempt [] testDb
            = (.ok .noContent, db1) ∧
          art1 = { article1 with TotalFavoriteCount := article1.TotalFavoriteCount + 1,
                                 UpdatedAt := b.now 0 } ∧
          db1.articles = (testDb.articles.map fun x => if x = article1 then art1 else x) ∧
          art1 ∈ db1.articles ∧
          db1.usersArticles
            = testDb.usersArticles ++ [⟨"u9", article1.ID, b.now 1, b.now 2⟩] ∧
          handleGetFavoriteArticleList true "u9" db1 = .ok (.list items) ∧
          toItem art1 ∈ items :=
  ⟨by rfl,
    favorite_increments_count plainSchema testDb article1 "u9" goodAttempt [] (by decide)
      (by decide) (by decide) (by decide) (by decide) (by rfl)⟩

/-! ## Answers of success without a write -/

/-- C16 on the code: the owner `u1` of article `a2` sends a PATCH with a new
title, every call succeeds but `Commit`; the callback has written the new title
and time inside the transaction, `handlePatchArticle` answers 200, and the
store is as it was: `handleGetArticle` still returns the old title and the old
`updated_at`. -/
theorem patch_lost_on_failed_commit :
    article2 ∈ testDb.articles ∧ article2.UserID = "u1" ∧
      lostCommit.beginOk = true ∧ lostCommit.failAt = none ∧ lostCommit.commitOk = false ∧
      patchArticleTx "u1" ⟨"a2", "title2-1", ""⟩ lostCommit testDb
        = .ok ⟨[article1, { article2 with Title := "title2-1", UpdatedAt := 42 }], []⟩ ∧
      handlePatchArticle "u1" ⟨"a2", "title2-1", ""⟩ lostCommit [] testDb
        = (.ok .noContent, testDb) ∧
      handleGetArticle true "a2" testDb = .ok (.article article2) ∧
      article2.Title ≠ "title2-1" ∧ article2.UpdatedAt ≠ lostCommit.now 0 := by
  refine ⟨by decide, rfl, rfl, rfl, rfl, by rfl, by rfl, by rfl, by decide, by decide⟩

/-- C17 on the code: the owner `u1` deletes article `a2`, every call succeeds but
`Commit`; the callback has deleted the row inside the transaction,
`handleDeleteArticle` answers 200, and the list of `handleGetArticleList` still
holds `a2`, first as before.  The two rows have distinct `created_at`, so the
order of the list is the only one the query allows. -/
theorem delete_lost_on_failed_commit :
    article2 ∈ testDb.articles ∧ article2.UserID = "u1" ∧
      lostCommit.beginOk = true ∧ lostCommit.failAt = none ∧ lostCommit.commitOk = false ∧
      deleteArticleTx "u1" "a2" lostCommit testDb = .ok ⟨[article1], []⟩ ∧
      handleDeleteArticle "u1" "a2" lostCommit [] testDb = (.ok .noContent, testDb) ∧
      handleGetArticleList true testDb
        = .ok (.list [⟨"a2", "title2"⟩, ⟨"a1", "title1"⟩]) ∧
      (⟨"a2", "title2"⟩ : ResponseItem) ∈ [(⟨"a2", "title2"⟩ : ResponseItem), ⟨"a1", "title1"⟩] ∧
      (testDb.articles.map fun x => x.CreatedAt).Nodup := by
  refine ⟨by decide, rfl, rfl, rfl, rfl, by rfl, by rfl, by rfl, by decide, by decide⟩

/-- C18 on the code: user `u9` marks article `a1`, whose count is 0, as a
favourite, every call succeeds but `Commit`; the callback has written the count
1 and the pair inside the transaction, `handlePostFavoriteArticle` answers 200,
and the store is as it was: the count read back is 0, `updated_at` is the old
one, no pair is recorded and the list of favourites of `u9` is empty. -/
theorem favorite_lost_on_failed_commit :
    article1 ∈ testDb.articles ∧ article1.TotalFavoriteCount = 0 ∧
      lostCommit.beginOk = true ∧ lostCommit.failAt = none ∧ lostCommit.commitOk = false ∧
      favoriteArticleTx plainSchema "u9" "a1" lostCommit testDb
        = .ok ⟨[{ article1 with TotalFavoriteCount := 1, UpdatedAt := 42 }, article2],
                [⟨"u9", "a1", 42, 42⟩]⟩ ∧
      handlePostFavoriteArticle plainSchema "u9" "a1" lostCommit [] testDb
        = (.ok .noContent, testDb) ∧
      handleGetArticle true "a1" testDb = .ok (.article article1) ∧
      article1.TotalFavoriteCount ≠ 0 + 1 ∧ article1.UpdatedAt ≠ lostCommit.now 0 ∧
      testDb.usersArticles = [] ∧
      handleGetFavoriteArticleList true "u9" testDb = .ok (.list []) := by
  refine ⟨by decide, rfl, rfl, rfl, rfl, by rfl, by rfl, by rfl, by decide, by decide, rfl,
    by rfl⟩

/-! ## Random decisions -/

theorem range_hits (rate : Int) (n : Nat) :
    (((List.range n).filter fun v : Nat => decide (rate > (v : Int))).length : Int)
      = max 0 (min rate n) := by
  induction n with
  | zero =>
    simp only [List.range_zero, List.filter_nil, List.length_nil]
    omega
  | succ m ih =>
    rw [List.range_succ, List.filter_append, List.length_append]
    push_cast
    rw [ih]
    by_cases h : rate > (m : Int)
    · simp only [List.filter_cons, h, decide_True, if_true, List.filter_nil, List.length_cons,
        List.length_nil]
      omega
    · simp only [List.filter_cons, h, decide_False, List.filter_nil, List.length_nil]
      simp
      omega

/-- C19: for every denominator `d > 0` and every rate, `Hit` returns, and returns
true exactly when `rate` is greater than the value drawn, which is in `[0, d)`;
every value of `[0, d)` can be drawn and exactly `max 0 (min rate d)` of these
`d` draws are hits; the result is always true when `rate ≥ d`, never when
`rate ≤ 0`, and for a fixed draw a hit stays a hit when the rate grows. -/
theorem hit_iff_rate_exceeds_draw (rate d : Int) (hd : 0 < d) :
    (∀ raw, ∃ v, Intn raw d = some v ∧ 0 ≤ v ∧ v < d ∧
        Hit raw rate d = some (decide (rate > v))) ∧
      (∀ v, 0 ≤ v → v < d → Intn v d = some v) ∧
      (((List.range d.toNat).filter fun v : Nat => Hit v rate d = some true).length : Int)
        = max 0 (min rate d) ∧
      (d ≤ rate → ∀ raw, Hit raw rate d = some true) ∧
      (rate ≤ 0 → ∀ raw, Hit raw rate d = some false) ∧
      (∀ raw rate2, rate ≤ rate2 → Hit raw rate d = some true →
        Hit raw rate2 d = some true) := by
  have hnd : ¬ d ≤ 0 := by omega
  have hdne : d ≠ 0 := by omega
  have hm0 : ∀ raw : Int, 0 ≤ raw % d := fun raw => Int.emod_nonneg raw hdne
  have hm1 : ∀ raw : Int, raw % d < d := fun raw => Int.emod_lt_of_pos raw hd
  refine ⟨?_, ?_, ?_, ?_, ?_, ?_⟩
  · intro raw
    exact ⟨raw % d, by simp [Intn, hnd], hm0 raw, hm1 raw, by simp [Hit, Intn, hnd]⟩
  · intro v h0 h1
    simp [Intn, hnd, Int.emod_eq_of_lt h0 h1]
  · have hfil : ((List.range d.toNat).filter fun v : Nat => decide (Hit v rate d = some true))
        = (List.range d.toNat).filter fun v : Nat => decide (rate > (v : Int)) := by
      apply List.filter_congr
      intro v hv
      have hv1 : (v : Int) < d := by
        have := List.mem_range.1 hv
        omega
      have hv0 : (0 : Int) ≤ v := by omega
      simp [Hit, Intn, hnd, Int.emod_eq_of_lt hv0 hv1]
    rw [hfil, range_hits]
    have : ((d.toNat : Nat) : Int) = d := Int.toNat_of_nonneg (by omega)
    rw [this]
  · intro h raw
    have := hm1 raw
    simp only [Hit, Intn, hnd, if_false, Option.map_some', Option.some.injEq, decide_eq_true_eq]
    omega
  · intro h raw
    have := hm0 raw
    simp only [Hit, Intn, hnd, if_false, Option.map_some', Option.some.injEq,
      decide_eq_false_iff_not]
    omega
  · intro raw rate2 hle h
    simp only [Hit, Intn, hnd, if_false, Option.map_some', Option.some.injEq,
      decide_eq_true_eq] at h ⊢
    omega

/-- Witness of C19: rate 3 of 5, where the draws 0, 1 and 2 are the hits. -/
theorem hit_iff_rate_exceeds_draw_witness :
    (0 : Int) < 5 ∧ Hit 2 3 5 = some true ∧ Hit 3 3 5 = some false ∧
      (((List.range (5 : Int).toNat).filter fun v : Nat => Hit v 3 5 = some true).length : Int)
        = max 0 (min 3 5) :=
  ⟨by decide, by decide, by decide, (hit_iff_rate_exceeds_draw 3 5 (by decide)).2.2.1⟩

/-! ## A failed commit -/

/-- The pair used by `retryTx` is the value returned by the operation and the
content it leaves; the value of `err` is not part of it. -/
theorem attemptTx_eq_operation (f : Attempt → Db → Except AppError Db) (a : Attempt)
    (db : Db) : attemptTx f a db = ((operation f a db).ret, (operation f a db).db) := by
  unfold attemptTx operation
  by_cases hb : a.beginOk = false
  · simp [hb]
  · cases hf : f a db with
    | error e => simp [hb]
    | ok db1 =>
      by_cases hc : a.commitOk = true
      · simp [hb, hc]
      · simp [hb, hc]

/-- Whatever the callback, if it returns `nil` in the first attempt and `Commit`
then fails, `Transaction` returns `nil` and nothing is written. -/
theorem transaction_lost_commit (f : Attempt → Db → Except AppError Db) (a : Attempt)
    (rest : List Attempt) (db db1 : Db) (hb : a.beginOk = true) (hf : f a db = .ok db1)
    (hc : a.commitOk = false) :
    (operation f a db).err = some (.stack (.sql 101)) ∧
      Transaction f a rest db = (none, db) := by
  have hat : attemptTx f a db = (none, db) := by
    simp [attemptTx, hb, hf, hc]
  constructor
  · simp [operation, hb, hf, hc]
  · cases rest <;> simp [Transaction, retryTx, hat]

/-- C21 on the code: the callback of `handleDeleteArticle` returns `nil`, `Commit`
fails, the error is assigned to `err` inside the operation, and yet the
operation, `Transaction` and the handler report success while the article is
still stored. -/
theorem failed_commit_reported_as_success :
    lostCommit.beginOk = true ∧ lostCommit.commitOk = false ∧
      deleteArticleTx "u1" "a2" lostCommit testDb = .ok ⟨[article1], []⟩ ∧
      operation (deleteArticleTx "u1" "a2") lostCommit testDb
        = ⟨none, some (.stack (.sql 101)), testDb⟩ ∧
      Transaction (deleteArticleTx "u1" "a2") lostCommit [] testDb = (none, testDb) ∧
      handleDeleteArticle "u1" "a2" lostCommit [] testDb = (.ok .noContent, testDb) := by
  refine ⟨rfl, rfl, by rfl, by rfl, by rfl, by rfl⟩

/-! ## Authentication -/

/-- On a path other than `/user`, the validator returns true exactly when the
row of the email is found and the comparison returns anything but the mismatch
error. -/
theorem basicAuthValidator_valid (compare : String → String → CompareResult)
    (scanOk : Bool) (users : List User) (path email password : String)
    (hp : path ≠ "/user") :
    (basicAuthValidator compare scanOk users path email password).valid = true ↔
      scanOk = true ∧ ∃ u, users.find? (fun u => u.Email == email) = some u ∧
        compare u.PasswordHash password ≠ .mismatched := by
  unfold basicAuthValidator
  have hp1 : (path == "/user") = false := by simpa using hp
  simp only [hp1, Bool.false_eq_true, if_false]
  cases scanOk with
  | false => simp
  | true =>
    simp only [if_false, true_and, Bool.true_eq_false]
    cases hfind : users.find? (fun u => u.Email == email) with
    | none => simp
    | some u =>
      simp only [Option.some.injEq, exists_eq_left']
      cases hc : compare u.PasswordHash password <;> simp [CompareResult.isMismatched]

/-- C22 on the code: on path `/articles`, for a user whose stored hash is not
well formed, the comparison fails with an error that is not the mismatch error
and the validator returns true, the user being put in the context. -/
theorem validator_accepts_comparison_error :
    ("/articles" : String) ≠ "/user" ∧
      brokenCompare brokenUser.PasswordHash "guess" = .other 0 ∧
      brokenCompare brokenUser.PasswordHash "guess" ≠ .same ∧
      basicAuthValidator brokenCompare true [brokenUser] "/articles" "e7" "guess"
        = ⟨true, none, some brokenUser⟩ := by
  refine ⟨by decide, rfl, by simp [brokenCompare], by rfl⟩

/-! ## Articles of other users, articles that do not exist -/

/-- A callback that fails in every attempt makes the transaction fail and write
nothing. -/
theorem retryTx_error (f : Attempt → Db → Except AppError Db) (a : Attempt)
    (rest : List Attempt) (db : Db) (hf : ∀ b, ∃ e, f b db = .error e) :
    ∃ e, retryTx f a rest db = (some e, db) := by
  have hat : ∀ b, ∃ e, attemptTx f b db = (some e, db) := by
    intro b
    obtain ⟨e, he⟩ := hf b
    unfold attemptTx
    by_cases hb : b.beginOk = false
    · exact ⟨.stack (.sql 100), by simp [hb]⟩
    · exact ⟨.stack e, by simp [hb, he]⟩
  induction rest generalizing a with
  | nil =>
    simp only [retryTx]
    exact hat a
  | cons b rest ih =>
    simp only [retryTx]
    obtain ⟨e, he⟩ := hat a
    rw [he]
    exact ih b

theorem transaction_error (f : Attempt → Db → Except AppError Db) (a : Attempt)
    (rest : List Attempt) (db : Db) (hf : ∀ b, ∃ e, f b db = .error e) :
    ∃ e, Transaction f a rest db = (some e, db) := by
  obtain ⟨e, he⟩ := retryTx_error f a rest db hf
  exact ⟨.stack e, by simp [Transaction, he]⟩

theorem find_by_id_none (l : List Article) (id : String) (h : ∀ x ∈ l, x.ID ≠ id) :
    l.find? (fun x => x.ID == id) = none := by
  rw [List.find?_eq_none]
  intro x hx
  simpa using h x hx

/-- The callback of the update fails, whatever the database answers, when the
article belongs to another user. -/
theorem patchArticleTx_foreign (db : Db) (art : Article) (userID : String)
    (req : PatchRequest) (b : Attempt)
    (hnd : (db.articles.map fun x => x.ID).Nodup) (hmem : art ∈ db.articles)
    (hreq : req.ArticleID = art.ID) (hother : art.UserID ≠ userID) :
    ∃ e, patchArticleTx userID req b db = .error e := by
  have hfind := find_by_id db.articles art hnd hmem
  unfold patchArticleTx prepare scanArticle
  rw [hreq, hfind]
  by_cases h0 : b.failAt = some 0
  · exact ⟨.stack (.stack (.sql 0)), by simp [h0]⟩
  · by_cases h1 : b.failAt = some 1
    · exact ⟨.stack (.sql 1), by simp [h1]⟩
    · exact ⟨.http 403, by simp [h0, h1, hother]⟩

/-- The callback of the deletion fails, whatever the database answers, when the
article belongs to another user. -/
theorem deleteArticleTx_foreign (db : Db) (art : Article) (userID : String) (b : Attempt)
    (hnd : (db.articles.map fun x => x.ID).Nodup) (hmem : art ∈ db.articles)
    (hother : art.UserID ≠ userID) :
    ∃ e, deleteArticleTx userID art.ID b db = .error e := by
  have hfind := find_by_id db.articles art hnd hmem
  unfold deleteArticleTx scanArticle
  rw [hfind]
  by_cases h0 : b.failAt = some 0
  · exact ⟨.stack (.sql 0), by simp [h0]⟩
  · exact ⟨.http 403, by simp [h0, hother]⟩

/-- C23: when the reads of the callback are served, for every stored article of
a table with unique ids whose `user_id` is not the id of the requester, the
callbacks of `handlePatchArticle` and `handleDeleteArticle` return the error
403, have sent the `SELECT` and no `UPDATE` or `DELETE`, and the handlers,
whatever the attempts, return an error and leave the store as it is; for an id
that no stored article has, the callbacks return the error 404, again without
`UPDATE` or `DELETE`. -/
theorem callbacks_refuse_foreign_and_missing (db : Db) (userID articleID : String)
    (req : PatchRequest) (a : Attempt) (hreq : req.ArticleID = articleID)
    (h0 : a.failAt ≠ some 0) (h1 : a.failAt ≠ some 1) :
    (∀ art ∈ db.articles, (db.articles.map fun x => x.ID).Nodup → art.ID = articleID →
        art.UserID ≠ userID →
        patchArticleTx userID req a db = .error (.http 403) ∧
          deleteArticleTx userID articleID a db = .error (.http 403) ∧
          patchArticleStmts userID req a db = [.selectArticle articleID] ∧
          deleteArticleStmts userID articleID a db = [.selectArticle articleID] ∧
          (∀ b rest, ∃ e, handlePatchArticle userID req b rest db = (.error e, db)) ∧
          (∀ b rest, ∃ e, handleDeleteArticle userID articleID b rest db = (.error e, db))) ∧
      ((∀ x ∈ db.articles, x.ID ≠ articleID) →
        patchArticleTx userID req a db = .error (.http 404) ∧
          deleteArticleTx userID articleID a db = .error (.http 404) ∧
          patchArticleStmts userID req a db = [.selectArticle articleID] ∧
          deleteArticleStmts userID articleID a db = [.selectArticle articleID]) := by
  constructor
  · intro art hmem hnd hid hother
    subst hid
    have hfind := find_by_id db.articles art hnd hmem
    refine ⟨?_, ?_, ?_, ?_, ?_, ?_⟩
    · simp [patchArticleTx, prepare, scanArticle, h0, h1, hreq, hfind, hother]
    · simp [deleteArticleTx, scanArticle, h0, hfind, hother]
    · simp [patchArticleStmts, prepare, scanArticle, h0, h1, hreq, hfind, hother]
    · simp [deleteArticleStmts, scanArticle, h0, hfind, hother]
    · intro b rest
      obtain ⟨e, he⟩ := transaction_error (patchArticleTx userID req) b rest db
        (fun b1 => patchArticleTx_foreign db art userID req b1 hnd hmem hreq hother)
      exact ⟨.stack e, by simp [handlePatchArticle, he]⟩
    · intro b rest
      obtain ⟨e, he⟩ := transaction_error (deleteArticleTx userID art.ID) b rest db
        (fun b1 => deleteArticleTx_foreign db art userID b1 hnd hmem hother)
      exact ⟨.stack e, by simp [handleDeleteArticle, he]⟩
  · intro hmiss
    have hfind := find_by_id_none db.articles articleID hmiss
    refine ⟨?_, ?_, ?_, ?_⟩
    · simp [patchArticleTx, prepare, scanArticle, h0, h1, hreq, hfind]
    · simp [deleteArticleTx, scanArticle, h0, hfind]
    · simp [patchArticleStmts, prepare, scanArticle, h0, h1, hreq, hfind]
    · simp [deleteArticleStmts, scanArticle, h0, hfind]

/-- Witness of C23: user `u1` on the article `a3` of user `u2`, and on the id
`a9` that no article has. -/
theorem callbacks_refuse_foreign_and_missing_witness :
    article3 ∈ sharedDb.articles ∧ article3.UserID ≠ "u1" ∧
      (patchArticleTx "u1" ⟨"a3", "t", "b"⟩ goodAttempt sharedDb = .error (.http 403) ∧
        deleteArticleTx "u1" "a3" goodAttempt sharedDb = .error (.http 403) ∧
        patchArticleStmts "u1" ⟨"a3", "t", "b"⟩ goodAttempt sharedDb = [.selectArticle "a3"] ∧
        deleteArticleStmts "u1" "a3" goodAttempt sharedDb = [.selectArticle "a3"] ∧
        (∀ b rest, ∃ e,
          handlePatchArticle "u1" ⟨"a3", "t", "b"⟩ b rest sharedDb = (.error e, sharedDb)) ∧
        (∀ b rest, ∃ e, handleDeleteArticle "u1" "a3" b rest sharedDb = (.error e, sharedDb))) ∧
      (patchArticleTx "u1" ⟨"a9", "t", "b"⟩ goodAttempt sharedDb = .error (.http 404) ∧
        deleteArticleTx "u1" "a9" goodAttempt sharedDb = .error (.http 404) ∧
        patchArticleStmts "u1" ⟨"a9", "t", "b"⟩ goodAttempt sharedDb = [.selectArticle "a9"] ∧
        deleteArticleStmts "u1" "a9" goodAttempt sharedDb = [.selectArticle "a9"]) :=
  ⟨by decide, by decide,
    (callbacks_refuse_foreign_and_missing sharedDb "u1" "a3" ⟨"a3", "t", "b"⟩ goodAttempt rfl
      (by decide) (by decide)).1 article3 (by decide) (by decide) rfl (by decide),
    (callbacks_refuse_foreign_and_missing sharedDb "u1" "a9" ⟨"a9", "t", "b"⟩ goodAttempt rfl
      (by decide) (by decide)).2 (by decide)⟩

end Blog
